import Mathlib

/-!
# Tensor permutation, pairwise distance, fill and sampling routines of `math_functions.cpp`

A shallow embedding of `caffe_cpu_permute`, `Get_dist_matrix_cpu`, `caffe_set` and the
`caffe_rng_*` samplers (`src/caffe_dev/src/caffe/util/math_functions.cpp`) together with
theorems about them.

Modelling conventions.

* C++ `int` values are mathematical integers (`Int`) in `caffe_cpu_permute` and
  `Get_dist_matrix_cpu`. The C++ code agrees with this arithmetic as long as no operation leaves
  the range of `int`; theorems with a hypothesis that bounds the element count by `INT_MAX`
  (`shape.prod ≤ INT_MAX`; for the distance matrix `feaNum * feaNum ≤ INT_MAX` and
  `feaNum * feaDim ≤ INT_MAX`) are stated for exactly those inputs.
  `caffe_cpu_permute_checked` and `Get_dist_matrix_cpu_checked` are the same routines with every
  `int` operation checked for overflow, and `permute_checked_eq` and `dist_checked_eq` prove
  that under these hypotheses they run identically, so that no product, sum, difference,
  quotient or remainder overflows. A theorem without such a hypothesis holds of the unbounded
  arithmetic for all inputs, and of the C++ code where the element count fits in `int`.
* `std::vector<int>` and the pointer arguments are lists; an access outside the list is undefined
  behaviour in C++ and makes the embedding return `none`, as does a division by zero.
* A `for` loop whose counter runs over a non-negative range is a recursion over a natural-number
  counter (`forUp`, `forDown`); the counter is cast to `Int` wherever the code uses it as a value.
* `/` and `%` on `int` are the truncating `Int.tdiv` and `Int.tmod`.
* `caffe_cpu_permute` takes the two buffers as separate lists; `caffe_cpu_permute_mem` is the
  same routine with both buffers as regions of one memory, used where a statement is about what
  the call leaves unchanged.
-/

namespace Caffe

/-! ## Memory access and loops -/

/-- Read `v[k]` for an `int` index `k`; `none` when `k` is outside the vector. -/
def readAt {β : Type} (v : List β) (k : Int) : Option β :=
  if 0 ≤ k then v[k.toNat]? else none

/-- Store `v[k] = x` for a loop counter `k`; `none` when `k` is outside the vector. -/
def setAt {β : Type} (v : List β) (k : Nat) (x : β) : Option (List β) :=
  if k < v.length then some (v.set k x) else none

/-- Store `v[k] = x` for an `int` index `k`; `none` when `k` is outside the vector. -/
def writeAt {β : Type} (v : List β) (k : Int) (x : β) : Option (List β) :=
  if 0 ≤ k then setAt v k.toNat x else none

/-- Ascending loop: `forUp body n lo s` runs `body lo`, `body (lo+1)`, ..., `body (lo+n-1)`.
`for (int j = lo; j < hi; j++)` is `forUp body (hi - lo) lo`. -/
def forUp {σ : Type} (body : Nat → σ → Option σ) : Nat → Nat → σ → Option σ
  | 0, _, s => some s
  | n + 1, lo, s => (body lo s).bind (forUp body n (lo + 1))

/-- Descending loop: `forDown body n s` runs `body (n-1)`, ..., `body 0`.
`for (int i = m; i >= 0; i--)` is `forDown body (m + 1)`. -/
def forDown {σ : Type} (body : Nat → σ → Option σ) : Nat → σ → Option σ
  | 0, s => some s
  | n + 1, s => (body n s).bind (forDown body n)

/-! ## `caffe_cpu_permute` -/

/-- The statement `cap[i] *= dims[j]` of the inner product loops (lines 452-453, 462-463). -/
def capacityInner (dims : List Int) (i j : Nat) (cap : List Int) : Option (List Int) :=
  (cap[i]?).bind fun c => (dims[j]?).bind fun d => setAt cap i (c * d)

/-- Body of the stride loops (lines 450-454, 460-464): `cap[i] = 1`, then the product of the
extents `dims[i+1 .. dimsize-1]`. -/
def capacityBody (dims : List Int) (dimsize i : Nat) (cap : List Int) : Option (List Int) :=
  (setAt cap i 1).bind (forUp (capacityInner dims i) (dimsize - (i + 1)) (i + 1))

/-- The stride loop `for (int i = dimsize-2; i >= 0; i--)` (lines 449-454 for `dim_capacity`,
lines 459-464 for `dstdim_capacity`: the same loop text over a different extent vector). -/
def capacityTable (dims : List Int) (dimsize : Nat) (cap : List Int) : Option (List Int) :=
  forDown (capacityBody dims dimsize) (dimsize - 1) cap

/-- Body of lines 455-458: `dstdimensions[i] = dimensions[order[i]]`. -/
def dstdimBody (dimensions order : List Int) (i : Nat) (dstdimensions : List Int) :
    Option (List Int) :=
  (order[i]?).bind fun o => (readAt dimensions o).bind fun d => setAt dstdimensions i d

/-- Body of lines 472-476, on the pair `(dstidx, temp)`:
`dstidx[j] = temp / dstdim_capacity[j]; temp = temp % dstdim_capacity[j]`. -/
def decomposeBody (dstdim_capacity : List Int) (j : Nat) (s : List Int × Int) :
    Option (List Int × Int) :=
  (dstdim_capacity[j]?).bind fun c =>
    if c = 0 then none
    else (setAt s.1 j (Int.tdiv s.2 c)).bind fun dstidx => some (dstidx, Int.tmod s.2 c)

/-- Lines 477-480: `if (flipdim >= 0) dstidx[flipdim] = dstdimensions[flipdim] - 1 - dstidx[flipdim]`. -/
def flipStep (dstdimensions : List Int) (flipdim : Int) (dstidx : List Int) : Option (List Int) :=
  if 0 ≤ flipdim then
    (readAt dstdimensions flipdim).bind fun e =>
      (readAt dstidx flipdim).bind fun x => writeAt dstidx flipdim (e - 1 - x)
  else some dstidx

/-- Body of lines 481-484: `idx[order[j]] = dstidx[j]`. -/
def scatterBody (order dstidx : List Int) (j : Nat) (idx : List Int) : Option (List Int) :=
  (order[j]?).bind fun o => (dstidx[j]?).bind fun x => writeAt idx o x

/-- Body of lines 486-489: `curidx += idx[j] * dim_capacity[j]`. -/
def accumBody (idx dim_capacity : List Int) (j : Nat) (curidx : Int) : Option Int :=
  (idx[j]?).bind fun x => (dim_capacity[j]?).bind fun c => some (curidx + x * c)

/-- The mutable state of the main loop: the scratch vectors `idx` and `dstidx`, which the code
does not reset between iterations, and the output buffer. The fields `reads` and `writes` are
ghost traces: the source indices `curidx` read from `datain` and the positions of `dataout`
stored to, in execution order. -/
structure PermuteState (α : Type) where
  idx : List Int
  dstidx : List Int
  dataout : List α
  reads : List Int
  writes : List Nat

/-- One iteration of the main loop (lines 469-491) for the counter value `i`. -/
def permuteBody {α : Type} (datain : List α)
    (dstdimensions dim_capacity dstdim_capacity order : List Int) (dimsize : Nat) (flipdim : Int)
    (i : Nat) (s : PermuteState α) : Option (PermuteState α) :=
  (forUp (decomposeBody dstdim_capacity) dimsize 0 (s.dstidx, (i : Int))).bind fun r =>
  (flipStep dstdimensions flipdim r.1).bind fun dstidx =>
  (forUp (scatterBody order dstidx) dimsize 0 s.idx).bind fun idx =>
  (forUp (accumBody idx dim_capacity) dimsize 0 0).bind fun curidx =>
  (readAt datain curidx).bind fun x =>
  (setAt s.dataout i x).bind fun dataout =>
  some { idx := idx, dstidx := dstidx, dataout := dataout,
         reads := s.reads ++ [curidx], writes := s.writes ++ [i] }

/-- The function `caffe_cpu_permute` (lines 435-493). `datain` and `dataout` are the two buffers
(distinct objects, so they do not alias); the result is the final state of the main loop, or
`none` when the run has undefined behaviour. A negative `dimsize` makes `resize` throw. -/
def caffe_cpu_permute {α : Type} (datain dataout : List α) (dimensions order : List Int)
    (dimsize flipdim : Int) : Option (PermuteState α) :=
  if dimsize < 0 then none
  else
    let n := dimsize.toNat
    (capacityTable dimensions n (List.replicate n 1)).bind fun dim_capacity =>
    (forUp (dstdimBody dimensions order) n 0 (List.replicate n 0)).bind fun dstdimensions =>
    (capacityTable dstdimensions n (List.replicate n 1)).bind fun dstdim_capacity =>
    (dim_capacity[0]?).bind fun c0 =>
    (dimensions[0]?).bind fun d0 =>
    let count := c0 * d0
    forUp (permuteBody datain dstdimensions dim_capacity dstdim_capacity order n flipdim)
      count.toNat 0
      { idx := List.replicate n 0, dstidx := List.replicate n 0, dataout := dataout,
        reads := [], writes := [] }


/-! ## Closed forms on natural numbers

The extents, indices and strides that occur under the preconditions are natural numbers. The
definitions below are the closed forms that the loops of `caffe_cpu_permute` are proved to
compute; they are not used in the definition of `caffe_cpu_permute`. -/

/-- Row-major stride table of a shape: entry `i` is the product of the extents after axis `i`. -/
def strides (sh : List Nat) : List Nat :=
  (List.range sh.length).map fun i => (sh.drop (i + 1)).prod

/-- The permuted shape: `dstShape shape ord` has extent `shape[ord[j]]` at axis `j`. -/
def dstShape (shape ord : List Nat) : List Nat :=
  ord.map fun o => shape.getD o 0

/-- Mixed-radix digits of the linear index `p` in the row-major layout of shape `sh`. -/
def digits (sh : List Nat) (p : Nat) : List Nat :=
  (List.range sh.length).map fun j => p % (sh.drop j).prod / (sh.drop (j + 1)).prod

/-- Reversal of the coordinate at axis `flipdim` (when `flipdim` is not negative) of the
multi-index `d` within the shape `dst`. -/
def flipAt (dst : List Nat) (flipdim : Int) (d : List Nat) : List Nat :=
  if 0 ≤ flipdim then
    d.set flipdim.toNat (dst.getD flipdim.toNat 0 - 1 - d.getD flipdim.toNat 0)
  else d

/-- The multi-index `s` with `s[ord[j]] = d[j]`, for a permutation `ord`. -/
def scatter (ord d : List Nat) : List Nat :=
  (List.range ord.length).map fun k => d.getD (ord.indexOf k) 0

/-- Row-major linear index of the multi-index `d` in shape `sh`: the sum of `d[j]` times the
product of the extents after axis `j`. -/
def linearIndex : List Nat → List Nat → Nat
  | _ :: es, x :: xs => x * es.prod + linearIndex es xs
  | _, _ => 0

/-- Closed form of the source index `curidx` that iteration `p` of the main loop computes. -/
def srcIndex (shape ord : List Nat) (flipdim : Int) (p : Nat) : Nat :=
  linearIndex shape
    (scatter ord (flipAt (dstShape shape ord) flipdim (digits (dstShape shape ord) p)))

/-- The multi-index `d` lies within the shape `sh`: one coordinate per axis, each below its
extent. -/
def InShape (sh d : List Nat) : Prop :=
  d.length = sh.length ∧ ∀ j, j < sh.length → d.getD j 0 < sh.getD j 0

/-! ## `Get_dist_matrix_cpu` -/

/-- The mutable state of `Get_dist_matrix_cpu`: the difference buffer `temp` (accessed through
`t`), the scalar `dist` and the output matrix. The fields `evals` and `stores` are ghost traces:
the pairs `(r, c)` for which the subtract and dot primitives were evaluated and the positions of
`distmatrix` stored to, in execution order. -/
structure DistState (α : Type) where
  t : List α
  dist : α
  distmatrix : List α
  evals : List (Nat × Nat)
  stores : List Int

/-- Body of the inner loop (lines 547-557) for the counter values `r` and `c`. The external
primitives behind `caffe_sub` (`vsSub`, `vdSub`) and `caffe_cpu_dot` (`cblas_sdot`, `cblas_ddot`)
are parameters: `caffe_sub n a b y` is the new content of the buffer `y`, `caffe_cpu_dot n x y`
the returned scalar. The pointer `inputdata + k` is the list `inputdata.drop k`. -/
def distInner {α : Type} [Zero α] (caffe_sub : Int → List α → List α → List α → List α)
    (caffe_cpu_dot : Int → List α → List α → α) (inputdata : List α) (feaNum feaDim : Int)
    (r c : Nat) (s : DistState α) : Option (DistState α) :=
  if r = c then
    (writeAt s.distmatrix ((r : Int) * feaNum + (c : Int)) 0).bind fun dm =>
      some { s with distmatrix := dm,
                    stores := s.stores ++ [(r : Int) * feaNum + (c : Int)] }
  else
    let t := caffe_sub feaDim (inputdata.drop ((r : Int) * feaDim).toNat)
      (inputdata.drop ((c : Int) * feaDim).toNat) s.t
    let dist := caffe_cpu_dot feaDim t t
    (writeAt s.distmatrix ((r : Int) * feaNum + (c : Int)) dist).bind fun dm1 =>
    (writeAt dm1 ((c : Int) * feaNum + (r : Int)) dist).bind fun dm2 =>
      some { t := t, dist := dist, distmatrix := dm2, evals := s.evals ++ [(r, c)],
             stores := s.stores ++ [(r : Int) * feaNum + (c : Int),
                                    (c : Int) * feaNum + (r : Int)] }

/-- The function `Get_dist_matrix_cpu` (lines 535-560). A negative `feaDim` makes the
constructor of `temp` throw; `t = &temp[0]` is the address of the buffer `temp`. The result is
the final state, or `none` when the run has undefined behaviour. -/
def Get_dist_matrix_cpu {α : Type} [Zero α]
    (caffe_sub : Int → List α → List α → List α → List α)
    (caffe_cpu_dot : Int → List α → List α → α) (inputdata : List α) (feaNum feaDim : Int)
    (distmatrix : List α) : Option (DistState α) :=
  if feaDim < 0 then none
  else
    forUp (fun r => forUp (distInner caffe_sub caffe_cpu_dot inputdata feaNum feaDim r)
        feaNum.toNat 0) feaNum.toNat 0
      { t := List.replicate feaDim.toNat 0, dist := 0, distmatrix := distmatrix,
        evals := [], stores := [] }

/-- Modelled from the spec: the element-wise subtract primitive behind `caffe_sub` (the external
`vsSub`/`vdSub`) over exact arithmetic, `y[i] = a[i] - b[i]` for `i < n`; the rest of `y` is
kept. -/
def subExact {α : Type} [CommRing α] (n : Int) (a b y : List α) : List α :=
  ((List.range n.toNat).map fun i => a.getD i 0 - b.getD i 0) ++ y.drop n.toNat

/-- Modelled from the spec: the dot-product primitive behind `caffe_cpu_dot` (the external
`cblas_sdot`/`cblas_ddot`) over exact arithmetic, the sum of `x[i] * y[i]` for `i < n`. -/
def dotExact {α : Type} [CommRing α] (n : Int) (x y : List α) : α :=
  ((List.range n.toNat).map fun i => x.getD i 0 * y.getD i 0).sum

/-- Squared Euclidean distance of the rows `r` and `c` of the row-major matrix `X` with `feaDim`
columns: the sum over `k < feaDim` of `(X[r][k] - X[c][k])^2`. -/
def sqDist {α : Type} [CommRing α] (X : List α) (feaDim r c : Nat) : α :=
  ((List.range feaDim).map fun k =>
    (X.getD (r * feaDim + k) 0 - X.getD (c * feaDim + k) 0) ^ 2).sum

/-- The invariant of the two loops of `Get_dist_matrix_cpu` before iteration `(r, c)`: the
diagonal entries and the pairs of mirrored entries of the rows already visited. `R i j x` is any
property that the value computed for a pair has for both orientations. -/
def DistInv {α : Type} [Zero α] (R : Nat → Nat → α → Prop) (N len r c : Nat)
    (s : DistState α) : Prop :=
  s.distmatrix.length = len ∧
  (∀ i, i < N → (i < r ∨ (i = r ∧ i < c)) → s.distmatrix[i * N + i]? = some 0) ∧
  (∀ i j, i < N → j < N → i ≠ j → (i < r ∨ (i = r ∧ j < c)) →
    ∃ x, s.distmatrix[i * N + j]? = some x ∧ s.distmatrix[j * N + i]? = some x ∧
      R i j x ∧ R j i x)

/-! ## Reference definitions for the refinement statements -/

/-- Runs a loop body for the counter values listed in `schedule`, in that order: the main loop
of `caffe_cpu_permute` with its iterations executed in another order. -/
def forSchedule {σ : Type} (body : Nat → σ → Option σ) : List Nat → σ → Option σ
  | [], s => some s
  | k :: ks, s => (body k s).bind (forSchedule body ks)

/-- The permuted buffer as a map of a pure function of the destination index `p` alone over
`[0, total)`: entry `p` is `datain[srcIndex p]`, with no state carried between entries. -/
def permutePure {α : Type} (datain : List α) (shape ord : List Nat) (flipdim : Int) :
    List (Option α) :=
  (List.range shape.prod).map fun p => datain[srcIndex shape ord flipdim p]?

/-- The invariant of the ghost traces of `Get_dist_matrix_cpu` before iteration `(r, c)`: how
often each pair was evaluated and each location of `distmatrix` stored to by the iterations
already run. -/
def TraceInv {α : Type} (N len r c : Nat) (s : DistState α) : Prop :=
  s.distmatrix.length = len ∧
  s.evals.length = r * (N - 1) + (if c ≤ r then c else c - 1) ∧
  (∀ i j, i < N → j < N →
    s.evals.count (i, j) = if i ≠ j ∧ (i < r ∨ (i = r ∧ j < c)) then 1 else 0) ∧
  (∀ i j, i < N → j < N → i ≠ j →
    s.stores.count ((i * N + j : Nat) : Int)
      = (if i < r ∨ (i = r ∧ j < c) then 1 else 0)
        + (if j < r ∨ (j = r ∧ i < c) then 1 else 0)) ∧
  (∀ i, i < N →
    s.stores.count ((i * N + i : Nat) : Int) = if i < r ∨ (i = r ∧ i < c) then 1 else 0)

/-! ## `caffe_set` (the `int` instantiation) -/

/-- Modelled from the spec: the external `memset(Y, 0, sizeof(int) * N)` on a buffer of `int`.
Zeroing the bytes of the first `N` elements makes each of them the integer `0`; a byte count
beyond the buffer (also a negative `N`, which converts to a huge `size_t`) is undefined
behaviour. -/
def memsetZero (Y : List Int) (N : Int) : Option (List Int) :=
  if 0 ≤ N ∧ N.toNat ≤ Y.length then some (List.replicate N.toNat 0 ++ Y.drop N.toNat)
  else none

/-- The general path of `caffe_set` (lines 62-64): `for (int i = 0; i < N; ++i) Y[i] = alpha`. -/
def caffe_set_fill (N : Int) (alpha : Int) (Y : List Int) : Option (List Int) :=
  forUp (fun i y => setAt y i alpha) N.toNat 0 Y

/-- The function `caffe_set<int>` (lines 56-65): the `memset` fast path when `alpha == 0`,
the fill loop otherwise. -/
def caffe_set (N : Int) (alpha : Int) (Y : List Int) : Option (List Int) :=
  if alpha = 0 then memsetZero Y N else caffe_set_fill N alpha Y

/-! ## The random samplers -/

/-- The state a sampler works on: the output buffer `r`, the state of the generator, and two
ghost traces: the positions of `r` stored to, in order, and the number of draws. -/
structure RngState (β G : Type) where
  r : List β
  gen : G
  writes : List Nat
  draws : Nat

/-- How a call of a sampler ends: `aborted` by a failed check, with the output pointer and the
generator as they were at that point and the traces so far; `returned` normally; or `undefined`
(a store outside the buffer). -/
inductive RngResult (β G : Type) where
  | aborted (r : Option (List β)) (gen : G) (writes : List Nat) (draws : Nat)
  | returned (s : RngState β G)
  | undefined

/-- Modelled from the spec: the glog macros `CHECK`, `CHECK_GE`, `CHECK_LE` and `CHECK_GT`
(not under `src/`) fail fast: when the condition is false the call is aborted at that point,
otherwise execution continues with `k`. -/
def CHECK {β G : Type} (cond : Bool) (r : Option (List β)) (gen : G) (k : RngResult β G) :
    RngResult β G :=
  if cond then k else RngResult.aborted r gen [] 0

/-- Body of the sampling loops: `r[i] = variate_generator()`, one draw from the generator. -/
def rngLoopBody {β G : Type} (draw : G → β × G) (i : Nat) (s : RngState β G) :
    Option (RngState β G) :=
  (setAt s.r i (draw s.gen).1).bind fun r' =>
    some { r := r', gen := (draw s.gen).2, writes := s.writes ++ [i], draws := s.draws + 1 }

/-- The sampling loop `for (int i = 0; i < n; ++i) r[i] = variate_generator();`, where `draw`
is one call of the `variate_generator` built on the process-wide generator. -/
def rngLoop {β G : Type} (draw : G → β × G) (n : Int) (r : Option (List β)) (gen : G) :
    RngResult β G :=
  match r with
  | none => RngResult.undefined
  | some buf =>
    match forUp (rngLoopBody draw) n.toNat 0 { r := buf, gen := gen, writes := [], draws := 0 } with
    | some s => RngResult.returned s
    | none => RngResult.undefined

/-- The function `caffe_rng_uniform` (lines 245-256). The external `boost::math::nextafter`
behind `caffe_nextafter` and the draw of `boost::uniform_real` are parameters. -/
def caffe_rng_uniform {α G : Type} [LinearOrder α] (nextafter : α → α)
    (uniform_real : α → α → G → α × G) (n : Int) (a b : α) (r : Option (List α)) (gen : G) :
    RngResult α G :=
  CHECK (decide (0 ≤ n)) r gen <|
  CHECK r.isSome r gen <|
  CHECK (decide (a ≤ b)) r gen <|
  rngLoop (uniform_real a (nextafter b)) n r gen

/-- The function `caffe_rng_gaussian` (lines 266-278). The draw of
`boost::normal_distribution` is a parameter. -/
def caffe_rng_gaussian {α G : Type} [LinearOrder α] [Zero α]
    (normal_distribution : α → α → G → α × G) (n : Int) (a sigma : α) (r : Option (List α))
    (gen : G) : RngResult α G :=
  CHECK (decide (0 ≤ n)) r gen <|
  CHECK r.isSome r gen <|
  CHECK (decide (0 < sigma)) r gen <|
  rngLoop (normal_distribution a sigma) n r gen

/-- The function `caffe_rng_bernoulli` with `int` output (lines 288-300). The draw of
`boost::bernoulli_distribution`, a `bool`, is a parameter; it is stored as `0` or `1`. -/
def caffe_rng_bernoulli {α G : Type} [LinearOrder α] [Zero α] [One α]
    (bernoulli_distribution : α → G → Bool × G) (n : Int) (p : α) (r : Option (List Int))
    (gen : G) : RngResult Int G :=
  CHECK (decide (0 ≤ n)) r gen <|
  CHECK r.isSome r gen <|
  CHECK (decide (0 ≤ p)) r gen <|
  CHECK (decide (p ≤ 1)) r gen <|
  rngLoop (fun g => (if (bernoulli_distribution p g).1 then (1 : Int) else 0,
    (bernoulli_distribution p g).2)) n r gen

/-- The function `caffe_rng_bernoulli` with `unsigned int` output (lines 308-320):
`r[i] = static_cast<unsigned int>(variate_generator())`. -/
def caffe_rng_bernoulli_unsigned {α G : Type} [LinearOrder α] [Zero α] [One α]
    (bernoulli_distribution : α → G → Bool × G) (n : Int) (p : α) (r : Option (List Nat))
    (gen : G) : RngResult Nat G :=
  CHECK (decide (0 ≤ n)) r gen <|
  CHECK r.isSome r gen <|
  CHECK (decide (0 ≤ p)) r gen <|
  CHECK (decide (p ≤ 1)) r gen <|
  rngLoop (fun g => (if (bernoulli_distribution p g).1 then (1 : Nat) else 0,
    (bernoulli_distribution p g).2)) n r gen

/-- The state of the generator after `k` draws from `gen`; not used in the definition of the
samplers. -/
def genAfter {β G : Type} (draw : G → β × G) : Nat → G → G
  | 0, g => g
  | k + 1, g => (draw (genAfter draw k g)).2

/-! ## The range of `int` -/

/-- The largest value of the 32-bit type `int`. -/
def INT_MAX : Nat := 2147483647

/-! ## `caffe_cpu_permute` with both buffers in one memory -/

/-- The state of the main loop when the pointers `datain` and `dataout` are addresses into one
memory `mem`: the scratch vectors and the memory. The fields `loads` and `stores` are ghost
traces: the addresses of `mem` read and stored to, in execution order. -/
structure PermuteMemState (α : Type) where
  idx : List Int
  dstidx : List Int
  mem : List α
  loads : List Int
  stores : List Nat

/-- One iteration of the main loop (lines 469-491) on one memory: the index computation is the
one of `permuteBody`; the copy `dataout[i] = datain[curidx]` (line 490) loads from the address
`datain + curidx` and stores to the address `dataout + i`. -/
def permuteBodyMem {α : Type} (datain dataout : Nat)
    (dstdimensions dim_capacity dstdim_capacity order : List Int) (dimsize : Nat) (flipdim : Int)
    (i : Nat) (s : PermuteMemState α) : Option (PermuteMemState α) :=
  (forUp (decomposeBody dstdim_capacity) dimsize 0 (s.dstidx, (i : Int))).bind fun r =>
  (flipStep dstdimensions flipdim r.1).bind fun dstidx =>
  (forUp (scatterBody order dstidx) dimsize 0 s.idx).bind fun idx =>
  (forUp (accumBody idx dim_capacity) dimsize 0 0).bind fun curidx =>
  (readAt s.mem ((datain : Int) + curidx)).bind fun x =>
  (setAt s.mem (dataout + i) x).bind fun mem =>
  some { idx := idx, dstidx := dstidx, mem := mem,
         loads := s.loads ++ [(datain : Int) + curidx], stores := s.stores ++ [dataout + i] }

/-- The function `caffe_cpu_permute` (lines 435-493) on one memory `mem`, in which `datain` and
`dataout` are the addresses of the first elements of the two buffers, so that the buffers may
overlap and a store is visible to later loads. The arrays `dimensions` and `order` hold `int`,
not `Dtype`, and the five vectors are locals: they stay lists of their own. The set-up of the
tables and of `count` is the one of `caffe_cpu_permute`; the result is the final state, or `none`
when the run leaves `mem` or divides by zero. -/
def caffe_cpu_permute_mem {α : Type} (mem : List α) (datain dataout : Nat)
    (dimensions order : List Int) (dimsize flipdim : Int) : Option (PermuteMemState α) :=
  if dimsize < 0 then none
  else
    let n := dimsize.toNat
    (capacityTable dimensions n (List.replicate n 1)).bind fun dim_capacity =>
    (forUp (dstdimBody dimensions order) n 0 (List.replicate n 0)).bind fun dstdimensions =>
    (capacityTable dstdimensions n (List.replicate n 1)).bind fun dstdim_capacity =>
    (dim_capacity[0]?).bind fun c0 =>
    (dimensions[0]?).bind fun d0 =>
    let count := c0 * d0
    forUp (permuteBodyMem datain dataout dstdimensions dim_capacity dstdim_capacity order n
        flipdim) count.toNat 0
      { idx := List.replicate n 0, dstidx := List.replicate n 0, mem := mem,
        loads := [], stores := [] }

/-! ## The routines with `int` arithmetic checked for overflow

In `caffe_cpu_permute` and `Get_dist_matrix_cpu` above the results of `*`, `+`, `-`, `/` and `%`
on `int` are mathematical integers. The definitions below are the same routines, statement by
statement, in which every such result has to lie in the range of `int`; a result outside is a
signed overflow, undefined behaviour, and makes the run `none`. -/

/-- The value of an `int` operation with the mathematical result `x`: `x` when it lies in
`[-INT_MAX - 1, INT_MAX]`, `none` (signed overflow) otherwise. -/
def inInt (x : Int) : Option Int :=
  if -(INT_MAX : Int) - 1 ≤ x ∧ x ≤ (INT_MAX : Int) then some x else none

/-- The statement `cap[i] *= dims[j]` (lines 452-453, 462-463) with the product checked. -/
def capacityInnerChecked (dims : List Int) (i j : Nat) (cap : List Int) : Option (List Int) :=
  (cap[i]?).bind fun c => (dims[j]?).bind fun d => (inInt (c * d)).bind fun v => setAt cap i v

/-- Body of the stride loops (lines 450-454, 460-464) with the products checked. -/
def capacityBodyChecked (dims : List Int) (dimsize i : Nat) (cap : List Int) :
    Option (List Int) :=
  (setAt cap i 1).bind (forUp (capacityInnerChecked dims i) (dimsize - (i + 1)) (i + 1))

/-- The stride loop (lines 449-454, 459-464) with the products checked. -/
def capacityTableChecked (dims : List Int) (dimsize : Nat) (cap : List Int) :
    Option (List Int) :=
  forDown (capacityBodyChecked dims dimsize) (dimsize - 1) cap

/-- Body of lines 472-476 with the quotient and the remainder checked. -/
def decomposeBodyChecked (dstdim_capacity : List Int) (j : Nat) (s : List Int × Int) :
    Option (List Int × Int) :=
  (dstdim_capacity[j]?).bind fun c =>
    if c = 0 then none
    else (inInt (Int.tdiv s.2 c)).bind fun q => (setAt s.1 j q).bind fun dstidx =>
      (inInt (Int.tmod s.2 c)).bind fun m => some (dstidx, m)

/-- Lines 477-480 with both differences of `dstdimensions[flipdim] - 1 - dstidx[flipdim]`
checked. -/
def flipStepChecked (dstdimensions : List Int) (flipdim : Int) (dstidx : List Int) :
    Option (List Int) :=
  if 0 ≤ flipdim then
    (readAt dstdimensions flipdim).bind fun e =>
      (readAt dstidx flipdim).bind fun x =>
        (inInt (e - 1)).bind fun y => (inInt (y - x)).bind fun z => writeAt dstidx flipdim z
  else some dstidx

/-- Body of lines 486-489, `curidx += idx[j] * dim_capacity[j]`, with the product and the sum
checked. -/
def accumBodyChecked (idx dim_capacity : List Int) (j : Nat) (curidx : Int) : Option Int :=
  (idx[j]?).bind fun x => (dim_capacity[j]?).bind fun c =>
    (inInt (x * c)).bind fun m => inInt (curidx + m)

/-- One iteration of the main loop (lines 469-491) with the arithmetic checked. -/
def permuteBodyChecked {α : Type} (datain : List α)
    (dstdimensions dim_capacity dstdim_capacity order : List Int) (dimsize : Nat) (flipdim : Int)
    (i : Nat) (s : PermuteState α) : Option (PermuteState α) :=
  (forUp (decomposeBodyChecked dstdim_capacity) dimsize 0 (s.dstidx, (i : Int))).bind fun r =>
  (flipStepChecked dstdimensions flipdim r.1).bind fun dstidx =>
  (forUp (scatterBody order dstidx) dimsize 0 s.idx).bind fun idx =>
  (forUp (accumBodyChecked idx dim_capacity) dimsize 0 0).bind fun curidx =>
  (readAt datain curidx).bind fun x =>
  (setAt s.dataout i x).bind fun dataout =>
  some { idx := idx, dstidx := dstidx, dataout := dataout,
         reads := s.reads ++ [curidx], writes := s.writes ++ [i] }

/-- The function `caffe_cpu_permute` (lines 435-493) with the arithmetic checked, `count`
included. -/
def caffe_cpu_permute_checked {α : Type} (datain dataout : List α) (dimensions order : List Int)
    (dimsize flipdim : Int) : Option (PermuteState α) :=
  if dimsize < 0 then none
  else
    let n := dimsize.toNat
    (capacityTableChecked dimensions n (List.replicate n 1)).bind fun dim_capacity =>
    (forUp (dstdimBody dimensions order) n 0 (List.replicate n 0)).bind fun dstdimensions =>
    (capacityTableChecked dstdimensions n (List.replicate n 1)).bind fun dstdim_capacity =>
    (dim_capacity[0]?).bind fun c0 =>
    (dimensions[0]?).bind fun d0 =>
    (inInt (c0 * d0)).bind fun count =>
    forUp (permuteBodyChecked datain dstdimensions dim_capacity dstdim_capacity order n flipdim)
      count.toNat 0
      { idx := List.replicate n 0, dstidx := List.replicate n 0, dataout := dataout,
        reads := [], writes := [] }

/-- Body of the inner loop of `Get_dist_matrix_cpu` (lines 547-557) with the index arithmetic
`r * feaNum + c`, `c * feaNum + r`, `r * feaDim` and `c * feaDim` checked. -/
def distInnerChecked {α : Type} [Zero α] (caffe_sub : Int → List α → List α → List α → List α)
    (caffe_cpu_dot : Int → List α → List α → α) (inputdata : List α) (feaNum feaDim : Int)
    (r c : Nat) (s : DistState α) : Option (DistState α) :=
  if r = c then
    (inInt ((r : Int) * feaNum)).bind fun a => (inInt (a + (c : Int))).bind fun k =>
    (writeAt s.distmatrix k 0).bind fun dm =>
      some { s with distmatrix := dm, stores := s.stores ++ [k] }
  else
    (inInt ((r : Int) * feaDim)).bind fun o1 => (inInt ((c : Int) * feaDim)).bind fun o2 =>
    let t := caffe_sub feaDim (inputdata.drop o1.toNat) (inputdata.drop o2.toNat) s.t
    let dist := caffe_cpu_dot feaDim t t
    (inInt ((r : Int) * feaNum)).bind fun a1 => (inInt (a1 + (c : Int))).bind fun k1 =>
    (writeAt s.distmatrix k1 dist).bind fun dm1 =>
    (inInt ((c : Int) * feaNum)).bind fun a2 => (inInt (a2 + (r : Int))).bind fun k2 =>
    (writeAt dm1 k2 dist).bind fun dm2 =>
      some { t := t, dist := dist, distmatrix := dm2, evals := s.evals ++ [(r, c)],
             stores := s.stores ++ [k1, k2] }

/-- The function `Get_dist_matrix_cpu` (lines 535-560) with the index arithmetic checked. -/
def Get_dist_matrix_cpu_checked {α : Type} [Zero α]
    (caffe_sub : Int → List α → List α → List α → List α)
    (caffe_cpu_dot : Int → List α → List α → α) (inputdata : List α) (feaNum feaDim : Int)
    (distmatrix : List α) : Option (DistState α) :=
  if feaDim < 0 then none
  else
    forUp (fun r => forUp (distInnerChecked caffe_sub caffe_cpu_dot inputdata feaNum feaDim r)
        feaNum.toNat 0) feaNum.toNat 0
      { t := List.replicate feaDim.toNat 0, dist := 0, distmatrix := distmatrix,
        evals := [], stores := [] }

/-! ## Loop rules -/

theorem forUp_succ_last {σ : Type} (body : Nat → σ → Option σ) (n lo : Nat) (s : σ) :
    forUp body (n + 1) lo s = (forUp body n lo s).bind (body (lo + n)) := by
  induction n generalizing lo s with
  | zero => simp [forUp]
  | succ n ih =>
    rw [forUp]
    cases h : body lo s with
    | none => simp [forUp, h]
    | some t =>
      simp only [Option.some_bind]
      rw [ih (lo + 1) t]
      conv_rhs => rw [forUp, h, Option.some_bind]
      have : lo + 1 + n = lo + (n + 1) := by omega
      rw [this]

theorem forUp_invariant {σ : Type} (body : Nat → σ → Option σ) (P : Nat → σ → Prop) (n : Nat)
    (s : σ) (h0 : P 0 s)
    (hstep : ∀ k t, k < n → P k t → ∃ t', body k t = some t' ∧ P (k + 1) t') :
    ∃ t, forUp body n 0 s = some t ∧ P n t := by
  induction n with
  | zero => exact ⟨s, rfl, h0⟩
  | succ n ih =>
    obtain ⟨t, ht, hP⟩ := ih (fun k t hk hp => hstep k t (by omega) hp)
    obtain ⟨t', ht', hP'⟩ := hstep n t (by omega) hP
    refine ⟨t', ?_, hP'⟩
    rw [forUp_succ_last, ht, Option.some_bind, Nat.zero_add, ht']

/-- A loop that stores `g j` at position `j` for `j = 0, ..., n-1`. -/
theorem forUp_fill {β : Type} (body : Nat → List β → Option (List β)) (g : Nat → β)
    (v : List β) (n : Nat) (hn : n ≤ v.length)
    (hb : ∀ j w, j < n → w.length = v.length → body j w = some (w.set j (g j))) :
    forUp body n 0 v = some ((List.range n).map g ++ v.drop n) := by
  induction n with
  | zero => simp [forUp]
  | succ n ih =>
    rw [forUp_succ_last, ih (by omega) (fun j w hj hw => hb j w (by omega) hw)]
    simp only [Option.some_bind, Nat.zero_add]
    rw [hb n _ (by omega) (by simp; omega)]
    congr 1
    rw [List.set_append_right _ _ (by simp), List.range_succ, List.map_append]
    simp only [List.length_map, List.length_range, Nat.sub_self, List.map_cons, List.map_nil,
      List.append_assoc, List.singleton_append]
    rw [List.drop_eq_getElem_cons (by omega : n < v.length), List.set_cons_zero]

/-! ## Symbolic execution of the set-up loops -/

theorem setAt_eq_some {β : Type} (v : List β) (k : Nat) (x : β) (h : k < v.length) :
    setAt v k x = some (v.set k x) := by
  simp [setAt, h]

theorem readAt_natCast {β : Type} (v : List β) (k : Nat) : readAt v (k : Int) = v[k]? := by
  simp [readAt]

theorem writeAt_natCast {β : Type} (v : List β) (k : Nat) (x : β) :
    writeAt v (k : Int) x = setAt v k x := by
  simp [writeAt]

theorem capacityInner_loop (dims : List Int) (i m lo : Nat) (cap : List Int)
    (hi : i < cap.length) (hlo : lo + m ≤ dims.length) :
    forUp (capacityInner dims i) m lo cap
      = some (cap.set i (cap[i] * ((dims.drop lo).take m).prod)) := by
  induction m generalizing lo cap with
  | zero =>
    simp only [forUp, List.take_zero, List.prod_nil, mul_one]
    congr 1
    refine List.ext_getElem (by simp) (fun j h1 h2 => ?_)
    rw [List.getElem_set]
    split
    · subst_vars; rfl
    · rfl
  | succ m ih =>
    have hlo' : lo < dims.length := by omega
    rw [forUp]
    have h1 : capacityInner dims i lo cap = some (cap.set i (cap[i] * dims[lo])) := by
      simp [capacityInner, List.getElem?_eq_getElem hi, List.getElem?_eq_getElem hlo',
        setAt_eq_some _ _ _ hi]
    rw [h1, Option.some_bind, ih (lo + 1) _ (by simpa using hi) (by omega)]
    rw [List.drop_eq_getElem_cons hlo', List.take_succ_cons, List.prod_cons]
    simp [List.set_set, mul_assoc]

theorem capacityBody_eq (dims : List Int) (n i : Nat) (cap : List Int) (hn : dims.length = n)
    (hi : i < cap.length) (hd : i < n) :
    capacityBody dims n i cap = some (cap.set i (dims.drop (i + 1)).prod) := by
  subst hn
  unfold capacityBody
  rw [setAt_eq_some _ _ _ hi, Option.some_bind,
    capacityInner_loop dims i _ _ _ (by simpa using hi) (by omega)]
  simp [List.set_set, List.take_of_length_le]

theorem forDown_capacity (dims : List Int) (n k : Nat) (cap : List Int) (hn : dims.length = n)
    (hk : k ≤ cap.length) (hd : k ≤ n) :
    forDown (capacityBody dims n) k cap
      = some ((List.range k).map (fun i => (dims.drop (i + 1)).prod) ++ cap.drop k) := by
  induction k generalizing cap with
  | zero => simp [forDown]
  | succ k ih =>
    rw [forDown, capacityBody_eq dims n k cap hn (by omega) (by omega), Option.some_bind,
      ih _ (by simp; omega) (by omega)]
    rw [List.range_succ, List.map_append, List.append_assoc]
    congr 2
    rw [List.drop_set, if_neg (by omega), List.drop_eq_getElem_cons (by omega : k < cap.length),
      Nat.sub_self, List.set_cons_zero]
    rfl


theorem capacityTable_int (dims : List Int) (n : Nat) (hn : dims.length = n) :
    capacityTable dims n (List.replicate n 1)
      = some ((List.range n).map fun i => (dims.drop (i + 1)).prod) := by
  unfold capacityTable
  rw [forDown_capacity dims n (n - 1) _ hn (by simp) (by omega)]
  cases n with
  | zero => simp
  | succ m =>
    simp only [Nat.add_sub_cancel, List.range_succ, List.map_append, List.map_cons, List.map_nil]
    have h1 : List.drop m (List.replicate (m + 1) (1 : Int)) = [1] := by
      simp [List.drop_replicate]
    have h2 : List.drop (m + 1) dims = [] := List.drop_of_length_le (by omega)
    rw [h1, h2, List.prod_nil]

theorem capacityTable_eq (sh : List Nat) :
    capacityTable (sh.map Int.ofNat) sh.length (List.replicate sh.length 1)
      = some ((strides sh).map Int.ofNat) := by
  rw [capacityTable_int _ _ (by simp)]
  congr 1
  unfold strides
  rw [List.map_map]
  refine List.map_congr_left (fun i _ => ?_)
  simp only [Function.comp_apply, Int.ofNat_eq_coe, Nat.cast_list_prod, List.map_drop]
  rfl

theorem dstdim_loop (shape ord : List Nat) (h : ∀ o ∈ ord, o < shape.length) :
    forUp (dstdimBody (shape.map Int.ofNat) (ord.map Int.ofNat)) ord.length 0
        (List.replicate ord.length 0)
      = some ((dstShape shape ord).map Int.ofNat) := by
  rw [forUp_fill _ (fun j => ((shape.getD (ord.getD j 0) 0 : Nat) : Int)) _ _ (by simp)]
  · congr 1
    refine List.ext_getElem (by simp [dstShape]) (fun j h1 h2 => ?_)
    simp at h1
    simp [dstShape, List.getElem_append_left, h1, List.getD_eq_getElem]
  · intro j w hj hw
    have ho : ord[j] < shape.length := h _ (List.getElem_mem _)
    simp only [dstdimBody, List.getElem?_map, List.getElem?_eq_getElem hj, Option.map_some',
      Option.some_bind, Int.ofNat_eq_coe, readAt_natCast, List.getElem?_eq_getElem ho]
    rw [setAt_eq_some _ _ _ (by simpa [hw] using hj)]
    simp [List.getD_eq_getElem, hj, ho]

/-! ## Symbolic execution of one iteration of the main loop -/

theorem prod_drop_pos (sh : List Nat) (hpos : ∀ e ∈ sh, 0 < e) (j : Nat) :
    0 < (sh.drop j).prod :=
  List.prod_pos (fun e he => hpos e (List.mem_of_mem_drop he))

theorem prod_drop_eq (sh : List Nat) (j : Nat) (hj : j < sh.length) :
    (sh.drop j).prod = sh[j] * (sh.drop (j + 1)).prod := by
  rw [List.drop_eq_getElem_cons hj, List.prod_cons]

theorem strides_getElem (sh : List Nat) (j : Nat) (hj : j < sh.length) :
    (strides sh)[j]? = some (sh.drop (j + 1)).prod := by
  simp [strides, hj]

theorem length_strides (sh : List Nat) : (strides sh).length = sh.length := by
  simp [strides]

theorem length_digits (sh : List Nat) (p : Nat) : (digits sh p).length = sh.length := by
  simp [digits]

theorem decompose_loop_aux (sh : List Nat) (hpos : ∀ e ∈ sh, 0 < e) (p : Nat) (hp : p < sh.prod)
    (v : List Int) (hv : v.length = sh.length) (k : Nat) (hk : k ≤ sh.length) :
    forUp (decomposeBody ((strides sh).map Int.ofNat)) k 0 (v, (p : Int))
      = some (((List.range k).map fun j =>
                  ((p % (sh.drop j).prod / (sh.drop (j + 1)).prod : Nat) : Int)) ++ v.drop k,
              ((p % (sh.drop k).prod : Nat) : Int)) := by
  induction k with
  | zero => simp [forUp, Nat.mod_eq_of_lt hp]
  | succ k ih =>
    have hk' : k < sh.length := by omega
    rw [forUp_succ_last, ih (by omega), Option.some_bind, Nat.zero_add]
    have hc : 0 < (sh.drop (k + 1)).prod := prod_drop_pos sh hpos _
    have hne : ¬ (((sh.drop (k + 1)).prod : Nat) : Int) = 0 := by
      exact_mod_cast hc.ne'
    have hdvd : (sh.drop (k + 1)).prod ∣ (sh.drop k).prod :=
      ⟨sh[k], by rw [prod_drop_eq sh k hk', Nat.mul_comm]⟩
    simp only [decomposeBody, List.getElem?_map, strides_getElem sh k hk', Option.map_some',
      Option.some_bind, Int.ofNat_eq_coe, if_neg hne]
    rw [setAt_eq_some _ _ _ (by simp; omega)]
    simp only [Option.some_bind, ← Int.ofNat_tdiv, ← Int.ofNat_tmod, Nat.mod_mod_of_dvd _ hdvd]
    congr 2
    rw [List.set_append_right _ _ (by simp), List.range_succ, List.map_append]
    simp only [List.length_map, List.length_range, Nat.sub_self, List.map_cons, List.map_nil,
      List.append_assoc, List.singleton_append]
    rw [List.drop_eq_getElem_cons (by omega : k < v.length), List.set_cons_zero]

theorem decompose_loop (sh : List Nat) (hpos : ∀ e ∈ sh, 0 < e) (p : Nat) (hp : p < sh.prod)
    (v : List Int) (hv : v.length = sh.length) :
    ∃ t, forUp (decomposeBody ((strides sh).map Int.ofNat)) sh.length 0 (v, (p : Int))
      = some ((digits sh p).map Int.ofNat, t) := by
  refine ⟨((p % (sh.drop sh.length).prod : Nat) : Int), ?_⟩
  rw [decompose_loop_aux sh hpos p hp v hv sh.length (le_refl _)]
  simp [digits, List.drop_of_length_le (le_of_eq hv)]

theorem accum_loop (s c : List Nat) (k : Nat) (hs : k ≤ s.length) (hc : k ≤ c.length) :
    forUp (accumBody (s.map Int.ofNat) (c.map Int.ofNat)) k 0 0
      = some ((((List.range k).map fun j => s.getD j 0 * c.getD j 0).sum : Nat) : Int) := by
  induction k with
  | zero => simp [forUp]
  | succ k ih =>
    rw [forUp_succ_last, ih (by omega) (by omega), Option.some_bind, Nat.zero_add]
    simp [accumBody, List.getElem?_eq_getElem (by omega : k < s.length),
      List.getElem?_eq_getElem (by omega : k < c.length), List.range_succ,
      List.getD_eq_getElem _ _ (by omega : k < s.length),
      List.getD_eq_getElem _ _ (by omega : k < c.length)]

theorem sum_strides_eq_linearIndex (sh s : List Nat) (h : s.length = sh.length) :
    ((List.range sh.length).map fun j => s.getD j 0 * (strides sh).getD j 0).sum
      = linearIndex sh s := by
  induction sh generalizing s with
  | nil => cases s <;> simp [linearIndex]
  | cons e es ih =>
    cases s with
    | nil => simp at h
    | cons x xs =>
      simp only [List.length_cons, Nat.add_right_cancel_iff] at h
      rw [List.length_cons, List.range_succ_eq_map, List.map_cons, List.sum_cons, linearIndex,
        ← ih xs h, List.map_map]
      congr 1
      · simp [strides]
      · congr 1
        refine List.map_congr_left (fun j hj => ?_)
        have hj' : j < es.length := List.mem_range.mp hj
        simp [strides, List.getD_eq_getElem, hj', List.range_succ_eq_map]

theorem flipStep_eq (dst d : List Nat) (flipdim : Int) (hd : d.length = dst.length)
    (hf : flipdim < (dst.length : Int))
    (hlt : 0 ≤ flipdim → d.getD flipdim.toNat 0 < dst.getD flipdim.toNat 0) :
    flipStep (dst.map Int.ofNat) flipdim (d.map Int.ofNat)
      = some ((flipAt dst flipdim d).map Int.ofNat) := by
  by_cases h0 : 0 ≤ flipdim
  · obtain ⟨f, rfl⟩ := Int.eq_ofNat_of_zero_le h0
    have hf' : f < dst.length := by exact_mod_cast hf
    have hfd : f < d.length := by omega
    have hlt' := hlt h0
    simp only [Int.toNat_ofNat, List.getD_eq_getElem _ _ hf', List.getD_eq_getElem _ _ hfd]
      at hlt'
    simp only [flipStep, flipAt, if_pos h0, readAt_natCast, writeAt_natCast, List.getElem?_map,
      List.getElem?_eq_getElem hf', List.getElem?_eq_getElem hfd, Option.map_some',
      Option.some_bind, Int.toNat_ofNat, List.getD_eq_getElem _ _ hf',
      List.getD_eq_getElem _ _ hfd]
    rw [setAt_eq_some _ _ _ (by simpa using hfd), List.map_set]
    congr 2
    simp only [Int.ofNat_eq_coe]
    omega
  · simp [flipStep, flipAt, h0]

theorem perm_range_mem_lt (ord : List Nat) (hperm : ord.Perm (List.range ord.length))
    (o : Nat) (ho : o ∈ ord) : o < ord.length :=
  List.mem_range.mp (hperm.subset ho)

theorem perm_range_nodup (ord : List Nat) (hperm : ord.Perm (List.range ord.length)) :
    ord.Nodup :=
  hperm.nodup_iff.mpr (List.nodup_range _)

theorem perm_range_mem (ord : List Nat) (hperm : ord.Perm (List.range ord.length))
    (k : Nat) (hk : k < ord.length) : k ∈ ord :=
  hperm.symm.subset (List.mem_range.mpr hk)

theorem scatter_loop (ord d : List Nat) (idx : List Int)
    (hperm : ord.Perm (List.range ord.length)) (hd : d.length = ord.length)
    (hidx : idx.length = ord.length) :
    forUp (scatterBody (ord.map Int.ofNat) (d.map Int.ofNat)) ord.length 0 idx
      = some ((scatter ord d).map Int.ofNat) := by
  obtain ⟨t, ht, hlen, hP⟩ := forUp_invariant (scatterBody (ord.map Int.ofNat) (d.map Int.ofNat))
    (fun k w => w.length = ord.length ∧
      ∀ j, j < k → w[ord.getD j 0]? = some ((d.getD j 0 : Nat) : Int))
    ord.length idx ⟨hidx, fun j hj => absurd hj (Nat.not_lt_zero _)⟩
    (by
      intro k w hk ⟨hw, hP⟩
      have hkd : k < d.length := by omega
      have hok : ord[k] < w.length := by
        rw [hw]; exact perm_range_mem_lt ord hperm _ (List.getElem_mem _)
      refine ⟨w.set ord[k] (d[k] : Int), ?_, by simpa using hw, ?_⟩
      · simp only [scatterBody, List.getElem?_map, List.getElem?_eq_getElem hk,
          List.getElem?_eq_getElem hkd, Option.map_some', Option.some_bind, Int.ofNat_eq_coe,
          writeAt_natCast]
        exact setAt_eq_some _ _ _ hok
      · intro j hj
        rcases Nat.lt_succ_iff_lt_or_eq.mp hj with hjk | rfl
        · have hjn : j < ord.length := by omega
          have hne : ord[k] ≠ ord[j] := by
            intro he
            have := (List.Nodup.getElem_inj_iff (perm_range_nodup ord hperm)).mp he
            omega
          have h := hP j hjk
          rw [List.getD_eq_getElem _ _ hjn] at h
          rw [List.getD_eq_getElem _ _ hjn, List.getElem?_set_ne hne]
          exact h
        · rw [List.getD_eq_getElem _ _ hk, List.getD_eq_getElem _ _ hkd, List.getElem?_set,
            if_pos rfl, if_pos hok])
  rw [ht]
  congr 1
  refine List.ext_getElem (by simp [scatter, hlen]) (fun i h1 h2 => ?_)
  have hi : i < ord.length := by omega
  have hmem : i ∈ ord := perm_range_mem ord hperm i hi
  have hix : ord.indexOf i < ord.length := List.indexOf_lt_length.mpr hmem
  have := hP (ord.indexOf i) hix
  rw [List.getD_eq_getElem _ _ hix, List.getElem_indexOf hix, List.getElem?_eq_getElem h1] at this
  simp only [Option.some.injEq] at this
  simp [scatter, this]

/-! ## Mixed-radix arithmetic -/

theorem inShape_cons (e x : Nat) (es xs : List Nat) :
    InShape (e :: es) (x :: xs) ↔ x < e ∧ InShape es xs := by
  constructor
  · rintro ⟨hl, h⟩
    refine ⟨by simpa using h 0 (by simp), by simpa using hl, fun j hj => ?_⟩
    simpa using h (j + 1) (by simpa using hj)
  · rintro ⟨hx, hl, h⟩
    refine ⟨by simpa using hl, fun j hj => ?_⟩
    cases j with
    | zero => simpa using hx
    | succ j => simpa using h j (by simpa using hj)

theorem digits_cons (e : Nat) (es : List Nat) (p : Nat) :
    digits (e :: es) p = (p % (e * es.prod) / es.prod) :: digits es p := by
  simp [digits, List.range_succ_eq_map, List.map_map, Function.comp_def]

theorem linearIndex_lt (sh d : List Nat) (h : InShape sh d) : linearIndex sh d < sh.prod := by
  induction sh generalizing d with
  | nil => cases d <;> simp [linearIndex]
  | cons e es ih =>
    cases d with
    | nil => simp [InShape] at h
    | cons x xs =>
      obtain ⟨hx, hxs⟩ := (inShape_cons e x es xs).mp h
      have := ih xs hxs
      rw [linearIndex, List.prod_cons]
      calc x * es.prod + linearIndex es xs < x * es.prod + es.prod := by omega
        _ = (x + 1) * es.prod := by ring
        _ ≤ e * es.prod := Nat.mul_le_mul_right _ hx

theorem linearIndex_digits_mod (sh : List Nat) (p : Nat) :
    linearIndex sh (digits sh p) = p % sh.prod := by
  induction sh with
  | nil => simp [digits, linearIndex, Nat.mod_one]
  | cons e es ih =>
    rw [digits_cons, linearIndex, ih, List.prod_cons]
    have h : p % es.prod = p % (e * es.prod) % es.prod := (Nat.mod_mul_left_mod p e es.prod).symm
    rw [h]
    exact Nat.div_add_mod' _ _

theorem linearIndex_digits (sh : List Nat) (p : Nat) (hp : p < sh.prod) :
    linearIndex sh (digits sh p) = p := by
  rw [linearIndex_digits_mod, Nat.mod_eq_of_lt hp]

theorem digits_inShape (sh : List Nat) (hpos : ∀ e ∈ sh, 0 < e) (p : Nat) :
    InShape sh (digits sh p) := by
  refine ⟨length_digits sh p, fun j hj => ?_⟩
  have hD : 0 < (sh.drop (j + 1)).prod := prod_drop_pos sh hpos _
  have hj0 : 0 < sh[j] := hpos _ (List.getElem_mem _)
  rw [List.getD_eq_getElem _ _ (by rw [length_digits]; exact hj), List.getD_eq_getElem _ _ hj]
  simp only [digits, List.getElem_map, List.getElem_range]
  apply Nat.div_lt_of_lt_mul
  rw [prod_drop_eq sh j hj, Nat.mul_comm]
  exact Nat.mod_lt _ (Nat.mul_pos hD hj0)

theorem digits_add_mul (es : List Nat) (x q : Nat) :
    digits es (x * es.prod + q) = digits es q := by
  unfold digits
  refine List.map_congr_left (fun j _ => ?_)
  have hd : (es.drop j).prod ∣ es.prod :=
    ⟨(es.take j).prod, by rw [Nat.mul_comm, List.prod_take_mul_prod_drop]⟩
  obtain ⟨c, hc⟩ := hd
  have : (x * es.prod + q) % (es.drop j).prod = q % (es.drop j).prod := by
    rw [hc, show x * ((es.drop j).prod * c) + q = q + (es.drop j).prod * (x * c) by ring]
    exact Nat.add_mul_mod_self_left _ _ _
  rw [this]

theorem digits_linearIndex (sh d : List Nat) (h : InShape sh d) :
    digits sh (linearIndex sh d) = d := by
  induction sh generalizing d with
  | nil =>
    cases d with
    | nil => simp [digits]
    | cons x xs => simp [InShape] at h
  | cons e es ih =>
    cases d with
    | nil => simp [InShape] at h
    | cons x xs =>
      obtain ⟨hx, hxs⟩ := (inShape_cons e x es xs).mp h
      have hL := linearIndex_lt es xs hxs
      have hlt : x * es.prod + linearIndex es xs < e * es.prod := by
        have := linearIndex_lt (e :: es) (x :: xs) h
        simpa [linearIndex] using this
      rw [linearIndex, digits_cons, digits_add_mul, ih xs hxs, Nat.mod_eq_of_lt hlt]
      congr 1
      rw [Nat.add_comm, Nat.add_mul_div_right _ _ (by omega : 0 < es.prod),
        Nat.div_eq_of_lt hL, Nat.zero_add]

/-! ## Shapes under a permutation of the axes -/

theorem length_dstShape (shape ord : List Nat) : (dstShape shape ord).length = ord.length := by
  simp [dstShape]

theorem dstShape_getD (shape ord : List Nat) (j : Nat) (hj : j < ord.length) :
    (dstShape shape ord).getD j 0 = shape.getD (ord.getD j 0) 0 := by
  simp [dstShape, List.getD_eq_getElem, hj]

theorem dstShape_perm (shape ord : List Nat) (hperm : ord.Perm (List.range ord.length))
    (hlen : ord.length = shape.length) : (dstShape shape ord).Perm shape := by
  have h1 : (dstShape shape ord).Perm ((List.range ord.length).map fun o => shape.getD o 0) :=
    hperm.map _
  have h2 : ((List.range ord.length).map fun o => shape.getD o 0) = shape := by
    refine List.ext_getElem (by simp [hlen]) (fun i h1 h2 => ?_)
    simp [List.getD_eq_getElem, h2]
  rw [h2] at h1
  exact h1

theorem dstShape_prod (shape ord : List Nat) (hperm : ord.Perm (List.range ord.length))
    (hlen : ord.length = shape.length) : (dstShape shape ord).prod = shape.prod :=
  (dstShape_perm shape ord hperm hlen).prod_eq

theorem dstShape_pos (shape ord : List Nat) (hperm : ord.Perm (List.range ord.length))
    (hlen : ord.length = shape.length) (hpos : ∀ e ∈ shape, 0 < e) :
    ∀ e ∈ dstShape shape ord, 0 < e :=
  fun e he => hpos e ((dstShape_perm shape ord hperm hlen).subset he)

theorem length_flipAt (dst : List Nat) (flipdim : Int) (d : List Nat) :
    (flipAt dst flipdim d).length = d.length := by
  unfold flipAt
  split <;> simp

theorem flipAt_inShape (dst : List Nat) (flipdim : Int) (d : List Nat) (h : InShape dst d) :
    InShape dst (flipAt dst flipdim d) := by
  refine ⟨by rw [length_flipAt]; exact h.1, fun j hj => ?_⟩
  have hjd : j < d.length := by rw [h.1]; exact hj
  have hj' := h.2 j hj
  unfold flipAt
  split
  · by_cases hf : flipdim.toNat = j
    · rw [hf, List.getD_eq_getElem _ _ (by simpa using hjd), List.getElem_set_self]
      omega
    · rw [List.getD_eq_getElem _ _ (by simpa using hjd), List.getElem_set_ne hf,
        ← List.getD_eq_getElem _ 0 hjd]
      exact hj'
  · exact hj'

theorem length_scatter (ord d : List Nat) : (scatter ord d).length = ord.length := by
  simp [scatter]

theorem scatter_getD (ord d : List Nat) (k : Nat) (hk : k < ord.length) :
    (scatter ord d).getD k 0 = d.getD (ord.indexOf k) 0 := by
  simp [scatter, List.getD_eq_getElem, hk]

theorem scatter_inShape (shape ord d : List Nat) (hperm : ord.Perm (List.range ord.length))
    (hlen : ord.length = shape.length) (h : InShape (dstShape shape ord) d) :
    InShape shape (scatter ord d) := by
  refine ⟨by rw [length_scatter, hlen], fun k hk => ?_⟩
  have hk' : k < ord.length := by omega
  have hix : ord.indexOf k < ord.length :=
    List.indexOf_lt_length.mpr (perm_range_mem ord hperm k hk')
  have := h.2 (ord.indexOf k) (by rw [length_dstShape]; exact hix)
  rw [dstShape_getD _ _ _ hix, List.getD_eq_getElem _ _ hix, List.getElem_indexOf hix] at this
  rw [scatter_getD _ _ _ hk']
  exact this

theorem srcIndex_lt (shape ord : List Nat) (flipdim : Int)
    (hperm : ord.Perm (List.range ord.length)) (hlen : ord.length = shape.length)
    (hpos : ∀ e ∈ shape, 0 < e) (p : Nat) :
    srcIndex shape ord flipdim p < shape.prod :=
  linearIndex_lt _ _ (scatter_inShape shape ord _ hperm hlen
    (flipAt_inShape _ _ _ (digits_inShape _ (dstShape_pos shape ord hperm hlen hpos) p)))

/-! ## The main loop -/

theorem permuteBody_eq {α : Type} (datain : List α) (shape ord : List Nat) (flipdim : Int)
    (hperm : ord.Perm (List.range ord.length)) (hlen : ord.length = shape.length)
    (hpos : ∀ e ∈ shape, 0 < e) (hflip : flipdim < (shape.length : Int))
    (hin : shape.prod ≤ datain.length) (p : Nat) (hp : p < shape.prod) (s : PermuteState α)
    (hidx : s.idx.length = shape.length) (hdst : s.dstidx.length = shape.length)
    (hout : p < s.dataout.length) :
    ∃ x, datain[srcIndex shape ord flipdim p]? = some x ∧
      permuteBody datain ((dstShape shape ord).map Int.ofNat) ((strides shape).map Int.ofNat)
        ((strides (dstShape shape ord)).map Int.ofNat) (ord.map Int.ofNat) shape.length flipdim
        p s
      = some { idx := (scatter ord (flipAt (dstShape shape ord) flipdim
                        (digits (dstShape shape ord) p))).map Int.ofNat,
               dstidx := (flipAt (dstShape shape ord) flipdim
                        (digits (dstShape shape ord) p)).map Int.ofNat,
               dataout := s.dataout.set p x,
               reads := s.reads ++ [(srcIndex shape ord flipdim p : Int)],
               writes := s.writes ++ [p] } := by
  have hdl : (dstShape shape ord).length = shape.length := by rw [length_dstShape, hlen]
  have hdpos := dstShape_pos shape ord hperm hlen hpos
  have hdig := digits_inShape _ hdpos p
  have hfl := flipAt_inShape _ flipdim _ hdig
  have hsc := scatter_inShape shape ord _ hperm hlen hfl
  have hlt := srcIndex_lt shape ord flipdim hperm hlen hpos p
  have hx : srcIndex shape ord flipdim p < datain.length := by omega
  refine ⟨datain[srcIndex shape ord flipdim p], List.getElem?_eq_getElem hx, ?_⟩
  obtain ⟨t, ht⟩ := decompose_loop (dstShape shape ord) hdpos p
    (by rw [dstShape_prod shape ord hperm hlen]; exact hp) s.dstidx (by rw [hdst, hdl])
  unfold permuteBody
  rw [← hdl, ht, Option.some_bind]
  rw [flipStep_eq _ _ _ hdig.1 (by rw [hdl]; exact hflip) (fun _ => hdig.2 _ (by
    rw [hdl]; omega)), Option.some_bind]
  rw [hdl, ← hlen, scatter_loop ord _ s.idx hperm (by rw [hfl.1, length_dstShape])
    (by rw [hidx, hlen]), Option.some_bind]
  rw [hlen, accum_loop _ _ _ (by rw [hsc.1]) (by rw [length_strides]), Option.some_bind]
  rw [sum_strides_eq_linearIndex _ _ hsc.1]
  change (readAt datain ((srcIndex shape ord flipdim p : Nat) : Int)).bind _ = _
  rw [readAt_natCast, List.getElem?_eq_getElem hx, Option.some_bind, setAt_eq_some _ _ _ hout,
    Option.some_bind]
  rfl


/-- What a run of the main loop over `[0, k)` leaves behind. -/
theorem permute_loop {α : Type} (datain dataout : List α) (shape ord : List Nat) (flipdim : Int)
    (hperm : ord.Perm (List.range ord.length)) (hlen : ord.length = shape.length)
    (hpos : ∀ e ∈ shape, 0 < e) (hflip : flipdim < (shape.length : Int))
    (hin : shape.prod ≤ datain.length) (hout : shape.prod ≤ dataout.length)
    (s0 : PermuteState α) (hidx : s0.idx.length = shape.length)
    (hdst : s0.dstidx.length = shape.length) (hd0 : s0.dataout = dataout)
    (hr0 : s0.reads = []) (hw0 : s0.writes = []) :
    ∃ st, forUp (permuteBody datain ((dstShape shape ord).map Int.ofNat)
        ((strides shape).map Int.ofNat) ((strides (dstShape shape ord)).map Int.ofNat)
        (ord.map Int.ofNat) shape.length flipdim) shape.prod 0 s0 = some st ∧
      st.dataout.length = dataout.length ∧
      (∀ p, p < shape.prod → st.dataout[p]? = datain[srcIndex shape ord flipdim p]?) ∧
      (∀ p, shape.prod ≤ p → st.dataout[p]? = dataout[p]?) ∧
      st.reads = (List.range shape.prod).map (fun p => (srcIndex shape ord flipdim p : Int)) ∧
      st.writes = List.range shape.prod := by
  obtain ⟨st, hst, -, -, h1, h2, h3, h4, h5⟩ := forUp_invariant
    (permuteBody datain ((dstShape shape ord).map Int.ofNat)
        ((strides shape).map Int.ofNat) ((strides (dstShape shape ord)).map Int.ofNat)
        (ord.map Int.ofNat) shape.length flipdim)
    (fun k st => st.idx.length = shape.length ∧ st.dstidx.length = shape.length ∧
      st.dataout.length = dataout.length ∧
      (∀ p, p < k → st.dataout[p]? = datain[srcIndex shape ord flipdim p]?) ∧
      (∀ p, k ≤ p → st.dataout[p]? = dataout[p]?) ∧
      st.reads = (List.range k).map (fun p => (srcIndex shape ord flipdim p : Int)) ∧
      st.writes = List.range k)
    shape.prod s0
    ⟨hidx, hdst, by rw [hd0], fun p hp => absurd hp (Nat.not_lt_zero _),
      fun p _ => by rw [hd0], by simpa using hr0, by simpa using hw0⟩
    (by
      intro k st hk ⟨i1, i2, i3, i4, i5, i6, i7⟩
      obtain ⟨x, hx, hbody⟩ := permuteBody_eq datain shape ord flipdim hperm hlen hpos hflip hin
        k hk st i1 i2 (by omega)
      refine ⟨_, hbody, ?_, ?_, ?_, ?_, ?_, ?_, ?_⟩
      · simp [length_scatter, hlen]
      · simp only [List.length_map]
        rw [length_flipAt, length_digits, length_dstShape, hlen]
      · simpa using i3
      · intro p hp
        rcases Nat.lt_succ_iff_lt_or_eq.mp hp with hpk | rfl
        · simp only []
          rw [List.getElem?_set_ne (by omega)]
          exact i4 p hpk
        · simp only []
          rw [List.getElem?_set, if_pos rfl, if_pos (by omega), hx]
      · intro p hp
        simp only []
        rw [List.getElem?_set_ne (by omega)]
        exact i5 p (by omega)
      · simp [i6, List.range_succ]
      · simp [i7, List.range_succ])
  exact ⟨st, hst, h1, h2, h3, h4, h5⟩

/-- The set-up phase: for an `order` with entries in range the stride tables, the permuted
extents and `count` are computed, and the call is the main loop over `[0, count)`. -/
theorem permute_setup {α : Type} (datain dataout : List α) (shape ord : List Nat)
    (flipdim : Int) (hn : 1 ≤ shape.length) (hlen : ord.length = shape.length)
    (hrange : ∀ o ∈ ord, o < shape.length) :
    caffe_cpu_permute datain dataout (shape.map Int.ofNat) (ord.map Int.ofNat)
        (shape.length : Int) flipdim
      = forUp (permuteBody datain ((dstShape shape ord).map Int.ofNat)
          ((strides shape).map Int.ofNat) ((strides (dstShape shape ord)).map Int.ofNat)
          (ord.map Int.ofNat) shape.length flipdim) shape.prod 0
          { idx := List.replicate shape.length 0, dstidx := List.replicate shape.length 0,
            dataout := dataout, reads := [], writes := [] } := by
  have hcount : ((((shape.drop 1).prod : Nat) : Int) * ((shape[0] : Nat) : Int)).toNat
      = shape.prod := by
    have h := prod_drop_eq shape 0 (by omega)
    simp only [List.drop_zero, Nat.zero_add] at h
    rw [h, ← Int.natCast_mul, Int.toNat_ofNat, Nat.mul_comm]
  have hdl : (dstShape shape ord).length = shape.length := by rw [length_dstShape, hlen]
  have hdd : forUp (dstdimBody (shape.map Int.ofNat) (ord.map Int.ofNat)) shape.length 0
      (List.replicate shape.length 0) = some ((dstShape shape ord).map Int.ofNat) := by
    rw [← hlen]
    exact dstdim_loop shape ord hrange
  have hcap2 : capacityTable ((dstShape shape ord).map Int.ofNat) shape.length
      (List.replicate shape.length 1) = some ((strides (dstShape shape ord)).map Int.ofNat) := by
    rw [← hdl]
    exact capacityTable_eq _
  unfold caffe_cpu_permute
  rw [if_neg (by omega)]
  simp only [Int.toNat_ofNat]
  rw [capacityTable_eq shape, Option.some_bind, hdd, Option.some_bind, hcap2, Option.some_bind]
  simp only [List.getElem?_map, strides_getElem shape 0 (by omega),
    List.getElem?_eq_getElem (by omega : 0 < shape.length), Option.map_some', Option.some_bind,
    Int.ofNat_eq_coe, Nat.zero_add]
  rw [hcount]

/-- Under the preconditions a call of `caffe_cpu_permute` completes, and its final state is
described by the closed form `srcIndex`. -/
theorem permute_run {α : Type} (datain dataout : List α) (shape ord : List Nat) (flipdim : Int)
    (hn : 1 ≤ shape.length)
    (hperm : ord.Perm (List.range ord.length)) (hlen : ord.length = shape.length)
    (hpos : ∀ e ∈ shape, 0 < e) (hflip : flipdim < (shape.length : Int))
    (hin : shape.prod ≤ datain.length) (hout : shape.prod ≤ dataout.length) :
    ∃ st, caffe_cpu_permute datain dataout (shape.map Int.ofNat) (ord.map Int.ofNat)
        (shape.length : Int) flipdim = some st ∧
      st.dataout.length = dataout.length ∧
      (∀ p, p < shape.prod → st.dataout[p]? = datain[srcIndex shape ord flipdim p]?) ∧
      (∀ p, shape.prod ≤ p → st.dataout[p]? = dataout[p]?) ∧
      st.reads = (List.range shape.prod).map (fun p => (srcIndex shape ord flipdim p : Int)) ∧
      st.writes = List.range shape.prod := by
  rw [permute_setup datain dataout shape ord flipdim hn hlen (fun o ho => by
    rw [← hlen]; exact perm_range_mem_lt ord hperm o ho)]
  exact permute_loop datain dataout shape ord flipdim hperm hlen hpos hflip hin hout _
    (by simp) (by simp) rfl rfl rfl

/-! ## Orders that are not permutations -/

theorem inShape_set (sh s : List Nat) (k x : Nat) (h : InShape sh s) (hx : x < sh.getD k 0) :
    InShape sh (s.set k x) := by
  refine ⟨by rw [List.length_set]; exact h.1, fun j hj => ?_⟩
  have hjs : j < s.length := by rw [h.1]; exact hj
  by_cases hkj : k = j
  · subst hkj
    rw [List.getD_eq_getElem _ _ (by simpa using hjs), List.getElem_set_self]
    exact hx
  · rw [List.getD_eq_getElem _ _ (by simpa using hjs), List.getElem_set_ne hkj,
      ← List.getD_eq_getElem _ 0 hjs]
    exact h.2 j hj

theorem dstShape_pos_of_range (shape ord : List Nat) (hrange : ∀ o ∈ ord, o < shape.length)
    (hpos : ∀ e ∈ shape, 0 < e) : ∀ e ∈ dstShape shape ord, 0 < e := by
  intro e he
  obtain ⟨o, ho, rfl⟩ := List.mem_map.mp he
  rw [List.getD_eq_getElem _ _ (hrange o ho)]
  exact hpos _ (List.getElem_mem _)

theorem inShape_replicate_zero (sh : List Nat) (hpos : ∀ e ∈ sh, 0 < e) :
    InShape sh (List.replicate sh.length 0) := by
  refine ⟨by simp, fun j hj => ?_⟩
  rw [List.getD_eq_getElem _ _ (by simpa using hj), List.getD_eq_getElem _ _ hj,
    List.getElem_replicate]
  exact hpos _ (List.getElem_mem _)

/-- The scatter loop for an order with entries in range, permutation or not: every store
`idx[order[j]] = dstidx[j]` keeps `idx` within the source shape. -/
theorem scatter_loop_inrange (shape ord d s : List Nat)
    (hrange : ∀ o ∈ ord, o < shape.length) (hd : InShape (dstShape shape ord) d)
    (hs : InShape shape s) :
    ∃ s', forUp (scatterBody (ord.map Int.ofNat) (d.map Int.ofNat)) ord.length 0
        (s.map Int.ofNat) = some (s'.map Int.ofNat) ∧ InShape shape s' := by
  obtain ⟨t, ht, s', hs', hin⟩ := forUp_invariant
    (scatterBody (ord.map Int.ofNat) (d.map Int.ofNat))
    (fun _ w => ∃ s' : List Nat, w = s'.map Int.ofNat ∧ InShape shape s')
    ord.length (s.map Int.ofNat) ⟨s, rfl, hs⟩
    (by
      rintro k w hk ⟨u, rfl, hu⟩
      have hkd : k < d.length := by rw [hd.1, length_dstShape]; exact hk
      have hok : ord[k] < shape.length := hrange _ (List.getElem_mem _)
      have hlt := hd.2 k (by rw [length_dstShape]; exact hk)
      rw [dstShape_getD _ _ _ hk, List.getD_eq_getElem _ _ hk, List.getD_eq_getElem _ _ hkd]
        at hlt
      refine ⟨(u.set ord[k] d[k]).map Int.ofNat, ?_, u.set ord[k] d[k], rfl,
        inShape_set shape u _ _ hu hlt⟩
      simp only [scatterBody, List.getElem?_map, List.getElem?_eq_getElem hk,
        List.getElem?_eq_getElem hkd, Option.map_some', Option.some_bind, Int.ofNat_eq_coe,
        writeAt_natCast]
      rw [setAt_eq_some _ _ _ (by simp only [List.length_map]; rw [hu.1]; exact hok),
        List.map_set]
      rfl)
  exact ⟨s', by rw [ht, hs'], hin⟩

theorem permuteBody_inrange {α : Type} (datain : List α) (shape ord : List Nat) (flipdim : Int)
    (hlen : ord.length = shape.length) (hrange : ∀ o ∈ ord, o < shape.length)
    (hpos : ∀ e ∈ shape, 0 < e) (hflip : flipdim < (shape.length : Int))
    (hin : shape.prod ≤ datain.length) (hcap : shape.prod ≤ (dstShape shape ord).prod)
    (p : Nat) (hp : p < shape.prod) (s : PermuteState α) (sidx : List Nat)
    (hidx : s.idx = sidx.map Int.ofNat) (hsidx : InShape shape sidx)
    (hdst : s.dstidx.length = shape.length) (hout : p < s.dataout.length) :
    ∃ s' sidx' q x, permuteBody datain ((dstShape shape ord).map Int.ofNat)
        ((strides shape).map Int.ofNat) ((strides (dstShape shape ord)).map Int.ofNat)
        (ord.map Int.ofNat) shape.length flipdim p s = some s' ∧
      s'.idx = sidx'.map Int.ofNat ∧ InShape shape sidx' ∧
      s'.dstidx.length = shape.length ∧
      q < shape.prod ∧ datain[q]? = some x ∧
      s'.dataout = s.dataout.set p x ∧
      s'.reads = s.reads ++ [(q : Int)] ∧ s'.writes = s.writes ++ [p] := by
  have hdl : (dstShape shape ord).length = shape.length := by rw [length_dstShape, hlen]
  have hdpos := dstShape_pos_of_range shape ord hrange hpos
  have hdig := digits_inShape _ hdpos p
  have hfl := flipAt_inShape _ flipdim _ hdig
  obtain ⟨sidx', hsc, hin'⟩ := scatter_loop_inrange shape ord _ sidx hrange hfl hsidx
  have hlt := linearIndex_lt shape sidx' hin'
  have hx : linearIndex shape sidx' < datain.length := by omega
  obtain ⟨t, ht⟩ := decompose_loop (dstShape shape ord) hdpos p (by omega) s.dstidx
    (by rw [hdst, hdl])
  refine ⟨{ idx := sidx'.map Int.ofNat,
             dstidx := (flipAt (dstShape shape ord) flipdim
               (digits (dstShape shape ord) p)).map Int.ofNat,
             dataout := s.dataout.set p datain[linearIndex shape sidx'],
             reads := s.reads ++ [(linearIndex shape sidx' : Int)],
             writes := s.writes ++ [p] },
    sidx', linearIndex shape sidx', datain[linearIndex shape sidx'], ?_, rfl, hin', ?_,
    hlt, List.getElem?_eq_getElem hx, rfl, rfl, rfl⟩
  · unfold permuteBody
    rw [← hdl, ht, Option.some_bind]
    rw [flipStep_eq _ _ _ hdig.1 (by rw [hdl]; exact hflip) (fun _ => hdig.2 _ (by
      rw [hdl]; omega)), Option.some_bind]
    rw [hdl, ← hlen, hidx, hsc, Option.some_bind]
    rw [hlen, accum_loop _ _ _ (by rw [hin'.1]) (by rw [length_strides]), Option.some_bind]
    rw [sum_strides_eq_linearIndex _ _ hin'.1, readAt_natCast, List.getElem?_eq_getElem hx,
      Option.some_bind, setAt_eq_some _ _ _ hout, Option.some_bind]
  · simp only [List.length_map]
    rw [length_flipAt, length_digits, hdl]

/-- A call with an order whose entries are in range, permutation or not, completes when the
permuted extents leave room for every destination index. -/
theorem permute_run_inrange {α : Type} (datain dataout : List α) (shape ord : List Nat)
    (flipdim : Int) (hn : 1 ≤ shape.length) (hlen : ord.length = shape.length)
    (hrange : ∀ o ∈ ord, o < shape.length) (hpos : ∀ e ∈ shape, 0 < e)
    (hflip : flipdim < (shape.length : Int)) (hin : shape.prod ≤ datain.length)
    (hout : shape.prod ≤ dataout.length) (hcap : shape.prod ≤ (dstShape shape ord).prod) :
    ∃ st, caffe_cpu_permute datain dataout (shape.map Int.ofNat) (ord.map Int.ofNat)
        (shape.length : Int) flipdim = some st ∧
      st.dataout.length = dataout.length ∧
      (∀ p, p < shape.prod → ∃ x, st.dataout[p]? = some x ∧ x ∈ datain) ∧
      (∀ p, shape.prod ≤ p → st.dataout[p]? = dataout[p]?) ∧
      st.writes = List.range shape.prod := by
  rw [permute_setup datain dataout shape ord flipdim hn hlen hrange]
  obtain ⟨st, hst, -, -, h1, h2, h3, h4⟩ := forUp_invariant
    (permuteBody datain ((dstShape shape ord).map Int.ofNat)
        ((strides shape).map Int.ofNat) ((strides (dstShape shape ord)).map Int.ofNat)
        (ord.map Int.ofNat) shape.length flipdim)
    (fun k st => (∃ sidx : List Nat, st.idx = sidx.map Int.ofNat ∧ InShape shape sidx) ∧
      st.dstidx.length = shape.length ∧
      st.dataout.length = dataout.length ∧
      (∀ p, p < k → ∃ x, st.dataout[p]? = some x ∧ x ∈ datain) ∧
      (∀ p, k ≤ p → st.dataout[p]? = dataout[p]?) ∧
      st.writes = List.range k)
    shape.prod
    { idx := List.replicate shape.length 0, dstidx := List.replicate shape.length 0,
      dataout := dataout, reads := [], writes := [] }
    ⟨⟨List.replicate shape.length 0, by simp, inShape_replicate_zero shape hpos⟩, by simp, rfl,
      fun p hp => absurd hp (Nat.not_lt_zero _), fun p _ => rfl, by simp⟩
    (by
      rintro k st hk ⟨⟨sidx, i1, i1'⟩, i2, i3, i4, i5, i6⟩
      obtain ⟨s', sidx', q, x, hbody, j1, j2, j3, j4, j5, j6, -, j8⟩ := permuteBody_inrange datain
        shape ord flipdim hlen hrange hpos hflip hin hcap k hk st sidx i1 i1' i2 (by omega)
      refine ⟨s', hbody, ⟨sidx', j1, j2⟩, j3, by rw [j6]; simpa using i3, ?_, ?_, ?_⟩
      · intro p hp
        rcases Nat.lt_succ_iff_lt_or_eq.mp hp with hpk | rfl
        · rw [j6, List.getElem?_set_ne (by omega)]
          exact i4 p hpk
        · refine ⟨x, ?_, List.mem_iff_getElem?.mpr ⟨_, j5⟩⟩
          rw [j6, List.getElem?_set, if_pos rfl, if_pos (by omega)]
      · intro p hp
        rw [j6, List.getElem?_set_ne (by omega)]
        exact i5 p (by omega)
      · rw [j8, i6, List.range_succ])
  exact ⟨st, hst, h1, h2, h3, h4⟩

/-! ## Absence of `int` overflow

Under the bound on the element count the routines with checked arithmetic run exactly as
`caffe_cpu_permute` and `Get_dist_matrix_cpu` do: no product, sum, difference, quotient or
remainder leaves the range of `int`. -/

theorem inInt_of_bounds (x : Int) (h0 : 0 ≤ x) (h1 : x ≤ (INT_MAX : Int)) :
    inInt x = some x := by
  unfold inInt
  rw [if_pos ⟨by omega, h1⟩]

theorem inInt_natCast (m : Nat) (h : m ≤ INT_MAX) : inInt (m : Int) = some (m : Int) :=
  inInt_of_bounds _ (Int.ofNat_nonneg m) (by exact_mod_cast h)

theorem forUp_congr_reach {σ : Type} (b1 b2 : Nat → σ → Option σ) (n lo : Nat) (s : σ)
    (h : ∀ k t, k < n → forUp b2 k lo s = some t → b1 (lo + k) t = b2 (lo + k) t) :
    forUp b1 n lo s = forUp b2 n lo s := by
  induction n with
  | zero => rfl
  | succ n ih =>
    rw [forUp_succ_last, forUp_succ_last, ih (fun k t hk => h k t (by omega))]
    cases ht : forUp b2 n lo s with
    | none => rfl
    | some t => exact h n t (by omega) ht

theorem forUp_congr_inv {σ : Type} (b1 b2 : Nat → σ → Option σ) (P : Nat → σ → Prop) (n : Nat)
    (s : σ) (h0 : P 0 s)
    (h : ∀ k t, k < n → P k t → b1 k t = b2 k t ∧ ∀ t', b2 k t = some t' → P (k + 1) t') :
    forUp b1 n 0 s = forUp b2 n 0 s := by
  have key : ∀ k, k ≤ n → ∀ t, forUp b2 k 0 s = some t → P k t := by
    intro k
    induction k with
    | zero =>
      intro _ t ht
      simp only [forUp, Option.some.injEq] at ht
      rw [← ht]
      exact h0
    | succ k ih =>
      intro hk t ht
      rw [forUp_succ_last] at ht
      cases hu : forUp b2 k 0 s with
      | none => rw [hu] at ht; exact absurd ht (by simp)
      | some u =>
        rw [hu, Option.some_bind, Nat.zero_add] at ht
        exact (h k u (by omega) (ih (by omega) u hu)).2 t ht
  refine forUp_congr_reach b1 b2 n 0 s (fun k t hk ht => ?_)
  rw [Nat.zero_add]
  exact (h k t hk (key k (by omega) t ht)).1

theorem forDown_congr_inv {σ : Type} (b1 b2 : Nat → σ → Option σ) (P : σ → Prop) (n : Nat)
    (s : σ) (h0 : P s)
    (h : ∀ k t, k < n → P t → b1 k t = b2 k t ∧ ∀ t', b2 k t = some t' → P t') :
    forDown b1 n s = forDown b2 n s := by
  induction n generalizing s with
  | zero => rfl
  | succ n ih =>
    rw [forDown, forDown, (h n s (by omega) h0).1]
    cases ht : b2 n s with
    | none => rfl
    | some t =>
      rw [Option.some_bind, Option.some_bind]
      exact ih t ((h n s (by omega) h0).2 t ht) (fun k u hk hu => h k u (by omega) hu)

theorem prod_take_drop_le (sh : List Nat) (hpos : ∀ e ∈ sh, 0 < e) (a k : Nat) :
    ((sh.drop a).take k).prod ≤ sh.prod := by
  have h1 : sh.prod = (sh.take a).prod * (sh.drop a).prod :=
    (List.prod_take_mul_prod_drop sh a).symm
  have h2 : (sh.drop a).prod = ((sh.drop a).take k).prod * ((sh.drop a).drop k).prod :=
    (List.prod_take_mul_prod_drop (sh.drop a) k).symm
  have p1 : 0 < (sh.take a).prod :=
    List.prod_pos (fun e he => hpos e (List.mem_of_mem_take he))
  have p2 : 0 < ((sh.drop a).drop k).prod :=
    List.prod_pos (fun e he => hpos e (List.mem_of_mem_drop (List.mem_of_mem_drop he)))
  calc ((sh.drop a).take k).prod
      ≤ ((sh.drop a).take k).prod * ((sh.drop a).drop k).prod := Nat.le_mul_of_pos_right _ p2
    _ = (sh.drop a).prod := h2.symm
    _ ≤ (sh.take a).prod * (sh.drop a).prod := Nat.le_mul_of_pos_left _ p1
    _ = sh.prod := h1.symm

theorem cast_prod_take_drop (sh : List Nat) (a k : Nat) :
    (((sh.map Int.ofNat).drop a).take k).prod = ((((sh.drop a).take k).prod : Nat) : Int) := by
  rw [Nat.cast_list_prod, List.map_take, List.map_drop]
  rfl

theorem capacityInnerChecked_loop (sh : List Nat) (hpos : ∀ e ∈ sh, 0 < e)
    (hfit : sh.prod ≤ INT_MAX) (i m : Nat) (cap : List Int) (hi : i < cap.length)
    (hc : cap[i] = 1) (hlo : i + 1 + m ≤ sh.length) :
    forUp (capacityInnerChecked (sh.map Int.ofNat) i) m (i + 1) cap
      = forUp (capacityInner (sh.map Int.ofNat) i) m (i + 1) cap := by
  refine forUp_congr_reach _ _ m (i + 1) cap (fun k t hk ht => ?_)
  rw [capacityInner_loop _ i k (i + 1) cap hi (by simp; omega)] at ht
  simp only [Option.some.injEq] at ht
  subst ht
  have hj : i + 1 + k < sh.length := by omega
  have hti : (cap.set i (cap[i] * (((sh.map Int.ofNat).drop (i + 1)).take k).prod))[i]?
      = some ((((sh.drop (i + 1)).take k).prod : Nat) : Int) := by
    rw [List.getElem?_set, if_pos rfl, if_pos hi, hc, one_mul, cast_prod_take_drop]
  have hd : (sh.map Int.ofNat)[i + 1 + k]? = some ((sh[i + 1 + k] : Nat) : Int) := by
    simp [List.getElem?_eq_getElem hj]
  have hprod : ((sh.drop (i + 1)).take k).prod * sh[i + 1 + k]
      = ((sh.drop (i + 1)).take (k + 1)).prod := by
    rw [List.prod_take_succ _ k (by simp; omega)]
    simp
  have hle : ((sh.drop (i + 1)).take k).prod * sh[i + 1 + k] ≤ INT_MAX := by
    rw [hprod]
    exact le_trans (prod_take_drop_le sh hpos _ _) hfit
  unfold capacityInnerChecked capacityInner
  rw [hti, hd]
  simp only [Option.some_bind]
  rw [← Int.natCast_mul, inInt_natCast _ hle, Option.some_bind]

theorem capacityBodyChecked_eq (sh : List Nat) (hpos : ∀ e ∈ sh, 0 < e)
    (hfit : sh.prod ≤ INT_MAX) (i : Nat) (cap : List Int) (hi : i < cap.length)
    (hd : i < sh.length) :
    capacityBodyChecked (sh.map Int.ofNat) sh.length i cap
      = capacityBody (sh.map Int.ofNat) sh.length i cap := by
  unfold capacityBodyChecked capacityBody
  rw [setAt_eq_some _ _ _ hi, Option.some_bind, Option.some_bind]
  exact capacityInnerChecked_loop sh hpos hfit i _ _ (by simpa using hi)
    (by rw [List.getElem_set_self]) (by omega)

theorem capacityTableChecked_eq (sh : List Nat) (hpos : ∀ e ∈ sh, 0 < e)
    (hfit : sh.prod ≤ INT_MAX) :
    capacityTableChecked (sh.map Int.ofNat) sh.length (List.replicate sh.length 1)
      = some ((strides sh).map Int.ofNat) := by
  rw [← capacityTable_eq sh]
  unfold capacityTableChecked capacityTable
  refine forDown_congr_inv _ _ (fun t => t.length = sh.length) _ _ (by simp)
    (fun k t hk ht => ⟨capacityBodyChecked_eq sh hpos hfit k t (by omega) (by omega), ?_⟩)
  intro t' h'
  rw [capacityBody_eq _ _ k t (by simp) (by omega) (by omega)] at h'
  simp only [Option.some.injEq] at h'
  rw [← h', List.length_set]
  exact ht

theorem decomposeChecked_loop (sh : List Nat) (hpos : ∀ e ∈ sh, 0 < e)
    (hfit : sh.prod ≤ INT_MAX) (p : Nat) (hp : p < sh.prod) (v : List Int)
    (hv : v.length = sh.length) :
    forUp (decomposeBodyChecked ((strides sh).map Int.ofNat)) sh.length 0 (v, (p : Int))
      = forUp (decomposeBody ((strides sh).map Int.ofNat)) sh.length 0 (v, (p : Int)) := by
  refine forUp_congr_reach _ _ _ 0 _ (fun k t hk ht => ?_)
  rw [decompose_loop_aux sh hpos p hp v hv k (by omega)] at ht
  simp only [Option.some.injEq] at ht
  subst ht
  rw [Nat.zero_add]
  have hc : 0 < (sh.drop (k + 1)).prod := prod_drop_pos sh hpos _
  have hne : ¬ (((sh.drop (k + 1)).prod : Nat) : Int) = 0 := by
    exact_mod_cast hc.ne'
  have hmod : p % (sh.drop k).prod ≤ p := Nat.mod_le _ _
  have hq : p % (sh.drop k).prod / (sh.drop (k + 1)).prod ≤ INT_MAX :=
    le_trans (Nat.div_le_self _ _) (by omega)
  have hm : p % (sh.drop k).prod % (sh.drop (k + 1)).prod ≤ INT_MAX :=
    le_trans (Nat.mod_le _ _) (by omega)
  simp only [decomposeBodyChecked, decomposeBody, List.getElem?_map, strides_getElem sh k hk,
    Option.map_some', Option.some_bind, Int.ofNat_eq_coe, if_neg hne, ← Int.ofNat_tdiv,
    ← Int.ofNat_tmod]
  rw [inInt_natCast _ hq, inInt_natCast _ hm]
  simp only [Option.some_bind]

theorem flipStepChecked_eq (dst d : List Nat) (flipdim : Int) (hd : InShape dst d)
    (hpos : ∀ e ∈ dst, 0 < e) (hfit : dst.prod ≤ INT_MAX) :
    flipStepChecked (dst.map Int.ofNat) flipdim (d.map Int.ofNat)
      = flipStep (dst.map Int.ofNat) flipdim (d.map Int.ofNat) := by
  unfold flipStepChecked flipStep
  by_cases h0 : 0 ≤ flipdim
  · obtain ⟨f, rfl⟩ := Int.eq_ofNat_of_zero_le h0
    rw [if_pos h0, if_pos h0]
    simp only [readAt_natCast, List.getElem?_map]
    by_cases hf : f < dst.length
    · have hfd : f < d.length := by rw [hd.1]; exact hf
      have hlt := hd.2 f hf
      rw [List.getD_eq_getElem _ _ hf, List.getD_eq_getElem _ _ hfd] at hlt
      have hle : dst[f] ≤ INT_MAX :=
        le_trans (List.single_le_prod (fun x hx => hpos x hx) _ (List.getElem_mem hf)) hfit
      have hle' : ((dst[f] : Nat) : Int) ≤ (INT_MAX : Int) := by exact_mod_cast hle
      have hlt' : ((d[f] : Nat) : Int) < ((dst[f] : Nat) : Int) := by exact_mod_cast hlt
      have hd0 : (0 : Int) ≤ ((d[f] : Nat) : Int) := Int.ofNat_nonneg _
      simp only [List.getElem?_eq_getElem hf, List.getElem?_eq_getElem hfd, Option.map_some',
        Option.some_bind, Int.ofNat_eq_coe]
      rw [inInt_of_bounds _ (by omega) (by omega), Option.some_bind,
        inInt_of_bounds _ (by omega) (by omega), Option.some_bind]
    · rw [List.getElem?_eq_none (by omega)]
      rfl
  · rw [if_neg h0, if_neg h0]

theorem sum_range_mono (f : Nat → Nat) (a b : Nat) (h : a ≤ b) :
    ((List.range a).map f).sum ≤ ((List.range b).map f).sum := by
  induction b with
  | zero =>
    have : a = 0 := by omega
    rw [this]
  | succ b ih =>
    rcases Nat.lt_succ_iff_lt_or_eq.mp (Nat.lt_succ_of_le h) with hlt | rfl
    · have := ih (by omega)
      rw [List.range_succ, List.map_append, List.sum_append]
      omega
    · exact le_refl _

theorem accumChecked_loop (sh s : List Nat) (hs : InShape sh s) (hfit : sh.prod ≤ INT_MAX) :
    forUp (accumBodyChecked (s.map Int.ofNat) ((strides sh).map Int.ofNat)) sh.length 0 0
      = forUp (accumBody (s.map Int.ofNat) ((strides sh).map Int.ofNat)) sh.length 0 0 := by
  refine forUp_congr_reach _ _ _ 0 _ (fun k t hk ht => ?_)
  have hks : k < s.length := by rw [hs.1]; exact hk
  have hkc : k < (strides sh).length := by rw [length_strides]; exact hk
  rw [accum_loop s (strides sh) k (by omega) (by omega)] at ht
  simp only [Option.some.injEq] at ht
  subst ht
  rw [Nat.zero_add]
  have htot : ((List.range (k + 1)).map fun j => s.getD j 0 * (strides sh).getD j 0).sum
      ≤ INT_MAX := by
    have h1 := sum_range_mono (fun j => s.getD j 0 * (strides sh).getD j 0) (k + 1) sh.length
      (by omega)
    have h2 := sum_strides_eq_linearIndex sh s hs.1
    have h3 := linearIndex_lt sh s hs
    omega
  rw [List.range_succ, List.map_append, List.sum_append] at htot
  simp only [List.map_cons, List.map_nil, List.sum_cons, List.sum_nil, Nat.add_zero,
    List.getD_eq_getElem _ _ hks, List.getD_eq_getElem _ _ hkc] at htot
  simp only [accumBodyChecked, accumBody, List.getElem?_map, List.getElem?_eq_getElem hks,
    List.getElem?_eq_getElem hkc, Option.map_some', Option.some_bind, Int.ofNat_eq_coe]
  rw [← Int.natCast_mul, inInt_natCast _ (by omega), Option.some_bind, ← Int.natCast_add,
    inInt_natCast _ htot]

theorem permuteBodyChecked_eq {α : Type} (datain : List α) (shape ord : List Nat)
    (flipdim : Int) (hlen : ord.length = shape.length) (hrange : ∀ o ∈ ord, o < shape.length)
    (hpos : ∀ e ∈ shape, 0 < e) (hflip : flipdim < (shape.length : Int))
    (hcap : shape.prod ≤ (dstShape shape ord).prod)
    (hfit : (dstShape shape ord).prod ≤ INT_MAX)
    (p : Nat) (hp : p < shape.prod) (s : PermuteState α) (sidx : List Nat)
    (hidx : s.idx = sidx.map Int.ofNat) (hsidx : InShape shape sidx)
    (hdst : s.dstidx.length = shape.length) :
    permuteBodyChecked datain ((dstShape shape ord).map Int.ofNat)
        ((strides shape).map Int.ofNat) ((strides (dstShape shape ord)).map Int.ofNat)
        (ord.map Int.ofNat) shape.length flipdim p s
      = permuteBody datain ((dstShape shape ord).map Int.ofNat)
        ((strides shape).map Int.ofNat) ((strides (dstShape shape ord)).map Int.ofNat)
        (ord.map Int.ofNat) shape.length flipdim p s := by
  have hdl : (dstShape shape ord).length = shape.length := by rw [length_dstShape, hlen]
  have hdpos := dstShape_pos_of_range shape ord hrange hpos
  have hdig := digits_inShape _ hdpos p
  have hfl := flipAt_inShape _ flipdim _ hdig
  obtain ⟨sidx', hsc, hin'⟩ := scatter_loop_inrange shape ord _ sidx hrange hfl hsidx
  obtain ⟨t, ht⟩ := decompose_loop (dstShape shape ord) hdpos p (by omega) s.dstidx
    (by rw [hdst, hdl])
  unfold permuteBodyChecked permuteBody
  rw [← hdl, decomposeChecked_loop (dstShape shape ord) hdpos hfit p (by omega) s.dstidx
    (by rw [hdst, hdl]), ht]
  simp only [Option.some_bind]
  rw [flipStepChecked_eq _ _ flipdim hdig hdpos hfit,
    flipStep_eq _ _ _ hdig.1 (by rw [hdl]; exact hflip) (fun _ => hdig.2 _ (by
      rw [hdl]; omega))]
  simp only [Option.some_bind]
  rw [hdl, ← hlen, hidx, hsc]
  simp only [Option.some_bind]
  rw [hlen, accumChecked_loop shape sidx' hin' (le_trans hcap hfit)]

/-- No `int` operation of `caffe_cpu_permute` overflows: for a shape of positive extents and an
order with entries in range, a permutation or not, such that the product of the permuted extents
is at least the element count and fits in `int`, the run with checked arithmetic is the run of
`caffe_cpu_permute`. -/
theorem permute_checked_eq {α : Type} (datain dataout : List α) (shape ord : List Nat)
    (flipdim : Int) (hn : 1 ≤ shape.length) (hlen : ord.length = shape.length)
    (hrange : ∀ o ∈ ord, o < shape.length) (hpos : ∀ e ∈ shape, 0 < e)
    (hflip : flipdim < (shape.length : Int)) (hin : shape.prod ≤ datain.length)
    (hout : shape.prod ≤ dataout.length) (hcap : shape.prod ≤ (dstShape shape ord).prod)
    (hfit : (dstShape shape ord).prod ≤ INT_MAX) :
    caffe_cpu_permute_checked datain dataout (shape.map Int.ofNat) (ord.map Int.ofNat)
        (shape.length : Int) flipdim
      = caffe_cpu_permute datain dataout (shape.map Int.ofNat) (ord.map Int.ofNat)
        (shape.length : Int) flipdim := by
  have hfit' : shape.prod ≤ INT_MAX := le_trans hcap hfit
  have hprod : (shape.drop 1).prod * shape[0] = shape.prod := by
    have h := prod_drop_eq shape 0 (by omega)
    simp only [List.drop_zero, Nat.zero_add] at h
    rw [h, Nat.mul_comm]
  have hdl : (dstShape shape ord).length = shape.length := by rw [length_dstShape, hlen]
  have hdpos := dstShape_pos_of_range shape ord hrange hpos
  have hdd : forUp (dstdimBody (shape.map Int.ofNat) (ord.map Int.ofNat)) shape.length 0
      (List.replicate shape.length 0) = some ((dstShape shape ord).map Int.ofNat) := by
    rw [← hlen]
    exact dstdim_loop shape ord hrange
  have hcap2 : capacityTableChecked ((dstShape shape ord).map Int.ofNat) shape.length
      (List.replicate shape.length 1) = some ((strides (dstShape shape ord)).map Int.ofNat) := by
    rw [← hdl]
    exact capacityTableChecked_eq _ hdpos hfit
  rw [permute_setup datain dataout shape ord flipdim hn hlen hrange]
  unfold caffe_cpu_permute_checked
  rw [if_neg (by omega)]
  simp only [Int.toNat_ofNat]
  rw [capacityTableChecked_eq shape hpos hfit', Option.some_bind, hdd, Option.some_bind, hcap2,
    Option.some_bind]
  simp only [List.getElem?_map, strides_getElem shape 0 (by omega),
    List.getElem?_eq_getElem (by omega : 0 < shape.length), Option.map_some', Option.some_bind,
    Int.ofNat_eq_coe, Nat.zero_add]
  rw [← Int.natCast_mul, hprod, inInt_natCast _ hfit', Option.some_bind, Int.toNat_ofNat]
  refine forUp_congr_inv _ _
    (fun _ st => (∃ sidx : List Nat, st.idx = sidx.map Int.ofNat ∧ InShape shape sidx) ∧
      st.dstidx.length = shape.length ∧ st.dataout.length = dataout.length)
    shape.prod _
    ⟨⟨List.replicate shape.length 0, by simp, inShape_replicate_zero shape hpos⟩, by simp, rfl⟩
    (fun k st hk ⟨⟨sidx, hsi, hsin⟩, hds, hdo⟩ =>
      ⟨permuteBodyChecked_eq datain shape ord flipdim hlen hrange hpos hflip hcap hfit k hk st
        sidx hsi hsin hds, ?_⟩)
  intro t' h'
  obtain ⟨s', sidx', q, x, hb, e1, e2, e3, -, -, e4, -, -⟩ := permuteBody_inrange datain shape
    ord flipdim hlen hrange hpos hflip hin hcap k hk st sidx hsi hsin hds (by omega)
  rw [hb] at h'
  simp only [Option.some.injEq] at h'
  subst h'
  exact ⟨⟨sidx', e1, e2⟩, e3, by rw [e4, List.length_set]; exact hdo⟩

/-- For a permutation `order` and an element count that fits in `int`, the run with checked
arithmetic is the run of `caffe_cpu_permute`. -/
theorem permute_checked_of_perm {α : Type} (datain dataout : List α) (shape ord : List Nat)
    (flipdim : Int) (hn : 1 ≤ shape.length) (hperm : ord.Perm (List.range ord.length))
    (hlen : ord.length = shape.length) (hpos : ∀ e ∈ shape, 0 < e)
    (hflip : flipdim < (shape.length : Int)) (hin : shape.prod ≤ datain.length)
    (hout : shape.prod ≤ dataout.length) (hfit : shape.prod ≤ INT_MAX) :
    caffe_cpu_permute_checked datain dataout (shape.map Int.ofNat) (ord.map Int.ofNat)
        (shape.length : Int) flipdim
      = caffe_cpu_permute datain dataout (shape.map Int.ofNat) (ord.map Int.ofNat)
        (shape.length : Int) flipdim := by
  have hprod := dstShape_prod shape ord hperm hlen
  exact permute_checked_eq datain dataout shape ord flipdim hn hlen (fun o ho => by
    rw [← hlen]; exact perm_range_mem_lt ord hperm o ho) hpos hflip hin hout
    (le_of_eq hprod.symm) (by rw [hprod]; exact hfit)

/-- The checks are effective: with extents `[65536, 65536, 65536]` the stride `65536 * 65536`
leaves the range of `int`, so the table with checked arithmetic is undefined where unbounded
integers give `4294967296`; `46341 * 46341` overflows and `46340 * 46340` does not. -/
theorem checked_arithmetic_detects_overflow :
    capacityTable [65536, 65536, 65536] 3 [1, 1, 1] = some [4294967296, 65536, 1] ∧
    capacityTableChecked [65536, 65536, 65536] 3 [1, 1, 1] = none ∧
    inInt (65536 * 65536) = none ∧ inInt (46341 * 46341) = none ∧
    inInt (46340 * 46340) = some 2147395600 := by
  decide

/-! ## The closed form on multi-indices -/

theorem flipAt_neg (dst : List Nat) (flipdim : Int) (d : List Nat) (h : flipdim < 0) :
    flipAt dst flipdim d = d := by
  simp [flipAt, not_le.mpr h]

theorem scatter_eq_of (ord d s : List Nat) (hperm : ord.Perm (List.range ord.length))
    (hs : s.length = ord.length)
    (hsd : ∀ j, j < ord.length → s.getD (ord.getD j 0) 0 = d.getD j 0) :
    scatter ord d = s := by
  refine List.ext_getElem (by rw [length_scatter, hs]) (fun k h1 h2 => ?_)
  rw [length_scatter] at h1
  have hix : ord.indexOf k < ord.length :=
    List.indexOf_lt_length.mpr (perm_range_mem ord hperm k h1)
  have h := hsd _ hix
  rw [List.getD_eq_getElem _ _ hix, List.getElem_indexOf hix, List.getD_eq_getElem _ _ h2] at h
  rw [h]
  simp [scatter]

/-- The source index of the destination position with multi-index `d`. -/
theorem srcIndex_linearIndex (shape ord d : List Nat) (flipdim : Int)
    (h : InShape (dstShape shape ord) d) :
    srcIndex shape ord flipdim (linearIndex (dstShape shape ord) d)
      = linearIndex shape (scatter ord (flipAt (dstShape shape ord) flipdim d)) := by
  unfold srcIndex
  rw [digits_linearIndex _ _ h]

theorem inShape_dstShape_iff (shape ord d : List Nat) :
    InShape (dstShape shape ord) d ↔
      d.length = ord.length ∧ ∀ j, j < ord.length → d.getD j 0 < shape.getD (ord.getD j 0) 0 := by
  unfold InShape
  rw [length_dstShape]
  constructor
  · rintro ⟨h1, h2⟩
    exact ⟨h1, fun j hj => by rw [← dstShape_getD _ _ _ hj]; exact h2 j hj⟩
  · rintro ⟨h1, h2⟩
    exact ⟨h1, fun j hj => by rw [dstShape_getD _ _ _ hj]; exact h2 j hj⟩

/-! ## Theorems about `caffe_cpu_permute` -/

/-- C1: with a shape of positive extents, `order` a permutation of the axes and no flip,
the call completes and the element of `dataout` at the row-major index of the destination
multi-index `d` (in the shape with extent `shape[order[j]]` at axis `j`) is the element of
`datain` at the row-major index, in the source shape, of the multi-index `s` with
`s[order[j]] = d[j]`: `order[j]` is the source axis that becomes destination axis `j`. -/
theorem permute_moves_source_axis_to_destination {α : Type} (datain dataout : List α)
    (shape ord d s : List Nat) (flipdim : Int)
    (hn : 1 ≤ shape.length) (hpos : ∀ e ∈ shape, 0 < e)
    (hperm : ord.Perm (List.range shape.length)) (hflip : flipdim < 0)
    (hin : datain.length = shape.prod) (hout : shape.prod ≤ dataout.length)
    (hd : d.length = shape.length)
    (hdlt : ∀ j, j < shape.length → d.getD j 0 < shape.getD (ord.getD j 0) 0)
    (hs : s.length = shape.length)
    (hsd : ∀ j, j < shape.length → s.getD (ord.getD j 0) 0 = d.getD j 0) :
    ∃ st x, caffe_cpu_permute datain dataout (shape.map Int.ofNat) (ord.map Int.ofNat)
        (shape.length : Int) flipdim = some st ∧
      linearIndex (dstShape shape ord) d < shape.prod ∧
      linearIndex shape s < shape.prod ∧
      st.dataout[linearIndex (dstShape shape ord) d]? = some x ∧
      datain[linearIndex shape s]? = some x := by
  have hlen : ord.length = shape.length := by simpa using hperm.length_eq
  have hperm' : ord.Perm (List.range ord.length) := by rw [hlen]; exact hperm
  obtain ⟨st, hst, -, hval, -, -, -⟩ := permute_run datain dataout shape ord flipdim hn hperm'
    hlen hpos (by omega) (le_of_eq hin.symm) hout
  have hD : InShape (dstShape shape ord) d :=
    (inShape_dstShape_iff shape ord d).mpr ⟨by rw [hd, hlen], fun j hj => hdlt j (by omega)⟩
  have hp : linearIndex (dstShape shape ord) d < shape.prod := by
    rw [← dstShape_prod shape ord hperm' hlen]
    exact linearIndex_lt _ _ hD
  have hsrc : srcIndex shape ord flipdim (linearIndex (dstShape shape ord) d)
      = linearIndex shape s := by
    rw [srcIndex_linearIndex _ _ _ _ hD, flipAt_neg _ _ _ hflip,
      scatter_eq_of ord d s hperm' (by rw [hs, hlen]) (fun j hj => hsd j (by omega))]
  have hs' : linearIndex shape s < datain.length := by
    rw [← hsrc, hin]
    exact srcIndex_lt shape ord flipdim hperm' hlen hpos _
  refine ⟨st, datain[linearIndex shape s], hst, hp, by rw [← hin]; exact hs', ?_,
    List.getElem?_eq_getElem hs'⟩
  rw [hval _ hp, hsrc, List.getElem?_eq_getElem hs']

theorem permute_moves_source_axis_to_destination_witness :
    ∃ st x, caffe_cpu_permute [10, 11, 12, 13, 14, 15] [0, 0, 0, 0, 0, 0]
        ([2, 3].map Int.ofNat) ([1, 0].map Int.ofNat) (([2, 3] : List Nat).length : Int) (-1)
        = some st ∧
      linearIndex (dstShape [2, 3] [1, 0]) [2, 1] < ([2, 3] : List Nat).prod ∧
      linearIndex [2, 3] [1, 2] < ([2, 3] : List Nat).prod ∧
      st.dataout[linearIndex (dstShape [2, 3] [1, 0]) [2, 1]]? = some x ∧
      ([10, 11, 12, 13, 14, 15] : List Nat)[linearIndex [2, 3] [1, 2]]? = some x :=
  permute_moves_source_axis_to_destination [10, 11, 12, 13, 14, 15] [0, 0, 0, 0, 0, 0]
    [2, 3] [1, 0] [2, 1] [1, 2] (-1) (by decide) (by decide) (by decide) (by decide)
    (by decide) (by decide) (by decide) (by decide) (by decide) (by decide)

/-! ## The index map is a bijection -/

theorem scatter_getD_ord (ord F : List Nat) (hperm : ord.Perm (List.range ord.length))
    (j : Nat) (hj : j < ord.length) :
    (scatter ord F).getD (ord.getD j 0) 0 = F.getD j 0 := by
  have hlt : ord[j] < ord.length := perm_range_mem_lt ord hperm _ (List.getElem_mem _)
  rw [List.getD_eq_getElem _ _ hj, scatter_getD _ _ _ hlt,
    List.indexOf_getElem (perm_range_nodup ord hperm) j hj]

theorem scatter_injective (ord F G : List Nat) (hperm : ord.Perm (List.range ord.length))
    (hF : F.length = ord.length) (hG : G.length = ord.length)
    (h : scatter ord F = scatter ord G) : F = G := by
  refine List.ext_getElem (by rw [hF, hG]) (fun j h1 h2 => ?_)
  have hj : j < ord.length := by omega
  have := scatter_getD_ord ord F hperm j hj
  rw [h, scatter_getD_ord ord G hperm j hj, List.getD_eq_getElem _ _ h1,
    List.getD_eq_getElem _ _ h2] at this
  exact this.symm

theorem flipAt_flipAt (dst : List Nat) (flipdim : Int) (d : List Nat) (h : InShape dst d) :
    flipAt dst flipdim (flipAt dst flipdim d) = d := by
  by_cases h0 : 0 ≤ flipdim
  · simp only [flipAt, if_pos h0]
    by_cases hf : flipdim.toNat < dst.length
    · have hfd : flipdim.toNat < d.length := by rw [h.1]; exact hf
      have hlt := h.2 _ hf
      have e1 : ∀ x, (d.set flipdim.toNat x).getD flipdim.toNat 0 = x := fun x => by
        rw [List.getD_eq_getElem _ _ (by simpa using hfd)]
        exact List.getElem_set_self _
      have e2 : dst.getD flipdim.toNat 0 - 1
          - (dst.getD flipdim.toNat 0 - 1 - d.getD flipdim.toNat 0) = d.getD flipdim.toNat 0 := by
        omega
      rw [List.set_set, e1, e2, List.getD_eq_getElem _ _ hfd]
      refine List.ext_getElem (by simp) (fun j h1 h2 => ?_)
      rw [List.getElem_set]
      split
      · subst_vars; rfl
      · rfl
    · have hfd : d.length ≤ flipdim.toNat := by rw [h.1]; omega
      rw [List.set_eq_of_length_le hfd, List.set_eq_of_length_le hfd]
  · simp [flipAt, h0]

theorem srcIndex_injOn (shape ord : List Nat) (flipdim : Int)
    (hperm : ord.Perm (List.range ord.length)) (hlen : ord.length = shape.length)
    (hpos : ∀ e ∈ shape, 0 < e) (p q : Nat) (hp : p < shape.prod) (hq : q < shape.prod)
    (h : srcIndex shape ord flipdim p = srcIndex shape ord flipdim q) : p = q := by
  have hdpos := dstShape_pos shape ord hperm hlen hpos
  have hprod := dstShape_prod shape ord hperm hlen
  have hDp := digits_inShape _ hdpos p
  have hDq := digits_inShape _ hdpos q
  have hFp := flipAt_inShape _ flipdim _ hDp
  have hFq := flipAt_inShape _ flipdim _ hDq
  have hSp := scatter_inShape shape ord _ hperm hlen hFp
  have hSq := scatter_inShape shape ord _ hperm hlen hFq
  unfold srcIndex at h
  have h1 := congrArg (digits shape) h
  rw [digits_linearIndex _ _ hSp, digits_linearIndex _ _ hSq] at h1
  have h2 := scatter_injective ord _ _ hperm (by rw [hFp.1, length_dstShape])
    (by rw [hFq.1, length_dstShape]) h1
  have h3 := congrArg (flipAt (dstShape shape ord) flipdim) h2
  rw [flipAt_flipAt _ _ _ hDp, flipAt_flipAt _ _ _ hDq] at h3
  have h4 := congrArg (linearIndex (dstShape shape ord)) h3
  rwa [linearIndex_digits _ _ (by rw [hprod]; exact hp),
    linearIndex_digits _ _ (by rw [hprod]; exact hq)] at h4

theorem srcIndex_perm (shape ord : List Nat) (flipdim : Int)
    (hperm : ord.Perm (List.range ord.length)) (hlen : ord.length = shape.length)
    (hpos : ∀ e ∈ shape, 0 < e) :
    ((List.range shape.prod).map (srcIndex shape ord flipdim)).Perm (List.range shape.prod) := by
  have hnd : ((List.range shape.prod).map (srcIndex shape ord flipdim)).Nodup :=
    List.Nodup.map_on (fun p hp q hq h => srcIndex_injOn shape ord flipdim hperm hlen hpos p q
      (List.mem_range.mp hp) (List.mem_range.mp hq) h) (List.nodup_range _)
  have hsub : (List.range shape.prod).map (srcIndex shape ord flipdim) ⊆ List.range shape.prod := by
    intro x hx
    obtain ⟨p, -, rfl⟩ := List.mem_map.mp hx
    exact List.mem_range.mpr (srcIndex_lt shape ord flipdim hperm hlen hpos p)
  exact (List.subperm_of_subset hnd hsub).perm_of_length_le (by simp)

/-- C2: with a shape of positive extents whose element count fits in `int`, `order` a
permutation of the axes and `flipdim` negative or an axis, the call completes, also when every
`int` operation is checked for overflow, and the sequence of source indices `curidx` computed by
the main loop for `p = 0, ..., total-1` has one entry per destination index, each in
`[0, total)`, and every source index in `[0, total)` occurs at exactly one position: the map
from destination index to source index is a bijection of `[0, total)` onto itself. -/
theorem permute_source_indices_bijective {α : Type} (datain dataout : List α)
    (shape ord : List Nat) (flipdim : Int)
    (hn : 1 ≤ shape.length) (hpos : ∀ e ∈ shape, 0 < e)
    (hperm : ord.Perm (List.range shape.length)) (hflip : flipdim < (shape.length : Int))
    (hin : datain.length = shape.prod) (hout : shape.prod ≤ dataout.length)
    (hfit : shape.prod ≤ INT_MAX) :
    ∃ st, caffe_cpu_permute datain dataout (shape.map Int.ofNat) (ord.map Int.ofNat)
        (shape.length : Int) flipdim = some st ∧
      caffe_cpu_permute_checked datain dataout (shape.map Int.ofNat) (ord.map Int.ofNat)
        (shape.length : Int) flipdim = some st ∧
      st.reads.length = shape.prod ∧
      (∀ p, p < shape.prod → ∃ q, q < shape.prod ∧ st.reads[p]? = some (q : Int)) ∧
      (∀ q, q < shape.prod → ∃! p : Nat, st.reads[p]? = some (q : Int)) ∧
      st.reads.Perm ((List.range shape.prod).map Int.ofNat) := by
  have hlen : ord.length = shape.length := by simpa using hperm.length_eq
  have hperm' : ord.Perm (List.range ord.length) := by rw [hlen]; exact hperm
  obtain ⟨st, hst, -, -, -, hreads, -⟩ := permute_run datain dataout shape ord flipdim hn hperm'
    hlen hpos hflip (le_of_eq hin.symm) hout
  have hP : st.reads.Perm ((List.range shape.prod).map Int.ofNat) := by
    have := (srcIndex_perm shape ord flipdim hperm' hlen hpos).map Int.ofNat
    rw [List.map_map] at this
    rw [hreads]
    exact this
  have hnd : st.reads.Nodup :=
    hP.nodup_iff.mpr ((List.nodup_range _).map (fun a b h => by simpa using h))
  refine ⟨st, hst, ?_, by simp [hreads], fun p hp => ?_, fun q hq => ?_, hP⟩
  · rw [permute_checked_of_perm datain dataout shape ord flipdim hn hperm' hlen hpos hflip
      (le_of_eq hin.symm) hout hfit]
    exact hst
  · exact ⟨srcIndex shape ord flipdim p, srcIndex_lt shape ord flipdim hperm' hlen hpos p,
      by simp [hreads, hp]⟩
  · have hmem : (q : Int) ∈ st.reads :=
      hP.symm.subset (List.mem_map.mpr ⟨q, List.mem_range.mpr hq, rfl⟩)
    obtain ⟨p, hp⟩ := List.mem_iff_getElem?.mp hmem
    refine ⟨p, hp, fun p' hp' => ?_⟩
    obtain ⟨h1, e1⟩ := List.getElem?_eq_some_iff.mp hp
    obtain ⟨h2, e2⟩ := List.getElem?_eq_some_iff.mp hp'
    exact (List.Nodup.getElem_inj_iff hnd).mp (e2.trans e1.symm)

theorem permute_source_indices_bijective_witness :
    ∃ st, caffe_cpu_permute [10, 11, 12, 13, 14, 15] [0, 0, 0, 0, 0, 0]
        ([2, 3].map Int.ofNat) ([1, 0].map Int.ofNat) (([2, 3] : List Nat).length : Int) 1
        = some st ∧
      caffe_cpu_permute_checked [10, 11, 12, 13, 14, 15] [0, 0, 0, 0, 0, 0]
        ([2, 3].map Int.ofNat) ([1, 0].map Int.ofNat) (([2, 3] : List Nat).length : Int) 1
        = some st ∧
      st.reads.length = ([2, 3] : List Nat).prod ∧
      (∀ p, p < ([2, 3] : List Nat).prod →
        ∃ q, q < ([2, 3] : List Nat).prod ∧ st.reads[p]? = some (q : Int)) ∧
      (∀ q, q < ([2, 3] : List Nat).prod → ∃! p : Nat, st.reads[p]? = some (q : Int)) ∧
      st.reads.Perm ((List.range ([2, 3] : List Nat).prod).map Int.ofNat) :=
  permute_source_indices_bijective [10, 11, 12, 13, 14, 15] [0, 0, 0, 0, 0, 0] [2, 3] [1, 0] 1
    (by decide) (by decide) (by decide) (by decide) (by decide) (by decide) (by decide)

/-! ## Identity order and inverse order -/

theorem take_eq_of_getElem? {β : Type} (l m : List β) (k : Nat) (hm : m.length = k)
    (hl : k ≤ l.length) (h : ∀ p, p < k → l[p]? = m[p]?) : l.take k = m := by
  refine List.ext_getElem (by rw [List.length_take, hm]; omega) (fun p h1 h2 => ?_)
  have hp : p < k := by omega
  have := h p hp
  rw [List.getElem?_eq_getElem (by omega), List.getElem?_eq_getElem h2] at this
  rw [List.getElem_take]
  exact Option.some.inj this

theorem dstShape_range (shape : List Nat) : dstShape shape (List.range shape.length) = shape := by
  refine List.ext_getElem (by simp [dstShape]) (fun i h1 h2 => ?_)
  simp [dstShape, List.getD_eq_getElem, h2]

/-- Without a flip the source index of the destination position with multi-index `d` is the
row-major index of the multi-index `s` with `s[ord[j]] = d[j]`. -/
theorem srcIndex_of_multiIndex (shape ord d s : List Nat) (flipdim : Int) (hflip : flipdim < 0)
    (hperm : ord.Perm (List.range ord.length)) (hD : InShape (dstShape shape ord) d)
    (hs : s.length = ord.length)
    (hsd : ∀ j, j < ord.length → s.getD (ord.getD j 0) 0 = d.getD j 0) :
    srcIndex shape ord flipdim (linearIndex (dstShape shape ord) d) = linearIndex shape s := by
  rw [srcIndex_linearIndex _ _ _ _ hD, flipAt_neg _ _ _ hflip, scatter_eq_of ord d s hperm hs hsd]

theorem srcIndex_identity (shape : List Nat) (flipdim : Int) (hflip : flipdim < 0) (p : Nat)
    (hpos : ∀ e ∈ shape, 0 < e) (hp : p < shape.prod) :
    srcIndex shape (List.range shape.length) flipdim p = p := by
  have hperm : (List.range shape.length).Perm (List.range (List.range shape.length).length) := by
    simp
  have hD : InShape (dstShape shape (List.range shape.length)) (digits shape p) := by
    rw [dstShape_range]; exact digits_inShape shape hpos p
  have h := srcIndex_of_multiIndex shape (List.range shape.length) (digits shape p)
    (digits shape p) flipdim hflip hperm hD (by simp [length_digits]) (fun j hj => by
      simp only [List.length_range] at hj
      have e : (List.range shape.length).getD j 0 = j := by
        rw [List.getD_eq_getElem _ _ (by simpa using hj), List.getElem_range]
      rw [e])
  rw [dstShape_range, linearIndex_digits _ _ hp] at h
  exact h

theorem inverse_getD (ord inv : List Nat) (hperm : ord.Perm (List.range ord.length))
    (hinv : ∀ i, i < ord.length → inv.getD (ord.getD i 0) 0 = i) (k : Nat)
    (hk : k < ord.length) : inv.getD k 0 = ord.indexOf k := by
  have hix : ord.indexOf k < ord.length :=
    List.indexOf_lt_length.mpr (perm_range_mem ord hperm k hk)
  have h := hinv _ hix
  rwa [List.getD_eq_getElem _ _ hix, List.getElem_indexOf hix] at h

theorem ord_inverse_getD (ord inv : List Nat) (hperm : ord.Perm (List.range ord.length))
    (hinv : ∀ i, i < ord.length → inv.getD (ord.getD i 0) 0 = i) (k : Nat)
    (hk : k < ord.length) : ord.getD (inv.getD k 0) 0 = k := by
  have hix : ord.indexOf k < ord.length :=
    List.indexOf_lt_length.mpr (perm_range_mem ord hperm k hk)
  rw [inverse_getD ord inv hperm hinv k hk, List.getD_eq_getElem _ _ hix,
    List.getElem_indexOf hix]

theorem inverse_perm (ord inv : List Nat) (hperm : ord.Perm (List.range ord.length))
    (hl : inv.length = ord.length)
    (hinv : ∀ i, i < ord.length → inv.getD (ord.getD i 0) 0 = i) :
    inv.Perm (List.range inv.length) := by
  have heq : inv = (List.range ord.length).map (fun k => ord.indexOf k) := by
    refine List.ext_getElem (by simp [hl]) (fun k h1 h2 => ?_)
    have hk : k < ord.length := by omega
    have := inverse_getD ord inv hperm hinv k hk
    rw [List.getD_eq_getElem _ _ h1] at this
    simp [this]
  have hnd : inv.Nodup := by
    rw [heq]
    refine List.Nodup.map_on (fun a ha b hb h => ?_) (List.nodup_range _)
    have ha' := List.indexOf_lt_length.mpr (perm_range_mem ord hperm a (List.mem_range.mp ha))
    have hb' := List.indexOf_lt_length.mpr (perm_range_mem ord hperm b (List.mem_range.mp hb))
    have e1 := List.getElem_indexOf ha'
    have e2 := List.getElem_indexOf hb'
    simp only [h] at e1
    exact e1.symm.trans e2
  have hsub : inv ⊆ List.range inv.length := by
    intro x hx
    rw [heq] at hx
    obtain ⟨k, hk, rfl⟩ := List.mem_map.mp hx
    rw [hl]
    exact List.mem_range.mpr
      (List.indexOf_lt_length.mpr (perm_range_mem ord hperm k (List.mem_range.mp hk)))
  exact (List.subperm_of_subset hnd hsub).perm_of_length_le (by simp)

theorem dstShape_inverse (shape ord inv : List Nat) (hperm : ord.Perm (List.range ord.length))
    (hlen : ord.length = shape.length) (hl : inv.length = ord.length)
    (hinv : ∀ i, i < ord.length → inv.getD (ord.getD i 0) 0 = i) :
    dstShape (dstShape shape ord) inv = shape := by
  refine List.ext_getElem (by rw [length_dstShape, hl, hlen]) (fun k h1 h2 => ?_)
  have hk : k < inv.length := by rw [length_dstShape] at h1; exact h1
  have hko : k < ord.length := by omega
  have hlt : inv.getD k 0 < ord.length := by
    rw [inverse_getD ord inv hperm hinv k hko]
    exact List.indexOf_lt_length.mpr (perm_range_mem ord hperm k hko)
  rw [← List.getD_eq_getElem _ 0 h1, dstShape_getD _ _ _ hk, dstShape_getD _ _ _ hlt,
    ord_inverse_getD ord inv hperm hinv k hko, List.getD_eq_getElem _ _ h2]

/-- The index maps of a permutation and of its inverse cancel. -/
theorem srcIndex_inverse (shape ord inv : List Nat) (f1 f2 : Int) (hf1 : f1 < 0) (hf2 : f2 < 0)
    (hperm : ord.Perm (List.range ord.length)) (hlen : ord.length = shape.length)
    (hpos : ∀ e ∈ shape, 0 < e) (hl : inv.length = ord.length)
    (hinv : ∀ i, i < ord.length → inv.getD (ord.getD i 0) 0 = i) (p : Nat)
    (hp : p < shape.prod) :
    srcIndex shape ord f1 (srcIndex (dstShape shape ord) inv f2 p) = p := by
  have hpi := inverse_perm ord inv hperm hl hinv
  have hsh := dstShape_inverse shape ord inv hperm hlen hl hinv
  have hm := digits_inShape shape hpos p
  have hm' : InShape (dstShape (dstShape shape ord) inv) (digits shape p) := by
    rw [hsh]; exact hm
  have hsc : InShape (dstShape shape ord) (scatter inv (digits shape p)) :=
    scatter_inShape (dstShape shape ord) inv _ hpi (by rw [length_dstShape, hl]) hm'
  have e2 : srcIndex (dstShape shape ord) inv f2 p
      = linearIndex (dstShape shape ord) (scatter inv (digits shape p)) := by
    have := srcIndex_linearIndex (dstShape shape ord) inv (digits shape p) f2 hm'
    rw [hsh, linearIndex_digits _ _ hp, flipAt_neg _ _ _ hf2] at this
    exact this
  rw [e2, srcIndex_of_multiIndex shape ord _ (digits shape p) f1 hf1 hperm hsc
    (by rw [length_digits, hlen]) (fun j hj => ?_), linearIndex_digits _ _ hp]
  have := scatter_getD_ord inv (digits shape p) hpi (ord.getD j 0) (by
    rw [hl, List.getD_eq_getElem _ _ hj]
    exact perm_range_mem_lt ord hperm _ (List.getElem_mem _))
  rw [hinv j hj] at this
  exact this.symm

/-- C3: round trip. With a shape of positive extents whose element count fits in `int` and
`order` a permutation of the axes, permuting `A` by `order` (no flip) and then permuting the
result, read with the permuted shape, by the inverse permutation `inv` (`inv[order[i]] = i`, no
flip) completes, also when every `int` operation of the two calls is checked for overflow, and
gives back `A` element for element. -/
theorem permute_then_inverse_restores {α : Type} (A out1 out2 : List α)
    (shape ord inv : List Nat) (f1 f2 : Int)
    (hn : 1 ≤ shape.length) (hpos : ∀ e ∈ shape, 0 < e)
    (hperm : ord.Perm (List.range shape.length)) (hf1 : f1 < 0) (hf2 : f2 < 0)
    (hl : inv.length = shape.length)
    (hinv : ∀ i, i < shape.length → inv.getD (ord.getD i 0) 0 = i)
    (hA : A.length = shape.prod) (h1 : shape.prod ≤ out1.length)
    (h2 : shape.prod ≤ out2.length) (hfit : shape.prod ≤ INT_MAX) :
    ∃ st1 st2,
      caffe_cpu_permute A out1 (shape.map Int.ofNat) (ord.map Int.ofNat)
        (shape.length : Int) f1 = some st1 ∧
      caffe_cpu_permute st1.dataout out2 ((dstShape shape ord).map Int.ofNat)
        (inv.map Int.ofNat) (shape.length : Int) f2 = some st2 ∧
      caffe_cpu_permute_checked A out1 (shape.map Int.ofNat) (ord.map Int.ofNat)
        (shape.length : Int) f1 = some st1 ∧
      caffe_cpu_permute_checked st1.dataout out2 ((dstShape shape ord).map Int.ofNat)
        (inv.map Int.ofNat) (shape.length : Int) f2 = some st2 ∧
      (∀ p, p < shape.prod → st2.dataout[p]? = A[p]?) ∧
      st2.dataout.take shape.prod = A := by
  have hlen : ord.length = shape.length := by simpa using hperm.length_eq
  have hperm' : ord.Perm (List.range ord.length) := by rw [hlen]; exact hperm
  have hl' : inv.length = ord.length := by rw [hl, hlen]
  have hinv' : ∀ i, i < ord.length → inv.getD (ord.getD i 0) 0 = i :=
    fun i hi => hinv i (by omega)
  have hdl : (dstShape shape ord).length = shape.length := by rw [length_dstShape, hlen]
  have hprod := dstShape_prod shape ord hperm' hlen
  have hdpos := dstShape_pos shape ord hperm' hlen hpos
  have hpi := inverse_perm ord inv hperm' hl' hinv'
  obtain ⟨st1, hst1, hlen1, hval1, -, -, -⟩ := permute_run A out1 shape ord f1 hn hperm' hlen
    hpos (by omega) (le_of_eq hA.symm) h1
  obtain ⟨st2, hst2, hlen2, hval2, -, -, -⟩ := permute_run st1.dataout out2 (dstShape shape ord)
    inv f2 (by rw [hdl]; exact hn) hpi (by rw [hdl, hl]) hdpos (by rw [hdl]; omega)
    (by rw [hprod, hlen1]; exact h1) (by rw [hprod]; exact h2)
  have hc1 := permute_checked_of_perm A out1 shape ord f1 hn hperm' hlen hpos (by omega)
    (le_of_eq hA.symm) h1 hfit
  have hc2 := permute_checked_of_perm st1.dataout out2 (dstShape shape ord) inv f2
    (by rw [hdl]; exact hn) hpi (by rw [hdl, hl]) hdpos (by rw [hdl]; omega)
    (by rw [hprod, hlen1]; exact h1) (by rw [hprod]; exact h2) (by rw [hprod]; exact hfit)
  rw [hdl] at hst2 hc2
  rw [hprod] at hval2
  have hpt : ∀ p, p < shape.prod → st2.dataout[p]? = A[p]? := by
    intro p hp
    have hq : srcIndex (dstShape shape ord) inv f2 p < shape.prod := by
      rw [← hprod]
      exact srcIndex_lt (dstShape shape ord) inv f2 hpi (by rw [hdl, hl]) hdpos p
    rw [hval2 p hp, hval1 _ hq,
      srcIndex_inverse shape ord inv f1 f2 hf1 hf2 hperm' hlen hpos hl' hinv' p hp]
  exact ⟨st1, st2, hst1, hst2, hc1.trans hst1, hc2.trans hst2, hpt,
    take_eq_of_getElem? _ _ _ hA (by rw [hlen2]; exact h2) hpt⟩

theorem permute_then_inverse_restores_witness :
    (∃ st1 st2,
      caffe_cpu_permute [10, 11, 12, 13, 14, 15, 16, 17, 18, 19, 20, 21]
        [0, 0, 0, 0, 0, 0, 0, 0, 0, 0, 0, 0]
        (([2, 3, 2] : List Nat).map Int.ofNat) (([1, 2, 0] : List Nat).map Int.ofNat)
        (([2, 3, 2] : List Nat).length : Int) (-1) = some st1 ∧
      caffe_cpu_permute st1.dataout [0, 0, 0, 0, 0, 0, 0, 0, 0, 0, 0, 0]
        ((dstShape [2, 3, 2] [1, 2, 0]).map Int.ofNat)
        (([2, 0, 1] : List Nat).map Int.ofNat) (([2, 3, 2] : List Nat).length : Int) (-1)
        = some st2 ∧
      caffe_cpu_permute_checked [10, 11, 12, 13, 14, 15, 16, 17, 18, 19, 20, 21]
        [0, 0, 0, 0, 0, 0, 0, 0, 0, 0, 0, 0]
        (([2, 3, 2] : List Nat).map Int.ofNat) (([1, 2, 0] : List Nat).map Int.ofNat)
        (([2, 3, 2] : List Nat).length : Int) (-1) = some st1 ∧
      caffe_cpu_permute_checked st1.dataout [0, 0, 0, 0, 0, 0, 0, 0, 0, 0, 0, 0]
        ((dstShape [2, 3, 2] [1, 2, 0]).map Int.ofNat)
        (([2, 0, 1] : List Nat).map Int.ofNat) (([2, 3, 2] : List Nat).length : Int) (-1)
        = some st2 ∧
      (∀ p, p < ([2, 3, 2] : List Nat).prod →
        st2.dataout[p]? = ([10, 11, 12, 13, 14, 15, 16, 17, 18, 19, 20, 21] : List Nat)[p]?) ∧
      st2.dataout.take ([2, 3, 2] : List Nat).prod
        = [10, 11, 12, 13, 14, 15, 16, 17, 18, 19, 20, 21]) ∧
    (caffe_cpu_permute [10, 11, 12, 13, 14, 15, 16, 17, 18, 19, 20, 21]
        [0, 0, 0, 0, 0, 0, 0, 0, 0, 0, 0, 0] [2, 3, 2] [1, 2, 0] 3 (-1)).map
        (fun st => st.dataout)
      = some [10, 16, 11, 17, 12, 18, 13, 19, 14, 20, 15, 21] :=
  ⟨permute_then_inverse_restores [10, 11, 12, 13, 14, 15, 16, 17, 18, 19, 20, 21]
    [0, 0, 0, 0, 0, 0, 0, 0, 0, 0, 0, 0] [0, 0, 0, 0, 0, 0, 0, 0, 0, 0, 0, 0]
    [2, 3, 2] [1, 2, 0] [2, 0, 1] (-1) (-1) (by decide) (by decide) (by decide) (by decide)
    (by decide) (by decide) (by decide) (by decide) (by decide) (by decide) (by decide),
    by decide⟩

/-- C4: identity. With a shape of positive extents whose element count fits in `int`,
`order = [0, 1, ..., dimsize-1]` and no flip, the call completes, also when every `int`
operation is checked for overflow, and writes `dataout[p] = datain[p]` for every `p` in
`[0, total)`: the first `total` elements of `dataout` are the buffer `datain`. -/
theorem permute_identity_order_copies {α : Type} (datain dataout : List α) (shape : List Nat)
    (flipdim : Int) (hn : 1 ≤ shape.length) (hpos : ∀ e ∈ shape, 0 < e) (hflip : flipdim < 0)
    (hin : datain.length = shape.prod) (hout : shape.prod ≤ dataout.length)
    (hfit : shape.prod ≤ INT_MAX) :
    ∃ st, caffe_cpu_permute datain dataout (shape.map Int.ofNat)
        ((List.range shape.length).map Int.ofNat) (shape.length : Int) flipdim = some st ∧
      caffe_cpu_permute_checked datain dataout (shape.map Int.ofNat)
        ((List.range shape.length).map Int.ofNat) (shape.length : Int) flipdim = some st ∧
      (∀ p, p < shape.prod → st.dataout[p]? = datain[p]?) ∧
      st.dataout.take shape.prod = datain := by
  obtain ⟨st, hst, hlen, hval, -, -, -⟩ := permute_run datain dataout shape
    (List.range shape.length) flipdim hn (by simp) (by simp) hpos (by omega)
    (le_of_eq hin.symm) hout
  have hpt : ∀ p, p < shape.prod → st.dataout[p]? = datain[p]? := fun p hp => by
    rw [hval p hp, srcIndex_identity shape flipdim hflip p hpos hp]
  have hc := permute_checked_of_perm datain dataout shape (List.range shape.length) flipdim hn
    (by simp) (by simp) hpos (by omega) (le_of_eq hin.symm) hout hfit
  exact ⟨st, hst, hc.trans hst, hpt,
    take_eq_of_getElem? _ _ _ hin (by rw [hlen]; exact hout) hpt⟩

theorem permute_identity_order_copies_witness :
    ∃ st, caffe_cpu_permute [10, 11, 12, 13, 14, 15] [0, 0, 0, 0, 0, 0, 7]
        ([3, 2].map Int.ofNat) ((List.range ([3, 2] : List Nat).length).map Int.ofNat)
        (([3, 2] : List Nat).length : Int) (-1) = some st ∧
      caffe_cpu_permute_checked [10, 11, 12, 13, 14, 15] [0, 0, 0, 0, 0, 0, 7]
        ([3, 2].map Int.ofNat) ((List.range ([3, 2] : List Nat).length).map Int.ofNat)
        (([3, 2] : List Nat).length : Int) (-1) = some st ∧
      (∀ p, p < ([3, 2] : List Nat).prod →
        st.dataout[p]? = ([10, 11, 12, 13, 14, 15] : List Nat)[p]?) ∧
      st.dataout.take ([3, 2] : List Nat).prod = [10, 11, 12, 13, 14, 15] :=
  permute_identity_order_copies [10, 11, 12, 13, 14, 15] [0, 0, 0, 0, 0, 0, 7] [3, 2] (-1)
    (by decide) (by decide) (by decide) (by decide) (by decide) (by decide)

/-! ## Flip -/

theorem flipAt_natCast (dst : List Nat) (f : Nat) (d : List Nat) :
    flipAt dst (f : Int) d = d.set f (dst.getD f 0 - 1 - d.getD f 0) := by
  simp [flipAt]

theorem srcIndex_row_flip (m i : Nat) (hi : i < m) : srcIndex [1, m] [0, 1] 1 i = m - 1 - i := by
  have hD : InShape (dstShape [1, m] [0, 1]) [0, i] := by
    refine ⟨rfl, fun j hj => ?_⟩
    have hj2 : j < 2 := hj
    interval_cases j
    · simp [dstShape]
    · simpa [dstShape] using hi
  have h := srcIndex_linearIndex [1, m] [0, 1] [0, i] 1 hD
  have e1 : linearIndex (dstShape [1, m] [0, 1]) [0, i] = i := by
    simp [dstShape, linearIndex]
  have e2 : flipAt (dstShape [1, m] [0, 1]) 1 [0, i] = [0, m - 1 - i] := by
    have := flipAt_natCast (dstShape [1, m] [0, 1]) 1 [0, i]
    simpa [dstShape] using this
  have e3 : scatter [0, 1] [0, m - 1 - i] = [0, m - 1 - i] := by
    simp [scatter, List.range_succ, List.indexOf_cons]
  rw [e1, e2, e3] at h
  rw [h]
  simp [linearIndex]

/-- C5: flip is a reversal along one destination axis. With a shape of positive extents whose
element count fits in `int`, `order` a permutation of the axes and `f` an axis, the output of
the call with `flipdim = f` at the destination multi-index `d` is the output of the call with no
flip at the multi-index that agrees with `d` except for the coordinate `destShape[f] - 1 - d[f]`
at axis `f`. In particular shape `[1, m]`, order `[0, 1]`, `flipdim = 1` gives
`dataout[i] = datain[m-1-i]`. The calls complete, also when every `int` operation is checked for
overflow. -/
theorem permute_flip_reverses_destination_axis {α : Type} (datain out1 out2 : List α)
    (shape ord d : List Nat) (f : Nat) (g : Int)
    (hn : 1 ≤ shape.length) (hpos : ∀ e ∈ shape, 0 < e)
    (hperm : ord.Perm (List.range shape.length)) (hf : f < shape.length) (hg : g < 0)
    (hin : datain.length = shape.prod) (hout1 : shape.prod ≤ out1.length)
    (hout2 : shape.prod ≤ out2.length) (hd : d.length = shape.length)
    (hdlt : ∀ j, j < shape.length → d.getD j 0 < shape.getD (ord.getD j 0) 0)
    (hfit : shape.prod ≤ INT_MAX) :
    (∃ stF stN x,
      caffe_cpu_permute datain out1 (shape.map Int.ofNat) (ord.map Int.ofNat)
        (shape.length : Int) (f : Int) = some stF ∧
      caffe_cpu_permute datain out2 (shape.map Int.ofNat) (ord.map Int.ofNat)
        (shape.length : Int) g = some stN ∧
      caffe_cpu_permute_checked datain out1 (shape.map Int.ofNat) (ord.map Int.ofNat)
        (shape.length : Int) (f : Int) = some stF ∧
      caffe_cpu_permute_checked datain out2 (shape.map Int.ofNat) (ord.map Int.ofNat)
        (shape.length : Int) g = some stN ∧
      stF.dataout[linearIndex (dstShape shape ord) d]? = some x ∧
      stN.dataout[linearIndex (dstShape shape ord)
        (d.set f ((dstShape shape ord).getD f 0 - 1 - d.getD f 0))]? = some x) ∧
    (∀ (m : Nat) (din dout : List α), 1 ≤ m → m ≤ INT_MAX → din.length = m →
      m ≤ dout.length →
      ∃ st, caffe_cpu_permute din dout (([1, m] : List Nat).map Int.ofNat)
          (([0, 1] : List Nat).map Int.ofNat) 2 1 = some st ∧
        caffe_cpu_permute_checked din dout (([1, m] : List Nat).map Int.ofNat)
          (([0, 1] : List Nat).map Int.ofNat) 2 1 = some st ∧
        ∀ i, i < m → st.dataout[i]? = din[m - 1 - i]?) := by
  constructor
  · have hlen : ord.length = shape.length := by simpa using hperm.length_eq
    have hperm' : ord.Perm (List.range ord.length) := by rw [hlen]; exact hperm
    have hprod := dstShape_prod shape ord hperm' hlen
    obtain ⟨stF, hstF, -, hvalF, -, -, -⟩ := permute_run datain out1 shape ord (f : Int) hn
      hperm' hlen hpos (by exact_mod_cast hf) (le_of_eq hin.symm) hout1
    obtain ⟨stN, hstN, -, hvalN, -, -, -⟩ := permute_run datain out2 shape ord g hn
      hperm' hlen hpos (by omega) (le_of_eq hin.symm) hout2
    have hD : InShape (dstShape shape ord) d :=
      (inShape_dstShape_iff shape ord d).mpr ⟨by rw [hd, hlen], fun j hj => hdlt j (by omega)⟩
    have hD' := flipAt_inShape (dstShape shape ord) (f : Int) d hD
    have hp : linearIndex (dstShape shape ord) d < shape.prod := by
      rw [← hprod]; exact linearIndex_lt _ _ hD
    have hp' : linearIndex (dstShape shape ord) (flipAt (dstShape shape ord) (f : Int) d)
        < shape.prod := by
      rw [← hprod]; exact linearIndex_lt _ _ hD'
    have hsrc : srcIndex shape ord (f : Int) (linearIndex (dstShape shape ord) d)
        < datain.length := by
      rw [hin]; exact srcIndex_lt shape ord _ hperm' hlen hpos _
    have hcF := permute_checked_of_perm datain out1 shape ord (f : Int) hn hperm' hlen hpos
      (by exact_mod_cast hf) (le_of_eq hin.symm) hout1 hfit
    have hcN := permute_checked_of_perm datain out2 shape ord g hn hperm' hlen hpos (by omega)
      (le_of_eq hin.symm) hout2 hfit
    refine ⟨stF, stN, datain[srcIndex shape ord (f : Int) (linearIndex (dstShape shape ord) d)],
      hstF, hstN, hcF.trans hstF, hcN.trans hstN, ?_, ?_⟩
    · rw [hvalF _ hp, List.getElem?_eq_getElem hsrc]
    · rw [← flipAt_natCast, hvalN _ hp', srcIndex_linearIndex _ _ _ _ hD',
        flipAt_neg _ g _ hg, ← srcIndex_linearIndex _ _ _ _ hD, List.getElem?_eq_getElem hsrc]
  · intro m din dout hm hmfit hdin hdout
    have hpos' : ∀ e ∈ ([1, m] : List Nat), 0 < e := by
      intro e he
      simp only [List.mem_cons, List.mem_singleton, List.not_mem_nil, or_false] at he
      rcases he with rfl | rfl
      · exact Nat.one_pos
      · exact hm
    obtain ⟨st, hst, -, hval, -, -, -⟩ := permute_run din dout [1, m] [0, 1] 1 (by simp)
      (by decide) rfl hpos' (by simp) (by simp [hdin]) (by simpa using hdout)
    have hc := permute_checked_of_perm din dout [1, m] [0, 1] 1 (by simp) (by decide) rfl hpos'
      (by simp) (by simp [hdin]) (by simpa using hdout) (by simpa using hmfit)
    refine ⟨st, hst, hc.trans hst, fun i hi => ?_⟩
    rw [hval i (by simpa using hi), srcIndex_row_flip m i hi]

theorem permute_flip_reverses_destination_axis_witness :
    ((∃ stF stN x,
      caffe_cpu_permute [1, 2, 3, 4] [0, 0, 0, 0] (([1, 4] : List Nat).map Int.ofNat)
        (([0, 1] : List Nat).map Int.ofNat) (([1, 4] : List Nat).length : Int) ((1 : Nat) : Int)
        = some stF ∧
      caffe_cpu_permute [1, 2, 3, 4] [0, 0, 0, 0] (([1, 4] : List Nat).map Int.ofNat)
        (([0, 1] : List Nat).map Int.ofNat) (([1, 4] : List Nat).length : Int) (-1)
        = some stN ∧
      caffe_cpu_permute_checked [1, 2, 3, 4] [0, 0, 0, 0] (([1, 4] : List Nat).map Int.ofNat)
        (([0, 1] : List Nat).map Int.ofNat) (([1, 4] : List Nat).length : Int) ((1 : Nat) : Int)
        = some stF ∧
      caffe_cpu_permute_checked [1, 2, 3, 4] [0, 0, 0, 0] (([1, 4] : List Nat).map Int.ofNat)
        (([0, 1] : List Nat).map Int.ofNat) (([1, 4] : List Nat).length : Int) (-1)
        = some stN ∧
      stF.dataout[linearIndex (dstShape [1, 4] [0, 1]) [0, 1]]? = some x ∧
      stN.dataout[linearIndex (dstShape [1, 4] [0, 1])
        (([0, 1] : List Nat).set 1
          ((dstShape [1, 4] [0, 1]).getD 1 0 - 1 - ([0, 1] : List Nat).getD 1 0))]? = some x) ∧
    (∀ (m : Nat) (din dout : List Nat), 1 ≤ m → m ≤ INT_MAX → din.length = m →
      m ≤ dout.length →
      ∃ st, caffe_cpu_permute din dout (([1, m] : List Nat).map Int.ofNat)
          (([0, 1] : List Nat).map Int.ofNat) 2 1 = some st ∧
        caffe_cpu_permute_checked din dout (([1, m] : List Nat).map Int.ofNat)
          (([0, 1] : List Nat).map Int.ofNat) 2 1 = some st ∧
        ∀ i, i < m → st.dataout[i]? = din[m - 1 - i]?)) ∧
    (caffe_cpu_permute [1, 2, 3, 4] [0, 0, 0, 0] [1, 4] [0, 1] 2 1).map (fun st => st.dataout)
      = some [4, 3, 2, 1] :=
  ⟨permute_flip_reverses_destination_axis [1, 2, 3, 4] [0, 0, 0, 0] [0, 0, 0, 0] [1, 4] [0, 1]
    [0, 1] 1 (-1) (by decide) (by decide) (by decide) (by decide) (by decide) (by decide)
    (by decide) (by decide) (by decide) (by decide) (by decide), by decide⟩

theorem flipAt_getD_self (dst d : List Nat) (f : Nat) (hf : f < d.length) :
    (flipAt dst (f : Int) d).getD f 0 = dst.getD f 0 - 1 - d.getD f 0 := by
  rw [flipAt_natCast, List.getD_eq_getElem _ _ (by simpa using hf), List.getElem_set_self]

theorem flipAt_getD_ne (dst d : List Nat) (f j : Nat) (hj : j ≠ f) :
    (flipAt dst (f : Int) d).getD j 0 = d.getD j 0 := by
  rw [flipAt_natCast]
  simp only [List.getD_eq_getElem?_getD]
  rw [List.getElem?_set_ne (Ne.symm hj)]

/-- For an order that is its own inverse and fixes the flip axis, the index map with a flip
is an involution. -/
theorem srcIndex_flip_involution (shape ord : List Nat) (f : Nat)
    (hperm : ord.Perm (List.range ord.length)) (hlen : ord.length = shape.length)
    (hpos : ∀ e ∈ shape, 0 < e) (hf : f < shape.length)
    (hinv : ∀ i, i < ord.length → ord.getD (ord.getD i 0) 0 = i) (hfix : ord.getD f 0 = f)
    (p : Nat) (hp : p < shape.prod) :
    srcIndex shape ord (f : Int) (srcIndex (dstShape shape ord) ord (f : Int) p) = p := by
  have hsh := dstShape_inverse shape ord ord hperm hlen rfl hinv
  have hm := digits_inShape shape hpos p
  have hF := flipAt_inShape shape (f : Int) _ hm
  have hF' : InShape (dstShape (dstShape shape ord) ord)
      (flipAt shape (f : Int) (digits shape p)) := by rw [hsh]; exact hF
  have hG : InShape (dstShape shape ord) (scatter ord (flipAt shape (f : Int) (digits shape p))) :=
    scatter_inShape (dstShape shape ord) ord _ hperm (by rw [length_dstShape]) hF'
  have hfo : f < ord.length := by omega
  have e2 : srcIndex (dstShape shape ord) ord (f : Int) p
      = linearIndex (dstShape shape ord) (scatter ord (flipAt shape (f : Int) (digits shape p))) := by
    unfold srcIndex
    rw [hsh]
  rw [e2, srcIndex_linearIndex _ _ _ _ hG]
  have hsc : scatter ord (flipAt (dstShape shape ord) (f : Int)
      (scatter ord (flipAt shape (f : Int) (digits shape p)))) = digits shape p := by
    refine scatter_eq_of ord _ _ hperm (by rw [length_digits, hlen]) (fun j hj => ?_)
    have hoj : ord.getD j 0 < ord.length := by
      rw [List.getD_eq_getElem _ _ hj]
      exact perm_range_mem_lt ord hperm _ (List.getElem_mem _)
    by_cases hjf : j = f
    · subst hjf
      have hmf := hm.2 j hf
      have h1 := scatter_getD_ord ord (flipAt shape (j : Int) (digits shape p)) hperm j hj
      rw [hfix] at h1
      rw [flipAt_getD_self _ _ _ (by rw [length_scatter]; exact hj), h1,
        flipAt_getD_self _ _ _ (by rw [length_digits]; exact hf), dstShape_getD _ _ _ hj, hfix]
      omega
    · have hne : ord.getD j 0 ≠ f := by
        intro he
        have := hinv j hj
        rw [he, hfix] at this
        exact hjf this.symm
      have h1 := scatter_getD_ord ord (flipAt shape (f : Int) (digits shape p)) hperm
        (ord.getD j 0) hoj
      rw [hinv j hj] at h1
      rw [flipAt_getD_ne _ _ _ _ hjf, h1, flipAt_getD_ne _ _ _ _ hne]
  rw [hsc, linearIndex_digits _ _ hp]

/-- C6 as stated fails: with shape `[2, 3]`, order `[1, 0]` and flip axis `0` the first call
maps `[1, 2, 3, 4, 5, 6]` to `[3, 6, 2, 5, 1, 4]` (shape `[3, 2]`), and the second call with the
same order and flip axis maps that to `[6, 5, 4, 3, 2, 1]`, not to the original buffer. -/
theorem permute_double_flip_transpose_counterexample :
    (caffe_cpu_permute [1, 2, 3, 4, 5, 6] [0, 0, 0, 0, 0, 0] [2, 3] [1, 0] 2 0).map
        (fun st => st.dataout) = some [3, 6, 2, 5, 1, 4] ∧
    dstShape [2, 3] [1, 0] = [3, 2] ∧
    (caffe_cpu_permute [3, 6, 2, 5, 1, 4] [0, 0, 0, 0, 0, 0] [3, 2] [1, 0] 2 0).map
        (fun st => st.dataout) = some [6, 5, 4, 3, 2, 1] ∧
    ([6, 5, 4, 3, 2, 1] : List Nat) ≠ [1, 2, 3, 4, 5, 6] := by
  decide

/-- C6, amended: flipping twice restores the buffer when `order` is its own inverse
(`order[order[j]] = j`) and fixes the flip axis (`order[f] = f`), as the identity order does.
With a shape of positive extents whose element count fits in `int`, applying the call with
`(order, flipdim = f)` to `A` and again with the same order and flip axis to the result, read
with the shape the first call produced, completes, also when every `int` operation of the two
calls is checked for overflow, and reproduces `A` exactly. -/
theorem permute_double_flip_restores {α : Type} (A out1 out2 : List α)
    (shape ord : List Nat) (f : Nat)
    (hn : 1 ≤ shape.length) (hpos : ∀ e ∈ shape, 0 < e)
    (hperm : ord.Perm (List.range shape.length)) (hf : f < shape.length)
    (hinv : ∀ i, i < shape.length → ord.getD (ord.getD i 0) 0 = i) (hfix : ord.getD f 0 = f)
    (hA : A.length = shape.prod) (h1 : shape.prod ≤ out1.length)
    (h2 : shape.prod ≤ out2.length) (hfit : shape.prod ≤ INT_MAX) :
    ∃ st1 st2,
      caffe_cpu_permute A out1 (shape.map Int.ofNat) (ord.map Int.ofNat)
        (shape.length : Int) (f : Int) = some st1 ∧
      caffe_cpu_permute st1.dataout out2 ((dstShape shape ord).map Int.ofNat)
        (ord.map Int.ofNat) (shape.length : Int) (f : Int) = some st2 ∧
      caffe_cpu_permute_checked A out1 (shape.map Int.ofNat) (ord.map Int.ofNat)
        (shape.length : Int) (f : Int) = some st1 ∧
      caffe_cpu_permute_checked st1.dataout out2 ((dstShape shape ord).map Int.ofNat)
        (ord.map Int.ofNat) (shape.length : Int) (f : Int) = some st2 ∧
      (∀ p, p < shape.prod → st2.dataout[p]? = A[p]?) ∧
      st2.dataout.take shape.prod = A := by
  have hlen : ord.length = shape.length := by simpa using hperm.length_eq
  have hperm' : ord.Perm (List.range ord.length) := by rw [hlen]; exact hperm
  have hinv' : ∀ i, i < ord.length → ord.getD (ord.getD i 0) 0 = i :=
    fun i hi => hinv i (by omega)
  have hdl : (dstShape shape ord).length = shape.length := by rw [length_dstShape, hlen]
  have hprod := dstShape_prod shape ord hperm' hlen
  have hdpos := dstShape_pos shape ord hperm' hlen hpos
  have hfi : (f : Int) < (shape.length : Int) := by exact_mod_cast hf
  obtain ⟨st1, hst1, hlen1, hval1, -, -, -⟩ := permute_run A out1 shape ord (f : Int) hn hperm'
    hlen hpos hfi (le_of_eq hA.symm) h1
  obtain ⟨st2, hst2, hlen2, hval2, -, -, -⟩ := permute_run st1.dataout out2 (dstShape shape ord)
    ord (f : Int) (by rw [hdl]; exact hn) hperm' (by rw [hdl, hlen]) hdpos
    (by rw [hdl]; exact hfi) (by rw [hprod, hlen1]; exact h1) (by rw [hprod]; exact h2)
  have hc1 := permute_checked_of_perm A out1 shape ord (f : Int) hn hperm' hlen hpos hfi
    (le_of_eq hA.symm) h1 hfit
  have hc2 := permute_checked_of_perm st1.dataout out2 (dstShape shape ord) ord (f : Int)
    (by rw [hdl]; exact hn) hperm' (by rw [hdl, hlen]) hdpos (by rw [hdl]; exact hfi)
    (by rw [hprod, hlen1]; exact h1) (by rw [hprod]; exact h2) (by rw [hprod]; exact hfit)
  rw [hdl] at hst2 hc2
  rw [hprod] at hval2
  have hpt : ∀ p, p < shape.prod → st2.dataout[p]? = A[p]? := by
    intro p hp
    have hq : srcIndex (dstShape shape ord) ord (f : Int) p < shape.prod := by
      rw [← hprod]
      exact srcIndex_lt (dstShape shape ord) ord _ hperm' (by rw [hdl, hlen]) hdpos p
    rw [hval2 p hp, hval1 _ hq,
      srcIndex_flip_involution shape ord f hperm' hlen hpos hf hinv' hfix p hp]
  exact ⟨st1, st2, hst1, hst2, hc1.trans hst1, hc2.trans hst2, hpt,
    take_eq_of_getElem? _ _ _ hA (by rw [hlen2]; exact h2) hpt⟩

theorem permute_double_flip_restores_witness :
    ∃ st1 st2,
      caffe_cpu_permute [10, 11, 12, 13, 14, 15, 16, 17] [0, 0, 0, 0, 0, 0, 0, 0]
        (([2, 2, 2] : List Nat).map Int.ofNat) (([1, 0, 2] : List Nat).map Int.ofNat)
        (([2, 2, 2] : List Nat).length : Int) ((2 : Nat) : Int) = some st1 ∧
      caffe_cpu_permute st1.dataout [0, 0, 0, 0, 0, 0, 0, 0]
        ((dstShape [2, 2, 2] [1, 0, 2]).map Int.ofNat)
        (([1, 0, 2] : List Nat).map Int.ofNat) (([2, 2, 2] : List Nat).length : Int)
        ((2 : Nat) : Int) = some st2 ∧
      caffe_cpu_permute_checked [10, 11, 12, 13, 14, 15, 16, 17] [0, 0, 0, 0, 0, 0, 0, 0]
        (([2, 2, 2] : List Nat).map Int.ofNat) (([1, 0, 2] : List Nat).map Int.ofNat)
        (([2, 2, 2] : List Nat).length : Int) ((2 : Nat) : Int) = some st1 ∧
      caffe_cpu_permute_checked st1.dataout [0, 0, 0, 0, 0, 0, 0, 0]
        ((dstShape [2, 2, 2] [1, 0, 2]).map Int.ofNat)
        (([1, 0, 2] : List Nat).map Int.ofNat) (([2, 2, 2] : List Nat).length : Int)
        ((2 : Nat) : Int) = some st2 ∧
      (∀ p, p < ([2, 2, 2] : List Nat).prod →
        st2.dataout[p]? = ([10, 11, 12, 13, 14, 15, 16, 17] : List Nat)[p]?) ∧
      st2.dataout.take ([2, 2, 2] : List Nat).prod = [10, 11, 12, 13, 14, 15, 16, 17] :=
  permute_double_flip_restores [10, 11, 12, 13, 14, 15, 16, 17] [0, 0, 0, 0, 0, 0, 0, 0]
    [0, 0, 0, 0, 0, 0, 0, 0] [2, 2, 2] [1, 0, 2] 2 (by decide) (by decide) (by decide)
    (by decide) (by decide) (by decide) (by decide) (by decide) (by decide) (by decide)
/-! ## Frame -/

theorem permute_mem_setup {α : Type} (mem : List α) (datain dataout : Nat) (shape ord : List Nat)
    (flipdim : Int) (hn : 1 ≤ shape.length) (hlen : ord.length = shape.length)
    (hrange : ∀ o ∈ ord, o < shape.length) :
    caffe_cpu_permute_mem mem datain dataout (shape.map Int.ofNat) (ord.map Int.ofNat)
        (shape.length : Int) flipdim
      = forUp (permuteBodyMem datain dataout ((dstShape shape ord).map Int.ofNat)
          ((strides shape).map Int.ofNat) ((strides (dstShape shape ord)).map Int.ofNat)
          (ord.map Int.ofNat) shape.length flipdim) shape.prod 0
          { idx := List.replicate shape.length 0, dstidx := List.replicate shape.length 0,
            mem := mem, loads := [], stores := [] } := by
  have hcount : ((((shape.drop 1).prod : Nat) : Int) * ((shape[0] : Nat) : Int)).toNat
      = shape.prod := by
    have h := prod_drop_eq shape 0 (by omega)
    simp only [List.drop_zero, Nat.zero_add] at h
    rw [h, ← Int.natCast_mul, Int.toNat_ofNat, Nat.mul_comm]
  have hdl : (dstShape shape ord).length = shape.length := by rw [length_dstShape, hlen]
  have hdd : forUp (dstdimBody (shape.map Int.ofNat) (ord.map Int.ofNat)) shape.length 0
      (List.replicate shape.length 0) = some ((dstShape shape ord).map Int.ofNat) := by
    rw [← hlen]
    exact dstdim_loop shape ord hrange
  have hcap2 : capacityTable ((dstShape shape ord).map Int.ofNat) shape.length
      (List.replicate shape.length 1) = some ((strides (dstShape shape ord)).map Int.ofNat) := by
    rw [← hdl]
    exact capacityTable_eq _
  unfold caffe_cpu_permute_mem
  rw [if_neg (by omega)]
  simp only [Int.toNat_ofNat]
  rw [capacityTable_eq shape, Option.some_bind, hdd, Option.some_bind, hcap2, Option.some_bind]
  simp only [List.getElem?_map, strides_getElem shape 0 (by omega),
    List.getElem?_eq_getElem (by omega : 0 < shape.length), Option.map_some', Option.some_bind,
    Int.ofNat_eq_coe, Nat.zero_add]
  rw [hcount]

theorem permuteBodyMem_eq {α : Type} (datain dataout : Nat) (shape ord : List Nat)
    (flipdim : Int)
    (hperm : ord.Perm (List.range ord.length)) (hlen : ord.length = shape.length)
    (hpos : ∀ e ∈ shape, 0 < e) (hflip : flipdim < (shape.length : Int))
    (p : Nat) (hp : p < shape.prod) (s : PermuteMemState α)
    (hin : datain + shape.prod ≤ s.mem.length)
    (hidx : s.idx.length = shape.length) (hdst : s.dstidx.length = shape.length)
    (hout : dataout + p < s.mem.length) :
    ∃ x, s.mem[datain + srcIndex shape ord flipdim p]? = some x ∧
      permuteBodyMem datain dataout ((dstShape shape ord).map Int.ofNat)
        ((strides shape).map Int.ofNat) ((strides (dstShape shape ord)).map Int.ofNat)
        (ord.map Int.ofNat) shape.length flipdim p s
      = some { idx := (scatter ord (flipAt (dstShape shape ord) flipdim
                        (digits (dstShape shape ord) p))).map Int.ofNat,
               dstidx := (flipAt (dstShape shape ord) flipdim
                        (digits (dstShape shape ord) p)).map Int.ofNat,
               mem := s.mem.set (dataout + p) x,
               loads := s.loads ++ [((datain + srcIndex shape ord flipdim p : Nat) : Int)],
               stores := s.stores ++ [dataout + p] } := by
  have hdl : (dstShape shape ord).length = shape.length := by rw [length_dstShape, hlen]
  have hdpos := dstShape_pos shape ord hperm hlen hpos
  have hdig := digits_inShape _ hdpos p
  have hfl := flipAt_inShape _ flipdim _ hdig
  have hsc := scatter_inShape shape ord _ hperm hlen hfl
  have hlt := srcIndex_lt shape ord flipdim hperm hlen hpos p
  have hx : datain + srcIndex shape ord flipdim p < s.mem.length := by omega
  refine ⟨s.mem[datain + srcIndex shape ord flipdim p], List.getElem?_eq_getElem hx, ?_⟩
  obtain ⟨t, ht⟩ := decompose_loop (dstShape shape ord) hdpos p
    (by rw [dstShape_prod shape ord hperm hlen]; exact hp) s.dstidx (by rw [hdst, hdl])
  unfold permuteBodyMem
  rw [← hdl, ht, Option.some_bind]
  rw [flipStep_eq _ _ _ hdig.1 (by rw [hdl]; exact hflip) (fun _ => hdig.2 _ (by
    rw [hdl]; omega)), Option.some_bind]
  rw [hdl, ← hlen, scatter_loop ord _ s.idx hperm (by rw [hfl.1, length_dstShape])
    (by rw [hidx, hlen]), Option.some_bind]
  rw [hlen, accum_loop _ _ _ (by rw [hsc.1]) (by rw [length_strides]), Option.some_bind]
  rw [sum_strides_eq_linearIndex _ _ hsc.1]
  have hcast : (datain : Int) + ((linearIndex shape (scatter ord (flipAt (dstShape shape ord)
      flipdim (digits (dstShape shape ord) p))) : Nat) : Int)
      = ((datain + srcIndex shape ord flipdim p : Nat) : Int) := by
    push_cast
    rfl
  rw [hcast, readAt_natCast, List.getElem?_eq_getElem hx, Option.some_bind,
    setAt_eq_some _ _ _ hout, Option.some_bind]

/-- What a run of `caffe_cpu_permute_mem` leaves behind when the region read through `datain`
and the region stored to through `dataout` lie in the memory and do not overlap. -/
theorem permute_mem_run {α : Type} (mem : List α) (datain dataout : Nat) (shape ord : List Nat)
    (flipdim : Int) (hn : 1 ≤ shape.length)
    (hperm : ord.Perm (List.range ord.length)) (hlen : ord.length = shape.length)
    (hpos : ∀ e ∈ shape, 0 < e) (hflip : flipdim < (shape.length : Int))
    (hin : datain + shape.prod ≤ mem.length) (hout : dataout + shape.prod ≤ mem.length)
    (hdisj : datain + shape.prod ≤ dataout ∨ dataout + shape.prod ≤ datain) :
    ∃ st, caffe_cpu_permute_mem mem datain dataout (shape.map Int.ofNat) (ord.map Int.ofNat)
        (shape.length : Int) flipdim = some st ∧
      st.mem.length = mem.length ∧
      (∀ p, p < shape.prod →
        st.mem[dataout + p]? = mem[datain + srcIndex shape ord flipdim p]?) ∧
      (∀ a, a < dataout ∨ dataout + shape.prod ≤ a → st.mem[a]? = mem[a]?) ∧
      st.loads = (List.range shape.prod).map
        (fun p => ((datain + srcIndex shape ord flipdim p : Nat) : Int)) ∧
      st.stores = (List.range shape.prod).map (fun p => dataout + p) := by
  rw [permute_mem_setup mem datain dataout shape ord flipdim hn hlen (fun o ho => by
    rw [← hlen]; exact perm_range_mem_lt ord hperm o ho)]
  obtain ⟨st, hst, -, -, h1, h2, h3, h4, h5⟩ := forUp_invariant
    (permuteBodyMem datain dataout ((dstShape shape ord).map Int.ofNat)
        ((strides shape).map Int.ofNat) ((strides (dstShape shape ord)).map Int.ofNat)
        (ord.map Int.ofNat) shape.length flipdim)
    (fun k st => st.idx.length = shape.length ∧ st.dstidx.length = shape.length ∧
      st.mem.length = mem.length ∧
      (∀ p, p < k → st.mem[dataout + p]? = mem[datain + srcIndex shape ord flipdim p]?) ∧
      (∀ a, a < dataout ∨ dataout + k ≤ a → st.mem[a]? = mem[a]?) ∧
      st.loads = (List.range k).map
        (fun p => ((datain + srcIndex shape ord flipdim p : Nat) : Int)) ∧
      st.stores = (List.range k).map (fun p => dataout + p))
    shape.prod
    { idx := List.replicate shape.length 0, dstidx := List.replicate shape.length 0,
      mem := mem, loads := [], stores := [] }
    ⟨by simp, by simp, rfl, fun p hp => absurd hp (Nat.not_lt_zero _), fun a _ => rfl,
      by simp, by simp⟩
    (by
      intro k st hk ⟨i1, i2, i3, i4, i5, i6, i7⟩
      have hlt := srcIndex_lt shape ord flipdim hperm hlen hpos k
      obtain ⟨x, hx, hbody⟩ := permuteBodyMem_eq datain dataout shape ord flipdim hperm hlen
        hpos hflip k hk st (by omega) i1 i2 (by omega)
      have hx0 : mem[datain + srcIndex shape ord flipdim k]? = some x := by
        rw [← i5 _ (by omega)]
        exact hx
      refine ⟨_, hbody, ?_, ?_, ?_, ?_, ?_, ?_, ?_⟩
      · simp [length_scatter, hlen]
      · simp only [List.length_map]
        rw [length_flipAt, length_digits, length_dstShape, hlen]
      · simpa using i3
      · intro p hp
        rcases Nat.lt_succ_iff_lt_or_eq.mp hp with hpk | rfl
        · simp only []
          rw [List.getElem?_set_ne (by omega)]
          exact i4 p hpk
        · simp only []
          rw [List.getElem?_set, if_pos rfl, if_pos (by omega), hx0]
      · intro a ha
        simp only []
        rw [List.getElem?_set_ne (by omega)]
        exact i5 a (by omega)
      · simp [i6, List.range_succ]
      · simp [i7, List.range_succ])
  exact ⟨st, hst, h1, h2, h3, h4, h5⟩

theorem getElem?_take_drop {β : Type} (l : List β) (a n p : Nat) :
    ((l.drop a).take n)[p]? = if p < n then l[a + p]? else none := by
  rw [List.getElem?_take]
  split_ifs
  · rw [List.getElem?_drop]
  · rfl

/-- The two regions must not overlap: run in place (`datain = dataout`) on `[1, 2, 3, 4, 5, 6]`
with shape `[2, 3]` and order `[1, 0]`, the call overwrites elements of `datain` before it loads
them and leaves `[1, 4, 4, 5, 4, 6]`, not the transpose `[1, 4, 2, 5, 3, 6]`. -/
theorem permute_mem_in_place_example :
    (caffe_cpu_permute_mem ([1, 2, 3, 4, 5, 6] : List Nat) 0 0 [2, 3] [1, 0] 2 (-1)).map
        (fun st => (st.mem, st.stores, st.loads))
      = some ([1, 4, 4, 5, 4, 6], [0, 1, 2, 3, 4, 5], [0, 3, 1, 4, 2, 5]) ∧
    (caffe_cpu_permute ([1, 2, 3, 4, 5, 6] : List Nat) [0, 0, 0, 0, 0, 0] [2, 3] [1, 0] 2
        (-1)).map (fun st => st.dataout) = some [1, 4, 2, 5, 3, 6] := by
  decide

/-- C10: frame of permute, on one memory `mem` holding both buffers. With a shape of positive
extents whose element count `total` (the code's `count`) fits in `int`, `order` a permutation of
the axes, `flipdim` negative or an axis, `datain` a region of `total` elements and `dataout` a
region of `cap >= total` elements of `mem` that do not overlap, the call completes; the sequence
of addresses it stores to is `dataout + 0, ..., dataout + (total-1)` (each position of `dataout`
below `total` once, ascending) and every load is from the region of `datain`; afterwards
`dataout[p]` for `p < total` holds the element that `datain` held at the source index of `p`,
the elements of `dataout` at positions `total` and beyond are unchanged, every element of
`datain` is unchanged, and so is every other cell of the memory. The run agrees with
`caffe_cpu_permute` on the two buffers taken as separate lists, whose store trace is
`0, ..., total-1`, also when every `int` operation is checked for overflow. -/
theorem permute_writes_exactly_prefix_ascending {α : Type} (mem : List α)
    (datain dataout cap : Nat) (shape ord : List Nat) (flipdim : Int)
    (hn : 1 ≤ shape.length) (hpos : ∀ e ∈ shape, 0 < e)
    (hperm : ord.Perm (List.range shape.length)) (hflip : flipdim < (shape.length : Int))
    (hin : datain + shape.prod ≤ mem.length) (hcap : shape.prod ≤ cap)
    (hout : dataout + cap ≤ mem.length)
    (hdisj : datain + shape.prod ≤ dataout ∨ dataout + cap ≤ datain)
    (hfit : shape.prod ≤ INT_MAX) :
    ∃ st, caffe_cpu_permute_mem mem datain dataout (shape.map Int.ofNat) (ord.map Int.ofNat)
        (shape.length : Int) flipdim = some st ∧
      st.stores = (List.range shape.prod).map (fun p => dataout + p) ∧
      st.loads.length = shape.prod ∧
      (∀ a ∈ st.loads, (datain : Int) ≤ a ∧ a < ((datain + shape.prod : Nat) : Int)) ∧
      st.mem.length = mem.length ∧
      (∀ p, p < shape.prod → ∃ x, st.mem[dataout + p]? = some x ∧
        mem[datain + srcIndex shape ord flipdim p]? = some x) ∧
      (∀ p, shape.prod ≤ p → p < cap → st.mem[dataout + p]? = mem[dataout + p]?) ∧
      (∀ q, q < shape.prod → st.mem[datain + q]? = mem[datain + q]?) ∧
      (∀ a, a < dataout ∨ dataout + shape.prod ≤ a → st.mem[a]? = mem[a]?) ∧
      ∃ st2, caffe_cpu_permute ((mem.drop datain).take shape.prod)
          ((mem.drop dataout).take cap) (shape.map Int.ofNat) (ord.map Int.ofNat)
          (shape.length : Int) flipdim = some st2 ∧
        caffe_cpu_permute_checked ((mem.drop datain).take shape.prod)
          ((mem.drop dataout).take cap) (shape.map Int.ofNat) (ord.map Int.ofNat)
          (shape.length : Int) flipdim = some st2 ∧
        st2.writes = List.range shape.prod ∧
        st2.dataout = (st.mem.drop dataout).take cap := by
  have hlen : ord.length = shape.length := by simpa using hperm.length_eq
  have hperm' : ord.Perm (List.range ord.length) := by rw [hlen]; exact hperm
  obtain ⟨st, hst, hl, hval, hrest, hloads, hstores⟩ := permute_mem_run mem datain dataout
    shape ord flipdim hn hperm' hlen hpos hflip hin (by omega) (by omega)
  have hlenin : ((mem.drop datain).take shape.prod).length = shape.prod := by
    rw [List.length_take, List.length_drop]
    omega
  have hlenout : ((mem.drop dataout).take cap).length = cap := by
    rw [List.length_take, List.length_drop]
    omega
  obtain ⟨st2, hst2, hl2, hval2, hrest2, -, hw2⟩ := permute_run
    ((mem.drop datain).take shape.prod) ((mem.drop dataout).take cap) shape ord flipdim hn
    hperm' hlen hpos hflip (le_of_eq hlenin.symm) (by rw [hlenout]; exact hcap)
  have hc := permute_checked_of_perm ((mem.drop datain).take shape.prod)
    ((mem.drop dataout).take cap) shape ord flipdim hn hperm' hlen hpos hflip
    (le_of_eq hlenin.symm) (by rw [hlenout]; exact hcap) hfit
  refine ⟨st, hst, hstores, by simp [hloads], ?_, hl, ?_, ?_, ?_, hrest, st2, hst2,
    hc.trans hst2, hw2, ?_⟩
  · intro a ha
    rw [hloads] at ha
    obtain ⟨p, -, rfl⟩ := List.mem_map.mp ha
    have hlt := srcIndex_lt shape ord flipdim hperm' hlen hpos p
    constructor
    · exact_mod_cast Nat.le_add_right _ _
    · exact_mod_cast Nat.add_lt_add_left hlt datain
  · intro p hp
    have hlt := srcIndex_lt shape ord flipdim hperm' hlen hpos p
    have hx : datain + srcIndex shape ord flipdim p < mem.length := by omega
    exact ⟨mem[datain + srcIndex shape ord flipdim p],
      by rw [hval p hp, List.getElem?_eq_getElem hx], List.getElem?_eq_getElem hx⟩
  · intro p hp _
    exact hrest _ (Or.inr (by omega))
  · intro q hq
    exact hrest _ (by omega)
  · refine List.ext_getElem? (fun p => ?_)
    rw [getElem?_take_drop]
    by_cases hpc : p < cap
    · rw [if_pos hpc]
      by_cases hpt : p < shape.prod
      · have hlt := srcIndex_lt shape ord flipdim hperm' hlen hpos p
        rw [hval2 p hpt, getElem?_take_drop, if_pos hlt, hval p hpt]
      · rw [hrest2 p (by omega), getElem?_take_drop, if_pos hpc, hrest _ (Or.inr (by omega))]
    · rw [if_neg hpc]
      exact List.getElem?_eq_none (by rw [hl2, hlenout]; omega)

theorem permute_writes_exactly_prefix_ascending_witness :
    (∃ st, caffe_cpu_permute_mem
        ([5, 0, 0, 0, 0, 0, 0, 7, 8, 10, 11, 12, 13, 14, 15, 6] : List Nat) 9 1
        (([2, 3] : List Nat).map Int.ofNat) (([1, 0] : List Nat).map Int.ofNat)
        (([2, 3] : List Nat).length : Int) 0 = some st ∧
      st.stores = (List.range ([2, 3] : List Nat).prod).map (fun p => 1 + p) ∧
      st.loads.length = ([2, 3] : List Nat).prod ∧
      (∀ a ∈ st.loads, ((9 : Nat) : Int) ≤ a ∧ a < ((9 + ([2, 3] : List Nat).prod : Nat) : Int)) ∧
      st.mem.length
        = ([5, 0, 0, 0, 0, 0, 0, 7, 8, 10, 11, 12, 13, 14, 15, 6] : List Nat).length ∧
      (∀ p, p < ([2, 3] : List Nat).prod → ∃ x, st.mem[1 + p]? = some x ∧
        ([5, 0, 0, 0, 0, 0, 0, 7, 8, 10, 11, 12, 13, 14, 15, 6] : List Nat)[
          9 + srcIndex [2, 3] [1, 0] 0 p]? = some x) ∧
      (∀ p, ([2, 3] : List Nat).prod ≤ p → p < 8 → st.mem[1 + p]?
        = ([5, 0, 0, 0, 0, 0, 0, 7, 8, 10, 11, 12, 13, 14, 15, 6] : List Nat)[1 + p]?) ∧
      (∀ q, q < ([2, 3] : List Nat).prod → st.mem[9 + q]?
        = ([5, 0, 0, 0, 0, 0, 0, 7, 8, 10, 11, 12, 13, 14, 15, 6] : List Nat)[9 + q]?) ∧
      (∀ a, a < 1 ∨ 1 + ([2, 3] : List Nat).prod ≤ a → st.mem[a]?
        = ([5, 0, 0, 0, 0, 0, 0, 7, 8, 10, 11, 12, 13, 14, 15, 6] : List Nat)[a]?) ∧
      ∃ st2, caffe_cpu_permute
          ((([5, 0, 0, 0, 0, 0, 0, 7, 8, 10, 11, 12, 13, 14, 15, 6] : List Nat).drop 9).take
            ([2, 3] : List Nat).prod)
          ((([5, 0, 0, 0, 0, 0, 0, 7, 8, 10, 11, 12, 13, 14, 15, 6] : List Nat).drop 1).take 8)
          (([2, 3] : List Nat).map Int.ofNat) (([1, 0] : List Nat).map Int.ofNat)
          (([2, 3] : List Nat).length : Int) 0 = some st2 ∧
        caffe_cpu_permute_checked
          ((([5, 0, 0, 0, 0, 0, 0, 7, 8, 10, 11, 12, 13, 14, 15, 6] : List Nat).drop 9).take
            ([2, 3] : List Nat).prod)
          ((([5, 0, 0, 0, 0, 0, 0, 7, 8, 10, 11, 12, 13, 14, 15, 6] : List Nat).drop 1).take 8)
          (([2, 3] : List Nat).map Int.ofNat) (([1, 0] : List Nat).map Int.ofNat)
          (([2, 3] : List Nat).length : Int) 0 = some st2 ∧
        st2.writes = List.range ([2, 3] : List Nat).prod ∧
        st2.dataout = (st.mem.drop 1).take 8) ∧
    (caffe_cpu_permute_mem ([5, 0, 0, 0, 0, 0, 0, 7, 8, 10, 11, 12, 13, 14, 15, 6] : List Nat)
        9 1 [2, 3] [1, 0] 2 0).map (fun st => (st.mem, st.stores, st.loads))
      = some ([5, 12, 15, 11, 14, 10, 13, 7, 8, 10, 11, 12, 13, 14, 15, 6],
          [1, 2, 3, 4, 5, 6], [11, 14, 10, 13, 9, 12]) :=
  ⟨permute_writes_exactly_prefix_ascending
    [5, 0, 0, 0, 0, 0, 0, 7, 8, 10, 11, 12, 13, 14, 15, 6] 9 1 8 [2, 3] [1, 0] 0 (by decide)
    (by decide) (by decide) (by decide) (by decide) (by decide) (by decide) (by decide)
    (by decide), by decide⟩

/-! ## Symbolic execution of `Get_dist_matrix_cpu` -/

theorem pair_index_lt (N i j : Nat) (hi : i < N) (hj : j < N) : i * N + j < N * N := by
  calc i * N + j < i * N + N := by omega
    _ = (i + 1) * N := by ring
    _ ≤ N * N := Nat.mul_le_mul_right _ hi

theorem pair_index_inj (N i j r c : Nat) (hj : j < N) (hc : c < N)
    (h : i * N + j = r * N + c) : i = r ∧ j = c := by
  have hN : 0 < N := by omega
  have h1 : (i * N + j) / N = i := by
    rw [Nat.add_comm, Nat.add_mul_div_right _ _ hN, Nat.div_eq_of_lt hj, Nat.zero_add]
  have h2 : (r * N + c) / N = r := by
    rw [Nat.add_comm, Nat.add_mul_div_right _ _ hN, Nat.div_eq_of_lt hc, Nat.zero_add]
  have hir : i = r := by rw [← h1, ← h2, h]
  subst hir
  exact ⟨rfl, by omega⟩

theorem distInner_diag {α : Type} [Zero α] (sub : Int → List α → List α → List α → List α)
    (dot : Int → List α → List α → α) (X : List α) (N D r : Nat) (s : DistState α)
    (hr : r < N) (hl : N * N ≤ s.distmatrix.length) :
    distInner sub dot X (N : Int) (D : Int) r r s
      = some { s with distmatrix := s.distmatrix.set (r * N + r) 0,
                      stores := s.stores ++ [(r : Int) * (N : Int) + (r : Int)] } := by
  have hlt := pair_index_lt N r r hr hr
  have hcast : (r : Int) * (N : Int) + (r : Int) = ((r * N + r : Nat) : Int) := by push_cast; ring
  unfold distInner
  rw [if_pos rfl, hcast, writeAt_natCast, setAt_eq_some _ _ _ (by omega), Option.some_bind]

theorem distInner_offdiag {α : Type} [Zero α] (sub : Int → List α → List α → List α → List α)
    (dot : Int → List α → List α → α) (X : List α) (N D r c : Nat) (s : DistState α)
    (hr : r < N) (hc : c < N) (hrc : r ≠ c) (hl : N * N ≤ s.distmatrix.length) :
    distInner sub dot X (N : Int) (D : Int) r c s
      = some { t := sub (D : Int) (X.drop (r * D)) (X.drop (c * D)) s.t,
               dist := dot (D : Int) (sub (D : Int) (X.drop (r * D)) (X.drop (c * D)) s.t)
                 (sub (D : Int) (X.drop (r * D)) (X.drop (c * D)) s.t),
               distmatrix := (s.distmatrix.set (r * N + c)
                   (dot (D : Int) (sub (D : Int) (X.drop (r * D)) (X.drop (c * D)) s.t)
                     (sub (D : Int) (X.drop (r * D)) (X.drop (c * D)) s.t))).set (c * N + r)
                   (dot (D : Int) (sub (D : Int) (X.drop (r * D)) (X.drop (c * D)) s.t)
                     (sub (D : Int) (X.drop (r * D)) (X.drop (c * D)) s.t)),
               evals := s.evals ++ [(r, c)],
               stores := s.stores ++ [(r : Int) * (N : Int) + (c : Int),
                                      (c : Int) * (N : Int) + (r : Int)] } := by
  have h1 := pair_index_lt N r c hr hc
  have h2 := pair_index_lt N c r hc hr
  have hc1 : (r : Int) * (N : Int) + (c : Int) = ((r * N + c : Nat) : Int) := by push_cast; ring
  have hc2 : (c : Int) * (N : Int) + (r : Int) = ((c * N + r : Nat) : Int) := by push_cast; ring
  have hd1 : ((r : Int) * (D : Int)).toNat = r * D := by
    rw [← Int.natCast_mul, Int.toNat_ofNat]
  have hd2 : ((c : Int) * (D : Int)).toNat = c * D := by
    rw [← Int.natCast_mul, Int.toNat_ofNat]
  unfold distInner
  rw [if_neg hrc]
  simp only [hd1, hd2]
  rw [hc1, hc2, writeAt_natCast, setAt_eq_some _ _ _ (by omega), Option.some_bind,
    writeAt_natCast, setAt_eq_some _ _ _ (by simp; omega), Option.some_bind]

theorem getElem?_set_set_ne {β : Type} (l : List β) (a b q : Nat) (x y : β) (ha : a ≠ q)
    (hb : b ≠ q) : ((l.set a x).set b y)[q]? = l[q]? := by
  rw [List.getElem?_set_ne hb, List.getElem?_set_ne ha]

theorem getElem?_set_set_fst {β : Type} (l : List β) (a b : Nat) (x : β) (ha : a < l.length) :
    ((l.set a x).set b x)[a]? = some x := by
  by_cases hab : b = a
  · subst hab
    rw [List.getElem?_set, if_pos rfl, if_pos (by simpa using ha)]
  · rw [List.getElem?_set_ne hab, List.getElem?_set, if_pos rfl, if_pos ha]

theorem getElem?_set_set_snd {β : Type} (l : List β) (a b : Nat) (x y : β) (hb : b < l.length) :
    ((l.set a x).set b y)[b]? = some y := by
  rw [List.getElem?_set, if_pos rfl, if_pos (by simpa using hb)]

theorem distInner_step {α : Type} [Zero α] (R : Nat → Nat → α → Prop)
    (sub : Int → List α → List α → List α → List α) (dot : Int → List α → List α → α)
    (X : List α) (N D len r c : Nat) (s : DistState α) (hr : r < N) (hc : c < N)
    (hlen : N * N ≤ len)
    (hR : ∀ r c tprev, r < N → c < N → r ≠ c →
      R r c (dot (D : Int) (sub (D : Int) (X.drop (r * D)) (X.drop (c * D)) tprev)
        (sub (D : Int) (X.drop (r * D)) (X.drop (c * D)) tprev)) ∧
      R c r (dot (D : Int) (sub (D : Int) (X.drop (r * D)) (X.drop (c * D)) tprev)
        (sub (D : Int) (X.drop (r * D)) (X.drop (c * D)) tprev)))
    (hinv : DistInv R N len r c s) :
    ∃ s', distInner sub dot X (N : Int) (D : Int) r c s = some s' ∧
      DistInv R N len r (c + 1) s' := by
  obtain ⟨hl, hdiag, hoff⟩ := hinv
  by_cases hrc : r = c
  · subst hrc
    refine ⟨_, distInner_diag sub dot X N D r s hr (by omega), ?_, ?_, ?_⟩
    · simpa using hl
    · intro i hi hcond
      by_cases hir : i = r
      · subst hir
        show (s.distmatrix.set (i * N + i) 0)[i * N + i]? = some 0
        rw [List.getElem?_set, if_pos rfl, if_pos (by
          have := pair_index_lt N i i hi hi; omega)]
      · show (s.distmatrix.set (r * N + r) 0)[i * N + i]? = some 0
        rw [List.getElem?_set_ne (fun h => hir (pair_index_inj N r r i i hr hi h).1.symm)]
        exact hdiag i hi (by omega)
    · intro i j hi hj hij hcond
      have hold : i < r ∨ (i = r ∧ j < r) := by omega
      obtain ⟨x, h1, h2, h3, h4⟩ := hoff i j hi hj hij hold
      refine ⟨x, ?_, ?_, h3, h4⟩
      · show (s.distmatrix.set (r * N + r) 0)[i * N + j]? = some x
        rw [List.getElem?_set_ne (fun h => hij (by
          have := pair_index_inj N r r i j hr hj h; omega))]
        exact h1
      · show (s.distmatrix.set (r * N + r) 0)[j * N + i]? = some x
        rw [List.getElem?_set_ne (fun h => hij (by
          have := pair_index_inj N r r j i hr hi h; omega))]
        exact h2
  · have h1lt := pair_index_lt N r c hr hc
    have h2lt := pair_index_lt N c r hc hr
    refine ⟨_, distInner_offdiag sub dot X N D r c s hr hc hrc (by omega), ?_, ?_, ?_⟩
    · simpa using hl
    · intro i hi hcond
      show ((s.distmatrix.set (r * N + c) _).set (c * N + r) _)[i * N + i]? = some 0
      rw [getElem?_set_set_ne _ _ _ _ _ _
        (fun h => hrc (by have := pair_index_inj N r c i i hc hi h; omega))
        (fun h => hrc (by have := pair_index_inj N c r i i hr hi h; omega))]
      exact hdiag i hi (by omega)
    · intro i j hi hj hij hcond
      obtain ⟨hR1, hR2⟩ := hR r c s.t hr hc hrc
      by_cases hA : i = r ∧ j = c
      · obtain ⟨rfl, rfl⟩ := hA
        exact ⟨_, getElem?_set_set_fst _ _ _ _ (by omega),
          getElem?_set_set_snd _ _ _ _ _ (by omega), hR1, hR2⟩
      · by_cases hB : i = c ∧ j = r
        · obtain ⟨rfl, rfl⟩ := hB
          exact ⟨_, getElem?_set_set_snd _ _ _ _ _ (by omega),
            getElem?_set_set_fst _ _ _ _ (by omega), hR2, hR1⟩
        · have hold : i < r ∨ (i = r ∧ j < c) := by omega
          obtain ⟨x, h1, h2, h3, h4⟩ := hoff i j hi hj hij hold
          refine ⟨x, ?_, ?_, h3, h4⟩
          · show ((s.distmatrix.set (r * N + c) _).set (c * N + r) _)[i * N + j]? = some x
            rw [getElem?_set_set_ne _ _ _ _ _ _
              (fun h => hA (by have := pair_index_inj N r c i j hc hj h; omega))
              (fun h => hB (by have := pair_index_inj N c r i j hr hj h; omega))]
            exact h1
          · show ((s.distmatrix.set (r * N + c) _).set (c * N + r) _)[j * N + i]? = some x
            rw [getElem?_set_set_ne _ _ _ _ _ _
              (fun h => hB (by have := pair_index_inj N r c j i hc hi h; omega))
              (fun h => hA (by have := pair_index_inj N c r j i hr hi h; omega))]
            exact h2

/-- A run of `Get_dist_matrix_cpu` completes; the diagonal is zero and mirrored entries hold
the same value, which has the property `R` that the primitives guarantee. -/
theorem dist_run {α : Type} [Zero α] (R : Nat → Nat → α → Prop)
    (sub : Int → List α → List α → List α → List α) (dot : Int → List α → List α → α)
    (X dm : List α) (N D : Nat) (hlen : N * N ≤ dm.length)
    (hR : ∀ r c tprev, r < N → c < N → r ≠ c →
      R r c (dot (D : Int) (sub (D : Int) (X.drop (r * D)) (X.drop (c * D)) tprev)
        (sub (D : Int) (X.drop (r * D)) (X.drop (c * D)) tprev)) ∧
      R c r (dot (D : Int) (sub (D : Int) (X.drop (r * D)) (X.drop (c * D)) tprev)
        (sub (D : Int) (X.drop (r * D)) (X.drop (c * D)) tprev))) :
    ∃ st, Get_dist_matrix_cpu sub dot X (N : Int) (D : Int) dm = some st ∧
      st.distmatrix.length = dm.length ∧
      (∀ i, i < N → st.distmatrix[i * N + i]? = some 0) ∧
      (∀ i j, i < N → j < N → i ≠ j →
        ∃ x, st.distmatrix[i * N + j]? = some x ∧ st.distmatrix[j * N + i]? = some x ∧
          R i j x) := by
  unfold Get_dist_matrix_cpu
  rw [if_neg (by omega)]
  simp only [Int.toNat_ofNat]
  obtain ⟨st, hst, hl, hdiag, hoff⟩ := forUp_invariant
    (fun r => forUp (distInner sub dot X (N : Int) (D : Int) r) N 0)
    (fun r s => DistInv R N dm.length r 0 s) N
    { t := List.replicate D 0, dist := 0, distmatrix := dm, evals := [], stores := [] }
    ⟨rfl, fun i _ h => by omega, fun i j _ _ _ h => by omega⟩
    (by
      intro r s hr hinv
      obtain ⟨s', hs', hl', hdiag', hoff'⟩ := forUp_invariant
        (distInner sub dot X (N : Int) (D : Int) r) (fun c s => DistInv R N dm.length r c s) N s
        hinv (fun c s hc hi => distInner_step R sub dot X N D dm.length r c s hr hc hlen hR hi)
      refine ⟨s', hs', hl', fun i hi hcond => hdiag' i hi (by omega),
        fun i j hi hj hij hcond => hoff' i j hi hj hij (by omega)⟩)
  refine ⟨st, hst, hl, fun i hi => hdiag i hi (by omega), fun i j hi hj hij => ?_⟩
  obtain ⟨x, h1, h2, h3, -⟩ := hoff i j hi hj hij (by omega)
  exact ⟨x, h1, h2, h3⟩

/-! ## Absence of `int` overflow in `Get_dist_matrix_cpu` -/

theorem distInnerChecked_eq {α : Type} [Zero α]
    (sub : Int → List α → List α → List α → List α) (dot : Int → List α → List α → α)
    (X : List α) (N D r c : Nat) (s : DistState α) (hr : r < N) (hc : c < N)
    (hfit : N * N ≤ INT_MAX) (hfitX : N * D ≤ INT_MAX) :
    distInnerChecked sub dot X (N : Int) (D : Int) r c s
      = distInner sub dot X (N : Int) (D : Int) r c s := by
  have h1 : r * N ≤ INT_MAX := le_trans (Nat.mul_le_mul_right N (by omega)) hfit
  have h2 : c * N ≤ INT_MAX := le_trans (Nat.mul_le_mul_right N (by omega)) hfit
  have h3 : r * N + c ≤ INT_MAX := le_trans (le_of_lt (pair_index_lt N r c hr hc)) hfit
  have h4 : c * N + r ≤ INT_MAX := le_trans (le_of_lt (pair_index_lt N c r hc hr)) hfit
  have h5 : r * D ≤ INT_MAX := le_trans (Nat.mul_le_mul_right D (by omega)) hfitX
  have h6 : c * D ≤ INT_MAX := le_trans (Nat.mul_le_mul_right D (by omega)) hfitX
  unfold distInnerChecked distInner
  simp only [← Int.natCast_mul, inInt_natCast _ h1, inInt_natCast _ h2, inInt_natCast _ h5,
    inInt_natCast _ h6, Option.some_bind, ← Int.natCast_add, inInt_natCast _ h3,
    inInt_natCast _ h4]

/-- No index computation of `Get_dist_matrix_cpu` overflows when `feaNum * feaNum` and
`feaNum * feaDim` fit in `int`: the run with checked arithmetic is the run of
`Get_dist_matrix_cpu`. -/
theorem dist_checked_eq {α : Type} [Zero α]
    (sub : Int → List α → List α → List α → List α) (dot : Int → List α → List α → α)
    (X dm : List α) (N D : Nat) (hfit : N * N ≤ INT_MAX) (hfitX : N * D ≤ INT_MAX) :
    Get_dist_matrix_cpu_checked sub dot X (N : Int) (D : Int) dm
      = Get_dist_matrix_cpu sub dot X (N : Int) (D : Int) dm := by
  unfold Get_dist_matrix_cpu_checked Get_dist_matrix_cpu
  rw [if_neg (by omega), if_neg (by omega)]
  simp only [Int.toNat_ofNat]
  refine forUp_congr_reach _ _ N 0 _ (fun r t hr _ => ?_)
  rw [Nat.zero_add]
  refine forUp_congr_reach _ _ N 0 _ (fun c u hc _ => ?_)
  rw [Nat.zero_add]
  exact distInnerChecked_eq sub dot X N D r c u hr hc hfit hfitX


/-! ## Theorems about `Get_dist_matrix_cpu` -/

theorem subExact_getD {α : Type} [CommRing α] (D : Nat) (a b y : List α) (k : Nat)
    (hk : k < D) : (subExact (D : Int) a b y).getD k 0 = a.getD k 0 - b.getD k 0 := by
  unfold subExact
  simp only [Int.toNat_ofNat, List.getD_eq_getElem?_getD]
  rw [List.getElem?_append_left (by simpa using hk)]
  simp [hk]

theorem getD_drop_add {α : Type} [CommRing α] (X : List α) (n k : Nat) :
    (X.drop n).getD k 0 = X.getD (n + k) 0 := by
  simp only [List.getD_eq_getElem?_getD, List.getElem?_drop]

theorem dotExact_subExact {α : Type} [CommRing α] (X tprev : List α) (D r c : Nat) :
    dotExact (D : Int) (subExact (D : Int) (X.drop (r * D)) (X.drop (c * D)) tprev)
      (subExact (D : Int) (X.drop (r * D)) (X.drop (c * D)) tprev) = sqDist X D r c := by
  unfold dotExact sqDist
  simp only [Int.toNat_ofNat]
  congr 1
  refine List.map_congr_left (fun k hk => ?_)
  rw [subExact_getD D _ _ _ k (List.mem_range.mp hk), getD_drop_add, getD_drop_add, sq]

theorem sqDist_comm {α : Type} [CommRing α] (X : List α) (D r c : Nat) :
    sqDist X D r c = sqDist X D c r := by
  unfold sqDist
  congr 1
  refine List.map_congr_left (fun k _ => ?_)
  ring

/-- C7: over exact arithmetic, with `caffe_sub` the element-wise subtraction and `caffe_cpu_dot`
the dot product, for a row-major `feaNum x feaDim` matrix `X` (`feaDim >= 1`, with
`feaNum * feaNum` and `feaNum * feaDim` fitting in `int`) the call completes, also when the
`int` index arithmetic is checked for overflow, and every off-diagonal entry
`distmatrix[r*feaNum + c]` is the sum over `k < feaDim` of `(X[r][k] - X[c][k])^2`, with no
square root. -/
theorem dist_matrix_entries_squared_distance {α : Type} [CommRing α] (X dm : List α)
    (feaNum feaDim : Nat) (hD : 1 ≤ feaDim) (hX : X.length = feaNum * feaDim)
    (hdm : feaNum * feaNum ≤ dm.length) (hfit : feaNum * feaNum ≤ INT_MAX)
    (hfitX : feaNum * feaDim ≤ INT_MAX) :
    ∃ st, Get_dist_matrix_cpu subExact dotExact X (feaNum : Int) (feaDim : Int) dm = some st ∧
      Get_dist_matrix_cpu_checked subExact dotExact X (feaNum : Int) (feaDim : Int) dm
        = some st ∧
      ∀ r c, r < feaNum → c < feaNum → r ≠ c →
        st.distmatrix[r * feaNum + c]? = some (sqDist X feaDim r c) := by
  obtain ⟨st, hst, -, -, hoff⟩ := dist_run (fun i j x => x = sqDist X feaDim i j)
    subExact dotExact X dm feaNum feaDim hdm
    (fun r c tprev _ _ _ => ⟨dotExact_subExact X tprev feaDim r c,
      (dotExact_subExact X tprev feaDim r c).trans (sqDist_comm X feaDim r c)⟩)
  refine ⟨st, hst,
    (dist_checked_eq subExact dotExact X dm feaNum feaDim hfit hfitX).trans hst,
    fun r c hr hc hrc => ?_⟩
  obtain ⟨x, h1, -, h3⟩ := hoff r c hr hc hrc
  rw [h1, h3]

theorem dist_matrix_entries_squared_distance_witness :
    (∃ st, Get_dist_matrix_cpu subExact dotExact ([0, 0, 3, 4] : List Int) ((2 : Nat) : Int)
        ((2 : Nat) : Int) [9, 9, 9, 9] = some st ∧
      Get_dist_matrix_cpu_checked subExact dotExact ([0, 0, 3, 4] : List Int) ((2 : Nat) : Int)
        ((2 : Nat) : Int) [9, 9, 9, 9] = some st ∧
      ∀ r c, r < 2 → c < 2 → r ≠ c →
        st.distmatrix[r * 2 + c]? = some (sqDist ([0, 0, 3, 4] : List Int) 2 r c)) ∧
    (Get_dist_matrix_cpu subExact dotExact ([0, 0, 3, 4] : List Int) 2 2 [9, 9, 9, 9]).map
      (fun st => st.distmatrix) = some [0, 25, 25, 0] :=
  ⟨dist_matrix_entries_squared_distance ([0, 0, 3, 4] : List Int) [9, 9, 9, 9] 2 2 (by decide)
    (by decide) (by decide) (by decide) (by decide), by decide⟩

/-- C8: whatever the subtract and dot primitives return, for `feaNum * feaNum` and
`feaNum * feaDim` fitting in `int` and a `distmatrix` buffer holding `feaNum * feaNum` elements
the call completes, also when the `int` index arithmetic is checked for overflow, and the final
matrix is symmetric with a zero diagonal: `distmatrix[i*feaNum + j] = distmatrix[j*feaNum + i]`
and `distmatrix[i*feaNum + i] = 0` for all `i, j < feaNum`. -/
theorem dist_matrix_symmetric_zero_diagonal {α : Type} [Zero α]
    (sub : Int → List α → List α → List α → List α) (dot : Int → List α → List α → α)
    (X dm : List α) (feaNum feaDim : Nat) (hdm : feaNum * feaNum ≤ dm.length)
    (hfit : feaNum * feaNum ≤ INT_MAX) (hfitX : feaNum * feaDim ≤ INT_MAX) :
    ∃ st, Get_dist_matrix_cpu sub dot X (feaNum : Int) (feaDim : Int) dm = some st ∧
      Get_dist_matrix_cpu_checked sub dot X (feaNum : Int) (feaDim : Int) dm = some st ∧
      ∀ i j, i < feaNum → j < feaNum →
        (∃ x, st.distmatrix[i * feaNum + j]? = some x ∧
          st.distmatrix[j * feaNum + i]? = some x) ∧
        st.distmatrix[i * feaNum + i]? = some 0 := by
  obtain ⟨st, hst, -, hdiag, hoff⟩ := dist_run (fun _ _ _ => True) sub dot X dm feaNum feaDim
    hdm (fun _ _ _ _ _ _ => ⟨trivial, trivial⟩)
  refine ⟨st, hst, (dist_checked_eq sub dot X dm feaNum feaDim hfit hfitX).trans hst,
    fun i j hi hj => ⟨?_, hdiag i hi⟩⟩
  by_cases hij : i = j
  · subst hij
    exact ⟨0, hdiag i hi, hdiag i hi⟩
  · obtain ⟨x, h1, h2, -⟩ := hoff i j hi hj hij
    exact ⟨x, h1, h2⟩

theorem dist_matrix_symmetric_zero_diagonal_witness :
    ∃ st, Get_dist_matrix_cpu subExact dotExact ([0, 0, 3, 4, 1, 1] : List Int)
        ((3 : Nat) : Int) ((2 : Nat) : Int) [9, 9, 9, 9, 9, 9, 9, 9, 9] = some st ∧
      Get_dist_matrix_cpu_checked subExact dotExact ([0, 0, 3, 4, 1, 1] : List Int)
        ((3 : Nat) : Int) ((2 : Nat) : Int) [9, 9, 9, 9, 9, 9, 9, 9, 9] = some st ∧
      ∀ i j, i < 3 → j < 3 →
        (∃ x, st.distmatrix[i * 3 + j]? = some x ∧ st.distmatrix[j * 3 + i]? = some x) ∧
        st.distmatrix[i * 3 + i]? = some 0 :=
  dist_matrix_symmetric_zero_diagonal subExact dotExact ([0, 0, 3, 4, 1, 1] : List Int)
    [9, 9, 9, 9, 9, 9, 9, 9, 9] 3 2 (by decide) (by decide) (by decide)

/-- C9 as stated fails: `caffe_cpu_permute` has no check of `order`. With shape `[2, 2]` and the
order `[0, 0]`, which is not a permutation, the call completes normally and stores to all four
positions of `dataout`, leaving `[1, 3, 1, 3]`. -/
theorem permute_repeated_order_counterexample :
    ¬ ([0, 0] : List Nat).Perm (List.range 2) ∧
    (caffe_cpu_permute [1, 2, 3, 4] [0, 0, 0, 0] [2, 2] [0, 0] 2 (-1)).map
        (fun st => (st.dataout, st.writes)) = some ([1, 3, 1, 3], [0, 1, 2, 3]) := by
  decide

/-- C9, amended: `caffe_cpu_permute` does not validate `order`. For a shape of positive extents
and an order whose entries all lie in `[0, dimsize)`, a permutation or not, such that the
product of the permuted extents `shape[order[j]]` is at least the element count and fits in
`int`, the call completes normally, also when every `int` operation is checked for overflow,
and stores to all positions `0, ..., total-1` of `dataout`, each with an element of
`datain`. -/
theorem permute_unvalidated_order_completes {α : Type} (datain dataout : List α)
    (shape ord : List Nat) (flipdim : Int)
    (hn : 1 ≤ shape.length) (hpos : ∀ e ∈ shape, 0 < e) (hlen : ord.length = shape.length)
    (hrange : ∀ o ∈ ord, o < shape.length) (hflip : flipdim < (shape.length : Int))
    (hin : datain.length = shape.prod) (hout : shape.prod ≤ dataout.length)
    (hcap : shape.prod ≤ (dstShape shape ord).prod)
    (hfit : (dstShape shape ord).prod ≤ INT_MAX) :
    ∃ st, caffe_cpu_permute datain dataout (shape.map Int.ofNat) (ord.map Int.ofNat)
        (shape.length : Int) flipdim = some st ∧
      caffe_cpu_permute_checked datain dataout (shape.map Int.ofNat) (ord.map Int.ofNat)
        (shape.length : Int) flipdim = some st ∧
      st.writes = List.range shape.prod ∧
      st.dataout.length = dataout.length ∧
      ∀ p, p < shape.prod → ∃ x, st.dataout[p]? = some x ∧ x ∈ datain := by
  obtain ⟨st, hst, hl, hval, -, hw⟩ := permute_run_inrange datain dataout shape ord flipdim hn
    hlen hrange hpos hflip (le_of_eq hin.symm) hout hcap
  refine ⟨st, hst, ?_, hw, hl, hval⟩
  rw [permute_checked_eq datain dataout shape ord flipdim hn hlen hrange hpos hflip
    (le_of_eq hin.symm) hout hcap hfit]
  exact hst

theorem permute_unvalidated_order_completes_witness :
    ¬ ([1, 1] : List Nat).Perm (List.range 2) ∧
    ∃ st, caffe_cpu_permute [10, 11, 12, 13, 14, 15] [0, 0, 0, 0, 0, 0]
        (([2, 3] : List Nat).map Int.ofNat) (([1, 1] : List Nat).map Int.ofNat)
        (([2, 3] : List Nat).length : Int) (-1) = some st ∧
      caffe_cpu_permute_checked [10, 11, 12, 13, 14, 15] [0, 0, 0, 0, 0, 0]
        (([2, 3] : List Nat).map Int.ofNat) (([1, 1] : List Nat).map Int.ofNat)
        (([2, 3] : List Nat).length : Int) (-1) = some st ∧
      st.writes = List.range ([2, 3] : List Nat).prod ∧
      st.dataout.length = ([0, 0, 0, 0, 0, 0] : List Nat).length ∧
      ∀ p, p < ([2, 3] : List Nat).prod →
        ∃ x, st.dataout[p]? = some x ∧ x ∈ ([10, 11, 12, 13, 14, 15] : List Nat) :=
  ⟨by decide, permute_unvalidated_order_completes [10, 11, 12, 13, 14, 15] [0, 0, 0, 0, 0, 0]
    [2, 3] [1, 1] (-1) (by decide) (by decide) (by decide) (by decide) (by decide) (by decide)
    (by decide) (by decide) (by decide)⟩

/-! ## Non-negativity of the distances -/

theorem sum_sq_nonneg {α : Type} [LinearOrderedCommRing α] (f : Nat → α) (D : Nat) :
    0 ≤ ((List.range D).map fun k => f k ^ 2).sum := by
  induction D with
  | zero => simp
  | succ D ih =>
    rw [List.range_succ, List.map_append, List.sum_append]
    simp only [List.map_cons, List.map_nil, List.sum_cons, List.sum_nil, add_zero]
    exact add_nonneg ih (sq_nonneg _)

theorem sum_sq_eq_zero_iff {α : Type} [LinearOrderedCommRing α] (f : Nat → α) (D : Nat) :
    ((List.range D).map fun k => f k ^ 2).sum = 0 ↔ ∀ k, k < D → f k = 0 := by
  induction D with
  | zero => simp
  | succ D ih =>
    rw [List.range_succ, List.map_append, List.sum_append]
    simp only [List.map_cons, List.map_nil, List.sum_cons, List.sum_nil, add_zero]
    rw [add_eq_zero_iff_of_nonneg (sum_sq_nonneg f D) (sq_nonneg _), ih]
    constructor
    · rintro ⟨h1, h2⟩ k hk
      rcases Nat.lt_succ_iff_lt_or_eq.mp hk with h | rfl
      · exact h1 k h
      · exact pow_eq_zero_iff (two_ne_zero) |>.mp h2
    · intro h
      exact ⟨fun k hk => h k (by omega), by rw [h D (by omega)]; ring⟩

/-- C11: over exact ordered arithmetic (a linearly ordered commutative ring, such as the
integers or an ordered field), with `caffe_sub` the element-wise subtraction and
`caffe_cpu_dot` the dot product, for a row-major `feaNum x feaDim` matrix `X` (`feaDim >= 1`,
with `feaNum * feaNum` and `feaNum * feaDim` fitting in `int`) the call completes, also when the
`int` index arithmetic is checked for overflow, and every off-diagonal entry
`distmatrix[r*feaNum + c]` is `>= 0`, and it is `0` exactly when the rows `r` and `c` of `X` are
equal. -/
theorem dist_matrix_entries_nonneg_zero_iff_rows_equal {α : Type} [LinearOrderedCommRing α]
    (X dm : List α) (feaNum feaDim : Nat) (hD : 1 ≤ feaDim)
    (hX : X.length = feaNum * feaDim) (hdm : feaNum * feaNum ≤ dm.length)
    (hfit : feaNum * feaNum ≤ INT_MAX) (hfitX : feaNum * feaDim ≤ INT_MAX) :
    ∃ st, Get_dist_matrix_cpu subExact dotExact X (feaNum : Int) (feaDim : Int) dm = some st ∧
      Get_dist_matrix_cpu_checked subExact dotExact X (feaNum : Int) (feaDim : Int) dm
        = some st ∧
      ∀ r c, r < feaNum → c < feaNum → r ≠ c →
        ∃ x, st.distmatrix[r * feaNum + c]? = some x ∧ 0 ≤ x ∧
          (x = 0 ↔ ∀ k, k < feaDim →
            X.getD (r * feaDim + k) 0 = X.getD (c * feaDim + k) 0) := by
  obtain ⟨st, hst, -, -, hoff⟩ := dist_run (fun i j x => x = sqDist X feaDim i j)
    subExact dotExact X dm feaNum feaDim hdm
    (fun r c tprev _ _ _ => ⟨dotExact_subExact X tprev feaDim r c,
      (dotExact_subExact X tprev feaDim r c).trans (sqDist_comm X feaDim r c)⟩)
  refine ⟨st, hst,
    (dist_checked_eq subExact dotExact X dm feaNum feaDim hfit hfitX).trans hst,
    fun r c hr hc hrc => ?_⟩
  obtain ⟨x, h1, -, h3⟩ := hoff r c hr hc hrc
  refine ⟨x, h1, ?_, ?_⟩
  · rw [h3]
    exact sum_sq_nonneg _ _
  · rw [h3]
    unfold sqDist
    rw [sum_sq_eq_zero_iff]
    exact forall_congr' fun k => imp_congr_right fun _ => sub_eq_zero

theorem dist_matrix_entries_nonneg_zero_iff_rows_equal_witness :
    ∃ st, Get_dist_matrix_cpu subExact dotExact ([1, 2, 1, 2, 3, 4] : List Int)
        ((3 : Nat) : Int) ((2 : Nat) : Int) [9, 9, 9, 9, 9, 9, 9, 9, 9] = some st ∧
      Get_dist_matrix_cpu_checked subExact dotExact ([1, 2, 1, 2, 3, 4] : List Int)
        ((3 : Nat) : Int) ((2 : Nat) : Int) [9, 9, 9, 9, 9, 9, 9, 9, 9] = some st ∧
      ∀ r c, r < 3 → c < 3 → r ≠ c →
        ∃ x, st.distmatrix[r * 3 + c]? = some x ∧ 0 ≤ x ∧
          (x = 0 ↔ ∀ k, k < 2 →
            ([1, 2, 1, 2, 3, 4] : List Int).getD (r * 2 + k) 0
              = ([1, 2, 1, 2, 3, 4] : List Int).getD (c * 2 + k) 0) :=
  dist_matrix_entries_nonneg_zero_iff_rows_equal ([1, 2, 1, 2, 3, 4] : List Int)
    [9, 9, 9, 9, 9, 9, 9, 9, 9] 3 2 (by decide) (by decide) (by decide) (by decide)
    (by decide)

/-! ## Transpose -/

theorem srcIndex_transpose (R C i j : Nat) (flipdim : Int) (hflip : flipdim < 0) (hi : i < R)
    (hj : j < C) : srcIndex [R, C] [1, 0] flipdim (j * R + i) = i * C + j := by
  have hD : InShape (dstShape [R, C] [1, 0]) [j, i] := by
    refine ⟨rfl, fun k hk => ?_⟩
    have hk2 : k < 2 := hk
    interval_cases k
    · simpa [dstShape] using hj
    · simpa [dstShape] using hi
  have h := srcIndex_of_multiIndex [R, C] [1, 0] [j, i] [i, j] flipdim hflip (by decide) hD rfl
    (fun k hk => by
      have hk2 : k < 2 := hk
      interval_cases k <;> rfl)
  have e1 : linearIndex (dstShape [R, C] [1, 0]) [j, i] = j * R + i := by
    simp [dstShape, linearIndex]
  have e2 : linearIndex [R, C] [i, j] = i * C + j := by
    simp [linearIndex]
  rw [e1, e2] at h
  exact h

/-- C12: 2-D transpose. For `R >= 1` and `C >= 1` with `R * C` fitting in `int`, the call with
shape `[R, C]`, order `[1, 0]` and no flip completes, also when every `int` operation is checked
for overflow, and writes the `C x R` row-major transpose: `dataout[j*R + i] = datain[i*C + j]`
for all `i < R`, `j < C`. -/
theorem permute_transposes_matrix {α : Type} (datain dataout : List α) (R C : Nat)
    (flipdim : Int) (hR : 1 ≤ R) (hC : 1 ≤ C) (hflip : flipdim < 0)
    (hin : datain.length = R * C) (hout : R * C ≤ dataout.length)
    (hfit : R * C ≤ INT_MAX) :
    ∃ st, caffe_cpu_permute datain dataout (([R, C] : List Nat).map Int.ofNat)
        (([1, 0] : List Nat).map Int.ofNat) 2 flipdim = some st ∧
      caffe_cpu_permute_checked datain dataout (([R, C] : List Nat).map Int.ofNat)
        (([1, 0] : List Nat).map Int.ofNat) 2 flipdim = some st ∧
      ∀ i j, i < R → j < C →
        ∃ x, st.dataout[j * R + i]? = some x ∧ datain[i * C + j]? = some x := by
  have hpos : ∀ e ∈ ([R, C] : List Nat), 0 < e := by
    intro e he
    simp only [List.mem_cons, List.mem_singleton, List.not_mem_nil, or_false] at he
    rcases he with rfl | rfl
    · exact hR
    · exact hC
  have hprod : ([R, C] : List Nat).prod = R * C := by simp
  obtain ⟨st, hst, -, hval, -, -, -⟩ := permute_run datain dataout [R, C] [1, 0] flipdim
    (by simp) (by decide) rfl hpos (by simp only [List.length_cons, List.length_nil]; omega)
    (by rw [hprod, hin]) (by rw [hprod]; exact hout)
  have hc := permute_checked_of_perm datain dataout [R, C] [1, 0] flipdim
    (by simp) (by decide) rfl hpos (by simp only [List.length_cons, List.length_nil]; omega)
    (by rw [hprod, hin]) (by rw [hprod]; exact hout) (by rw [hprod]; exact hfit)
  refine ⟨st, hst, hc.trans hst, fun i j hi hj => ?_⟩
  have hp : j * R + i < R * C := by
    calc j * R + i < j * R + R := by omega
      _ = (j + 1) * R := by ring
      _ ≤ C * R := Nat.mul_le_mul_right _ hj
      _ = R * C := Nat.mul_comm _ _
  have hq : i * C + j < datain.length := by
    rw [hin]
    calc i * C + j < i * C + C := by omega
      _ = (i + 1) * C := by ring
      _ ≤ R * C := Nat.mul_le_mul_right _ hi
  refine ⟨datain[i * C + j], ?_, List.getElem?_eq_getElem hq⟩
  rw [hval _ (by rw [hprod]; exact hp), srcIndex_transpose R C i j flipdim hflip hi hj,
    List.getElem?_eq_getElem hq]

theorem permute_transposes_matrix_witness :
    (∃ st, caffe_cpu_permute [1, 2, 3, 4, 5, 6] [0, 0, 0, 0, 0, 0]
        (([2, 3] : List Nat).map Int.ofNat) (([1, 0] : List Nat).map Int.ofNat) 2 (-1)
        = some st ∧
      caffe_cpu_permute_checked [1, 2, 3, 4, 5, 6] [0, 0, 0, 0, 0, 0]
        (([2, 3] : List Nat).map Int.ofNat) (([1, 0] : List Nat).map Int.ofNat) 2 (-1)
        = some st ∧
      ∀ i j, i < 2 → j < 3 →
        ∃ x, st.dataout[j * 2 + i]? = some x ∧
          ([1, 2, 3, 4, 5, 6] : List Nat)[i * 3 + j]? = some x) ∧
    (caffe_cpu_permute [1, 2, 3, 4, 5, 6] [0, 0, 0, 0, 0, 0] [2, 3] [1, 0] 2 (-1)).map
      (fun st => st.dataout) = some [1, 4, 2, 5, 3, 6] :=
  ⟨permute_transposes_matrix [1, 2, 3, 4, 5, 6] [0, 0, 0, 0, 0, 0] 2 3 (-1) (by decide)
    (by decide) (by decide) (by decide) (by decide) (by decide), by decide⟩

/-! ## Stride tables -/

theorem dstdim_loop_int (dims order : List Int) (n : Nat) (hd : dims.length = n)
    (ho : order.length = n) (hrange : ∀ o ∈ order, 0 ≤ o ∧ o < (n : Int)) :
    forUp (dstdimBody dims order) n 0 (List.replicate n 0)
      = some ((List.range n).map fun j => dims.getD (order.getD j 0).toNat 0) := by
  rw [forUp_fill _ (fun j => dims.getD (order.getD j 0).toNat 0) _ _ (by simp)]
  · simp
  · intro j w hj hw
    have hjo : j < order.length := by omega
    obtain ⟨h0, h1⟩ := hrange _ (List.getElem_mem hjo)
    have hlt : (order[j]).toNat < dims.length := by omega
    simp only [dstdimBody, List.getElem?_eq_getElem hjo, Option.some_bind, readAt, if_pos h0,
      List.getElem?_eq_getElem hlt]
    rw [setAt_eq_some _ _ _ (by simpa [hw] using hj), List.getD_eq_getElem _ _ hjo,
      List.getD_eq_getElem _ _ hlt]

/-- The table of suffix products is row-major for any extents. -/
theorem suffix_products_row_major (dims : List Int) (n : Nat) (hd : dims.length = n)
    (hn : 1 ≤ n) :
    ((List.range n).map fun i => (dims.drop (i + 1)).prod).length = n ∧
    ((List.range n).map fun i => (dims.drop (i + 1)).prod)[n - 1]? = some 1 ∧
    (∀ i, i + 1 < n → ∃ s e,
      ((List.range n).map fun i => (dims.drop (i + 1)).prod)[i + 1]? = some s ∧
      dims[i + 1]? = some e ∧
      ((List.range n).map fun i => (dims.drop (i + 1)).prod)[i]? = some (s * e)) ∧
    (n = 1 → ((List.range n).map fun i => (dims.drop (i + 1)).prod) = [1]) := by
  refine ⟨by simp, ?_, ?_, ?_⟩
  · have h : n - 1 < n := by omega
    have h2 : List.drop (n - 1 + 1) dims = [] := List.drop_of_length_le (by omega)
    simp [h, h2]
  · intro i hi
    have h1 : i + 1 < dims.length := by omega
    refine ⟨(dims.drop (i + 1 + 1)).prod, dims[i + 1], ?_, List.getElem?_eq_getElem h1, ?_⟩
    · simp [hi]
    · have hi' : i < n := by omega
      simp only [List.getElem?_map, List.getElem?_range hi', Option.map_some']
      rw [List.drop_eq_getElem_cons h1, List.prod_cons, mul_comm]
  · intro h1
    subst h1
    have h2 : List.drop (0 + 1) dims = [] := List.drop_of_length_le (by omega)
    show [(List.drop (0 + 1) dims).prod] = [1]
    rw [h2, List.prod_nil]

/-- C16: stride tables are row-major. For `dimsize >= 1`, any extents `dimensions` and an
`order` with entries in `[0, dimsize)`, the nested product loops of `caffe_cpu_permute` compute
`dim_capacity` from `dimensions` and `dstdim_capacity` from `dstdimensions`
(`dstdimensions[i] = dimensions[order[i]]`), and each table `stride` over its extents satisfies
`stride[dimsize-1] = 1` and `stride[i] = stride[i+1] * extent[i+1]` for `i < dimsize-1`; for
`dimsize = 1` both tables are `[1]`. -/
theorem stride_tables_are_row_major (dimensions order : List Int) (dimsize : Nat)
    (hn : 1 ≤ dimsize) (hd : dimensions.length = dimsize) (ho : order.length = dimsize)
    (hrange : ∀ o ∈ order, 0 ≤ o ∧ o < (dimsize : Int)) :
    ∃ dim_capacity dstdimensions dstdim_capacity,
      capacityTable dimensions dimsize (List.replicate dimsize 1) = some dim_capacity ∧
      forUp (dstdimBody dimensions order) dimsize 0 (List.replicate dimsize 0)
        = some dstdimensions ∧
      capacityTable dstdimensions dimsize (List.replicate dimsize 1) = some dstdim_capacity ∧
      (∀ i, i < dimsize → ∃ o e, order[i]? = some o ∧ readAt dimensions o = some e ∧
        dstdimensions[i]? = some e) ∧
      (dim_capacity.length = dimsize ∧ dim_capacity[dimsize - 1]? = some 1 ∧
        ∀ i, i + 1 < dimsize → ∃ s e, dim_capacity[i + 1]? = some s ∧
          dimensions[i + 1]? = some e ∧ dim_capacity[i]? = some (s * e)) ∧
      (dstdim_capacity.length = dimsize ∧ dstdim_capacity[dimsize - 1]? = some 1 ∧
        ∀ i, i + 1 < dimsize → ∃ s e, dstdim_capacity[i + 1]? = some s ∧
          dstdimensions[i + 1]? = some e ∧ dstdim_capacity[i]? = some (s * e)) ∧
      (dimsize = 1 → dim_capacity = [1] ∧ dstdim_capacity = [1]) := by
  have hdl : ((List.range dimsize).map fun j =>
      dimensions.getD (order.getD j 0).toNat 0).length = dimsize := by simp
  obtain ⟨a1, a2, a3, a4⟩ := suffix_products_row_major dimensions dimsize hd hn
  obtain ⟨b1, b2, b3, b4⟩ := suffix_products_row_major _ dimsize hdl hn
  refine ⟨_, _, _, capacityTable_int dimensions dimsize hd,
    dstdim_loop_int dimensions order dimsize hd ho hrange,
    capacityTable_int _ dimsize hdl, ?_, ⟨a1, a2, a3⟩, ⟨b1, b2, b3⟩,
    fun h => ⟨a4 h, b4 h⟩⟩
  intro i hi
  have hio : i < order.length := by omega
  obtain ⟨h0, h1⟩ := hrange _ (List.getElem_mem hio)
  have hlt : (order[i]).toNat < dimensions.length := by omega
  refine ⟨order[i], dimensions[(order[i]).toNat], List.getElem?_eq_getElem hio, ?_, ?_⟩
  · simp only [readAt, if_pos h0, List.getElem?_eq_getElem hlt]
  · simp only [List.getElem?_map, List.getElem?_range hi, Option.map_some']
    rw [List.getD_eq_getElem _ _ hio, List.getD_eq_getElem _ _ hlt]

theorem stride_tables_are_row_major_witness :
    ∃ dim_capacity dstdimensions dstdim_capacity,
      capacityTable [2, 3, 5] 3 (List.replicate 3 1) = some dim_capacity ∧
      forUp (dstdimBody [2, 3, 5] [2, 0, 1]) 3 0 (List.replicate 3 0) = some dstdimensions ∧
      capacityTable dstdimensions 3 (List.replicate 3 1) = some dstdim_capacity ∧
      (∀ i, i < 3 → ∃ o e, ([2, 0, 1] : List Int)[i]? = some o ∧
        readAt ([2, 3, 5] : List Int) o = some e ∧ dstdimensions[i]? = some e) ∧
      (dim_capacity.length = 3 ∧ dim_capacity[3 - 1]? = some 1 ∧
        ∀ i, i + 1 < 3 → ∃ s e, dim_capacity[i + 1]? = some s ∧
          ([2, 3, 5] : List Int)[i + 1]? = some e ∧ dim_capacity[i]? = some (s * e)) ∧
      (dstdim_capacity.length = 3 ∧ dstdim_capacity[3 - 1]? = some 1 ∧
        ∀ i, i + 1 < 3 → ∃ s e, dstdim_capacity[i + 1]? = some s ∧
          dstdimensions[i + 1]? = some e ∧ dstdim_capacity[i]? = some (s * e)) ∧
      (3 = 1 → dim_capacity = [1] ∧ dstdim_capacity = [1]) :=
  stride_tables_are_row_major [2, 3, 5] [2, 0, 1] 3 (by decide) (by decide) (by decide)
    (by decide)

/-! ## Composition of two permutes -/

theorem map_getD_range (a : List Nat) : (List.range a.length).map (fun o => a.getD o 0) = a := by
  refine List.ext_getElem (by simp) (fun i h1 h2 => ?_)
  simp [List.getD_eq_getElem, h2]

theorem compose_perm (a b : List Nat) (ha : a.Perm (List.range a.length))
    (hb : b.Perm (List.range b.length)) (hl : b.length = a.length) :
    (b.map fun o => a.getD o 0).Perm (List.range (b.map fun o => a.getD o 0).length) := by
  have h1 : (b.map fun o => a.getD o 0).Perm ((List.range b.length).map fun o => a.getD o 0) :=
    hb.map _
  rw [hl, map_getD_range] at h1
  rw [List.length_map, hl]
  exact h1.trans ha

theorem dstShape_compose (shape a b : List Nat) (hb : ∀ o ∈ b, o < a.length) :
    dstShape (dstShape shape a) b = dstShape shape (b.map fun o => a.getD o 0) := by
  refine List.ext_getElem (by simp [dstShape]) (fun j h1 h2 => ?_)
  have hj : j < b.length := by rw [length_dstShape] at h1; exact h1
  have hlt : b[j] < a.length := hb _ (List.getElem_mem _)
  have hjc : j < (b.map fun o => a.getD o 0).length := by simpa using hj
  have eL : (dstShape (dstShape shape a) b).getD j 0 = shape.getD (a.getD b[j] 0) 0 := by
    rw [dstShape_getD _ _ _ hj, List.getD_eq_getElem _ _ hj, dstShape_getD _ _ _ hlt]
  have eR : (dstShape shape (b.map fun o => a.getD o 0)).getD j 0
      = shape.getD (a.getD b[j] 0) 0 := by
    rw [dstShape_getD _ _ _ hjc, List.getD_eq_getElem _ _ hjc, List.getElem_map]
  rw [← List.getD_eq_getElem _ 0 h1, ← List.getD_eq_getElem _ 0 h2, eL, eR]

/-- The index map of order `a` after the index map of order `b` is the index map of the
composed order `c[i] = a[b[i]]`. -/
theorem srcIndex_compose (shape a b : List Nat) (f1 f2 f3 : Int) (hf1 : f1 < 0) (hf2 : f2 < 0)
    (hf3 : f3 < 0) (ha : a.Perm (List.range a.length)) (hb : b.Perm (List.range b.length))
    (hla : a.length = shape.length) (hlb : b.length = shape.length)
    (hpos : ∀ e ∈ shape, 0 < e) (p : Nat) :
    srcIndex shape a f1 (srcIndex (dstShape shape a) b f2 p)
      = srcIndex shape (b.map fun o => a.getD o 0) f3 p := by
  have hbr : ∀ o ∈ b, o < a.length := fun o ho => by
    rw [hla, ← hlb]; exact perm_range_mem_lt b hb o ho
  have hsh := dstShape_compose shape a b hbr
  have hc := compose_perm a b ha hb (by rw [hlb, hla])
  have hcpos := dstShape_pos shape _ hc (by rw [List.length_map, hlb]) hpos
  have he := digits_inShape _ hcpos p
  have he' : InShape (dstShape (dstShape shape a) b)
      (digits (dstShape shape (b.map fun o => a.getD o 0)) p) := by rw [hsh]; exact he
  have hd : InShape (dstShape shape a)
      (scatter b (digits (dstShape shape (b.map fun o => a.getD o 0)) p)) :=
    scatter_inShape (dstShape shape a) b _ hb (by rw [length_dstShape, hlb, hla]) he'
  have e2 : srcIndex (dstShape shape a) b f2 p = linearIndex (dstShape shape a)
      (scatter b (digits (dstShape shape (b.map fun o => a.getD o 0)) p)) := by
    unfold srcIndex
    rw [hsh, flipAt_neg _ _ _ hf2]
  rw [e2, srcIndex_linearIndex _ _ _ _ hd, flipAt_neg _ _ _ hf1]
  unfold srcIndex
  rw [flipAt_neg _ _ _ hf3]
  congr 1
  symm
  refine scatter_eq_of _ _ _ hc (by rw [length_scatter, List.length_map, hlb, hla])
    (fun j hj => ?_)
  have hjb : j < b.length := by simpa using hj
  have hlt : b[j] < a.length := hbr _ (List.getElem_mem _)
  have h1 := scatter_getD_ord a
    (scatter b (digits (dstShape shape (b.map fun o => a.getD o 0)) p)) ha b[j] hlt
  have h2 := scatter_getD_ord b (digits (dstShape shape (b.map fun o => a.getD o 0)) p) hb j hjb
  rw [List.getD_eq_getElem _ _ hjb] at h2
  rw [h2] at h1
  rw [← h1]
  congr 1
  simp [List.getD_eq_getElem, hjb]

/-- C18: permutes compose. With a shape of positive extents whose element count fits in `int`
and permutations `a` and `b` of the axes, no flip, applying the call with order `a` to `A` and
then the call with order `b` to the result, read with the permuted shape, completes and gives
the same buffer as the single call on `A` with the composed order `c`, `c[i] = a[b[i]]`; the
three calls complete also when every `int` operation is checked for overflow. -/
theorem permute_two_orders_compose {α : Type} (A out1 out2 out3 : List α)
    (shape a b c : List Nat) (f1 f2 f3 : Int)
    (hn : 1 ≤ shape.length) (hpos : ∀ e ∈ shape, 0 < e)
    (ha : a.Perm (List.range shape.length)) (hb : b.Perm (List.range shape.length))
    (hf1 : f1 < 0) (hf2 : f2 < 0) (hf3 : f3 < 0) (hc : c.length = shape.length)
    (hcomp : ∀ i, i < shape.length → c.getD i 0 = a.getD (b.getD i 0) 0)
    (hA : A.length = shape.prod) (h1 : shape.prod ≤ out1.length)
    (h2 : shape.prod ≤ out2.length) (h3 : shape.prod ≤ out3.length)
    (hfit : shape.prod ≤ INT_MAX) :
    ∃ st1 st2 st3,
      caffe_cpu_permute A out1 (shape.map Int.ofNat) (a.map Int.ofNat)
        (shape.length : Int) f1 = some st1 ∧
      caffe_cpu_permute st1.dataout out2 ((dstShape shape a).map Int.ofNat)
        (b.map Int.ofNat) (shape.length : Int) f2 = some st2 ∧
      caffe_cpu_permute A out3 (shape.map Int.ofNat) (c.map Int.ofNat)
        (shape.length : Int) f3 = some st3 ∧
      caffe_cpu_permute_checked A out1 (shape.map Int.ofNat) (a.map Int.ofNat)
        (shape.length : Int) f1 = some st1 ∧
      caffe_cpu_permute_checked st1.dataout out2 ((dstShape shape a).map Int.ofNat)
        (b.map Int.ofNat) (shape.length : Int) f2 = some st2 ∧
      caffe_cpu_permute_checked A out3 (shape.map Int.ofNat) (c.map Int.ofNat)
        (shape.length : Int) f3 = some st3 ∧
      (∀ p, p < shape.prod → st2.dataout[p]? = st3.dataout[p]?) ∧
      st2.dataout.take shape.prod = st3.dataout.take shape.prod := by
  have hla : a.length = shape.length := by simpa using ha.length_eq
  have hlb : b.length = shape.length := by simpa using hb.length_eq
  have ha' : a.Perm (List.range a.length) := by rw [hla]; exact ha
  have hb' : b.Perm (List.range b.length) := by rw [hlb]; exact hb
  have hceq : c = b.map fun o => a.getD o 0 := by
    refine List.ext_getElem (by rw [hc, List.length_map, hlb]) (fun i i1 i2 => ?_)
    have hi : i < shape.length := by omega
    have hib : i < b.length := by omega
    have := hcomp i hi
    rw [List.getD_eq_getElem _ _ i1, List.getD_eq_getElem _ _ hib] at this
    simp [this]
  subst hceq
  have hc' := compose_perm a b ha' hb' (by rw [hlb, hla])
  have hdl : (dstShape shape a).length = shape.length := by rw [length_dstShape, hla]
  have hprod := dstShape_prod shape a ha' hla
  have hdpos := dstShape_pos shape a ha' hla hpos
  obtain ⟨st1, hst1, hlen1, hval1, -, -, -⟩ := permute_run A out1 shape a f1 hn ha' hla
    hpos (by omega) (le_of_eq hA.symm) h1
  obtain ⟨st2, hst2, hlen2, hval2, -, -, -⟩ := permute_run st1.dataout out2 (dstShape shape a)
    b f2 (by rw [hdl]; exact hn) hb' (by rw [hdl, hlb]) hdpos (by rw [hdl]; omega)
    (by rw [hprod, hlen1]; exact h1) (by rw [hprod]; exact h2)
  obtain ⟨st3, hst3, hlen3, hval3, -, -, -⟩ := permute_run A out3 shape _ f3 hn hc' hc
    hpos (by omega) (le_of_eq hA.symm) h3
  have hc1 := permute_checked_of_perm A out1 shape a f1 hn ha' hla hpos (by omega)
    (le_of_eq hA.symm) h1 hfit
  have hc2 := permute_checked_of_perm st1.dataout out2 (dstShape shape a) b f2
    (by rw [hdl]; exact hn) hb' (by rw [hdl, hlb]) hdpos (by rw [hdl]; omega)
    (by rw [hprod, hlen1]; exact h1) (by rw [hprod]; exact h2) (by rw [hprod]; exact hfit)
  have hc3 := permute_checked_of_perm A out3 shape _ f3 hn hc' hc hpos (by omega)
    (le_of_eq hA.symm) h3 hfit
  rw [hdl] at hst2 hc2
  rw [hprod] at hval2
  have hpt : ∀ p, p < shape.prod → st2.dataout[p]? = st3.dataout[p]? := by
    intro p hp
    have hq : srcIndex (dstShape shape a) b f2 p < shape.prod := by
      rw [← hprod]
      exact srcIndex_lt (dstShape shape a) b f2 hb' (by rw [hdl, hlb]) hdpos p
    rw [hval2 p hp, hval1 _ hq, hval3 p hp,
      srcIndex_compose shape a b f1 f2 f3 hf1 hf2 hf3 ha' hb' hla hlb hpos p]
  refine ⟨st1, st2, st3, hst1, hst2, hst3, hc1.trans hst1, hc2.trans hst2, hc3.trans hst3,
    hpt, ?_⟩
  refine List.ext_getElem? (fun i => ?_)
  by_cases hi : i < shape.prod
  · rw [List.getElem?_take_of_lt hi, List.getElem?_take_of_lt hi]
    exact hpt i hi
  · rw [List.getElem?_eq_none (by simp; omega), List.getElem?_eq_none (by simp; omega)]

theorem permute_two_orders_compose_witness :
    (∃ st1 st2 st3,
      caffe_cpu_permute [10, 11, 12, 13, 14, 15, 16, 17, 18, 19, 20, 21]
        [0, 0, 0, 0, 0, 0, 0, 0, 0, 0, 0, 0]
        (([2, 3, 2] : List Nat).map Int.ofNat) (([1, 2, 0] : List Nat).map Int.ofNat)
        (([2, 3, 2] : List Nat).length : Int) (-1) = some st1 ∧
      caffe_cpu_permute st1.dataout [0, 0, 0, 0, 0, 0, 0, 0, 0, 0, 0, 0]
        ((dstShape [2, 3, 2] [1, 2, 0]).map Int.ofNat)
        (([0, 2, 1] : List Nat).map Int.ofNat) (([2, 3, 2] : List Nat).length : Int) (-1)
        = some st2 ∧
      caffe_cpu_permute [10, 11, 12, 13, 14, 15, 16, 17, 18, 19, 20, 21]
        [0, 0, 0, 0, 0, 0, 0, 0, 0, 0, 0, 0]
        (([2, 3, 2] : List Nat).map Int.ofNat) (([1, 0, 2] : List Nat).map Int.ofNat)
        (([2, 3, 2] : List Nat).length : Int) (-1) = some st3 ∧
      caffe_cpu_permute_checked [10, 11, 12, 13, 14, 15, 16, 17, 18, 19, 20, 21]
        [0, 0, 0, 0, 0, 0, 0, 0, 0, 0, 0, 0]
        (([2, 3, 2] : List Nat).map Int.ofNat) (([1, 2, 0] : List Nat).map Int.ofNat)
        (([2, 3, 2] : List Nat).length : Int) (-1) = some st1 ∧
      caffe_cpu_permute_checked st1.dataout [0, 0, 0, 0, 0, 0, 0, 0, 0, 0, 0, 0]
        ((dstShape [2, 3, 2] [1, 2, 0]).map Int.ofNat)
        (([0, 2, 1] : List Nat).map Int.ofNat) (([2, 3, 2] : List Nat).length : Int) (-1)
        = some st2 ∧
      caffe_cpu_permute_checked [10, 11, 12, 13, 14, 15, 16, 17, 18, 19, 20, 21]
        [0, 0, 0, 0, 0, 0, 0, 0, 0, 0, 0, 0]
        (([2, 3, 2] : List Nat).map Int.ofNat) (([1, 0, 2] : List Nat).map Int.ofNat)
        (([2, 3, 2] : List Nat).length : Int) (-1) = some st3 ∧
      (∀ p, p < ([2, 3, 2] : List Nat).prod → st2.dataout[p]? = st3.dataout[p]?) ∧
      st2.dataout.take ([2, 3, 2] : List Nat).prod
        = st3.dataout.take ([2, 3, 2] : List Nat).prod) ∧
    (caffe_cpu_permute [10, 11, 12, 13, 14, 15, 16, 17, 18, 19, 20, 21]
        [0, 0, 0, 0, 0, 0, 0, 0, 0, 0, 0, 0] [2, 3, 2] [1, 2, 0] 3 (-1)).map
        (fun st => st.dataout)
      = some [10, 16, 11, 17, 12, 18, 13, 19, 14, 20, 15, 21] ∧
    (caffe_cpu_permute [10, 16, 11, 17, 12, 18, 13, 19, 14, 20, 15, 21]
        [0, 0, 0, 0, 0, 0, 0, 0, 0, 0, 0, 0] [3, 2, 2] [0, 2, 1] 3 (-1)).map
        (fun st => st.dataout)
      = some [10, 11, 16, 17, 12, 13, 18, 19, 14, 15, 20, 21] ∧
    (caffe_cpu_permute [10, 11, 12, 13, 14, 15, 16, 17, 18, 19, 20, 21]
        [0, 0, 0, 0, 0, 0, 0, 0, 0, 0, 0, 0] [2, 3, 2] [1, 0, 2] 3 (-1)).map
        (fun st => st.dataout)
      = some [10, 11, 16, 17, 12, 13, 18, 19, 14, 15, 20, 21] ∧
    (caffe_cpu_permute [10, 11, 12, 13, 14, 15, 16, 17, 18, 19, 20, 21]
        [0, 0, 0, 0, 0, 0, 0, 0, 0, 0, 0, 0] [2, 3, 2] [2, 1, 0] 3 (-1)).map
        (fun st => st.dataout)
      = some [10, 16, 12, 18, 14, 20, 11, 17, 13, 19, 15, 21] :=
  ⟨permute_two_orders_compose [10, 11, 12, 13, 14, 15, 16, 17, 18, 19, 20, 21]
    [0, 0, 0, 0, 0, 0, 0, 0, 0, 0, 0, 0] [0, 0, 0, 0, 0, 0, 0, 0, 0, 0, 0, 0]
    [0, 0, 0, 0, 0, 0, 0, 0, 0, 0, 0, 0] [2, 3, 2] [1, 2, 0] [0, 2, 1] [1, 0, 2] (-1) (-1) (-1)
    (by decide) (by decide) (by decide) (by decide) (by decide) (by decide) (by decide)
    (by decide) (by decide) (by decide) (by decide) (by decide) (by decide) (by decide),
    by decide, by decide, by decide, by decide⟩

/-! ## Safety -/

theorem inShape_cast_bounds (sh d : List Nat) (h : InShape sh d) (j : Nat)
    (hj : j < sh.length) :
    ∃ x e, (d.map Int.ofNat)[j]? = some x ∧ (sh.map Int.ofNat)[j]? = some e ∧ 0 ≤ x ∧ x < e := by
  have hjd : j < d.length := by rw [h.1]; exact hj
  have hlt := h.2 j hj
  rw [List.getD_eq_getElem _ _ hjd, List.getD_eq_getElem _ _ hj] at hlt
  refine ⟨(d[j] : Int), (sh[j] : Int), ?_, ?_, Int.ofNat_nonneg _, by exact_mod_cast hlt⟩
  · simp [List.getElem?_eq_getElem hjd]
  · simp [List.getElem?_eq_getElem hj]

/-- C17: permute is safe under its preconditions. With a shape of positive extents whose element
count fits in `int`, `order` a permutation of the axes and `flipdim` negative or an axis: every
divisor `dstdim_capacity[j]` is
positive and every `order[j]` is a valid index; the call is the main loop over the computed
tables; in every iteration, from any contents of the scratch vectors, the decomposition
succeeds (no division by zero) with `0 <= dstidx[j] < dstdimensions[j]`, also after the flip,
and the iteration completes with a source index `curidx` in `[0, count)`, so the read
`datain[curidx]` is in bounds; and the whole call completes with every read in bounds, also
when every `int` operation is checked for overflow. -/
theorem permute_safe_under_preconditions {α : Type} (datain dataout : List α)
    (shape ord : List Nat) (flipdim : Int)
    (hn : 1 ≤ shape.length) (hpos : ∀ e ∈ shape, 0 < e)
    (hperm : ord.Perm (List.range shape.length)) (hflip : flipdim < (shape.length : Int))
    (hin : datain.length = shape.prod) (hout : shape.prod ≤ dataout.length)
    (hfit : shape.prod ≤ INT_MAX) :
    (∀ j, j < shape.length →
      ∃ c, ((strides (dstShape shape ord)).map Int.ofNat)[j]? = some c ∧ 0 < c) ∧
    (∀ j, j < shape.length →
      ∃ o, (ord.map Int.ofNat)[j]? = some o ∧ 0 ≤ o ∧ o < (shape.length : Int)) ∧
    caffe_cpu_permute datain dataout (shape.map Int.ofNat) (ord.map Int.ofNat)
        (shape.length : Int) flipdim
      = forUp (permuteBody datain ((dstShape shape ord).map Int.ofNat)
          ((strides shape).map Int.ofNat) ((strides (dstShape shape ord)).map Int.ofNat)
          (ord.map Int.ofNat) shape.length flipdim) shape.prod 0
          { idx := List.replicate shape.length 0, dstidx := List.replicate shape.length 0,
            dataout := dataout, reads := [], writes := [] } ∧
    (∀ p, p < shape.prod → ∀ s : PermuteState α, s.idx.length = shape.length →
      s.dstidx.length = shape.length → p < s.dataout.length →
      ∃ dig t fd s' q,
        forUp (decomposeBody ((strides (dstShape shape ord)).map Int.ofNat)) shape.length 0
          (s.dstidx, (p : Int)) = some (dig, t) ∧
        (∀ j, j < shape.length → ∃ x e, dig[j]? = some x ∧
          ((dstShape shape ord).map Int.ofNat)[j]? = some e ∧ 0 ≤ x ∧ x < e) ∧
        flipStep ((dstShape shape ord).map Int.ofNat) flipdim dig = some fd ∧
        (∀ j, j < shape.length → ∃ x e, fd[j]? = some x ∧
          ((dstShape shape ord).map Int.ofNat)[j]? = some e ∧ 0 ≤ x ∧ x < e) ∧
        permuteBody datain ((dstShape shape ord).map Int.ofNat)
          ((strides shape).map Int.ofNat) ((strides (dstShape shape ord)).map Int.ofNat)
          (ord.map Int.ofNat) shape.length flipdim p s = some s' ∧
        s'.dstidx = fd ∧ s'.reads = s.reads ++ [q] ∧ 0 ≤ q ∧ q < (shape.prod : Int) ∧
        (readAt datain q).isSome = true) ∧
    ∃ st, caffe_cpu_permute datain dataout (shape.map Int.ofNat) (ord.map Int.ofNat)
        (shape.length : Int) flipdim = some st ∧
      st.reads.length = shape.prod ∧
      (∀ q ∈ st.reads, 0 ≤ q ∧ q < (shape.prod : Int) ∧ (readAt datain q).isSome = true) ∧
      caffe_cpu_permute_checked datain dataout (shape.map Int.ofNat) (ord.map Int.ofNat)
        (shape.length : Int) flipdim = some st := by
  have hlen : ord.length = shape.length := by simpa using hperm.length_eq
  have hperm' : ord.Perm (List.range ord.length) := by rw [hlen]; exact hperm
  have hdl : (dstShape shape ord).length = shape.length := by rw [length_dstShape, hlen]
  have hdpos := dstShape_pos shape ord hperm' hlen hpos
  have hprod := dstShape_prod shape ord hperm' hlen
  have hread : ∀ q : Nat, q < shape.prod → (readAt datain (q : Int)).isSome = true := by
    intro q hq
    rw [readAt_natCast, List.getElem?_eq_getElem (by omega)]
    rfl
  refine ⟨?_, ?_, ?_, ?_, ?_⟩
  · intro j hj
    refine ⟨(((dstShape shape ord).drop (j + 1)).prod : Nat), ?_, ?_⟩
    · rw [List.getElem?_map, strides_getElem _ j (by rw [hdl]; exact hj)]
      rfl
    · exact_mod_cast prod_drop_pos _ hdpos (j + 1)
  · intro j hj
    have hjo : j < ord.length := by omega
    refine ⟨(ord[j] : Int), by simp [List.getElem?_eq_getElem hjo], Int.ofNat_nonneg _, ?_⟩
    have := perm_range_mem_lt ord hperm' _ (List.getElem_mem hjo)
    rw [hlen] at this
    exact_mod_cast this
  · exact permute_setup datain dataout shape ord flipdim hn hlen (fun o ho => by
      rw [← hlen]; exact perm_range_mem_lt ord hperm' o ho)
  · intro p hp s hidx hdst hps
    have hdig := digits_inShape _ hdpos p
    have hfl := flipAt_inShape _ flipdim _ hdig
    obtain ⟨t, ht⟩ := decompose_loop (dstShape shape ord) hdpos p (by rw [hprod]; exact hp)
      s.dstidx (by rw [hdst, hdl])
    rw [hdl] at ht
    obtain ⟨x, -, hbody⟩ := permuteBody_eq datain shape ord flipdim hperm' hlen hpos hflip
      (le_of_eq hin.symm) p hp s hidx hdst hps
    have hq := srcIndex_lt shape ord flipdim hperm' hlen hpos p
    refine ⟨_, t, _, _, (srcIndex shape ord flipdim p : Int), ht,
      fun j hj => inShape_cast_bounds _ _ hdig j (by rw [hdl]; exact hj),
      flipStep_eq _ _ _ hdig.1 (by rw [hdl]; exact hflip) (fun _ => hdig.2 _ (by
        rw [hdl]; omega)),
      fun j hj => inShape_cast_bounds _ _ hfl j (by rw [hdl]; exact hj),
      hbody, rfl, rfl, Int.ofNat_nonneg _, by exact_mod_cast hq, hread _ hq⟩
  · obtain ⟨st, hst, -, -, -, hreads, -⟩ := permute_run datain dataout shape ord flipdim hn
      hperm' hlen hpos hflip (le_of_eq hin.symm) hout
    refine ⟨st, hst, by simp [hreads], fun q hq => ?_, ?_⟩
    · rw [hreads] at hq
      obtain ⟨p, -, rfl⟩ := List.mem_map.mp hq
      have hlt := srcIndex_lt shape ord flipdim hperm' hlen hpos p
      exact ⟨Int.ofNat_nonneg _, by exact_mod_cast hlt, hread _ hlt⟩
    · rw [permute_checked_of_perm datain dataout shape ord flipdim hn hperm' hlen hpos hflip
        (le_of_eq hin.symm) hout hfit]
      exact hst

theorem permute_safe_under_preconditions_witness :
    (∀ j, j < ([2, 3] : List Nat).length →
      ∃ c, ((strides (dstShape [2, 3] [1, 0])).map Int.ofNat)[j]? = some c ∧ 0 < c) ∧
    ∃ st, caffe_cpu_permute [10, 11, 12, 13, 14, 15] [0, 0, 0, 0, 0, 0]
        (([2, 3] : List Nat).map Int.ofNat) (([1, 0] : List Nat).map Int.ofNat)
        (([2, 3] : List Nat).length : Int) 1 = some st ∧
      st.reads.length = ([2, 3] : List Nat).prod ∧
      (∀ q ∈ st.reads, 0 ≤ q ∧ q < (([2, 3] : List Nat).prod : Int) ∧
        (readAt ([10, 11, 12, 13, 14, 15] : List Nat) q).isSome = true) ∧
      caffe_cpu_permute_checked [10, 11, 12, 13, 14, 15] [0, 0, 0, 0, 0, 0]
        (([2, 3] : List Nat).map Int.ofNat) (([1, 0] : List Nat).map Int.ofNat)
        (([2, 3] : List Nat).length : Int) 1 = some st :=
  ⟨(permute_safe_under_preconditions [10, 11, 12, 13, 14, 15] [0, 0, 0, 0, 0, 0] [2, 3] [1, 0] 1
      (by decide) (by decide) (by decide) (by decide) (by decide) (by decide) (by decide)).1,
    (permute_safe_under_preconditions [10, 11, 12, 13, 14, 15] [0, 0, 0, 0, 0, 0] [2, 3] [1, 0] 1
      (by decide) (by decide) (by decide) (by decide) (by decide) (by decide)
      (by decide)).2.2.2.2⟩

/-! ## Independence of the iterations -/

theorem take_map_some_eq {β : Type} (l : List β) (k : Nat) (f : Nat → Option β)
    (hk : k ≤ l.length) (h : ∀ p, p < k → l[p]? = f p) :
    (l.take k).map some = (List.range k).map f := by
  refine List.ext_getElem (by simp; omega) (fun p h1 h2 => ?_)
  have hp : p < k := by simpa using h2
  have := h p hp
  rw [List.getElem?_eq_getElem (by omega)] at this
  simp only [List.getElem_map, List.getElem_take, List.getElem_range]
  exact this

/-- One iteration from any contents of the scratch vectors: what it reads and stores. -/
theorem permuteBody_some {α : Type} (datain : List α) (shape ord : List Nat) (flipdim : Int)
    (hperm : ord.Perm (List.range ord.length)) (hlen : ord.length = shape.length)
    (hpos : ∀ e ∈ shape, 0 < e) (hflip : flipdim < (shape.length : Int))
    (hin : shape.prod ≤ datain.length) (p : Nat) (hp : p < shape.prod) (s : PermuteState α)
    (hidx : s.idx.length = shape.length) (hdst : s.dstidx.length = shape.length)
    (hout : p < s.dataout.length) :
    ∃ s' x, permuteBody datain ((dstShape shape ord).map Int.ofNat)
        ((strides shape).map Int.ofNat) ((strides (dstShape shape ord)).map Int.ofNat)
        (ord.map Int.ofNat) shape.length flipdim p s = some s' ∧
      datain[srcIndex shape ord flipdim p]? = some x ∧
      s'.idx.length = shape.length ∧ s'.dstidx.length = shape.length ∧
      s'.dataout = s.dataout.set p x ∧
      s'.reads = s.reads ++ [(srcIndex shape ord flipdim p : Int)] ∧
      s'.writes = s.writes ++ [p] := by
  obtain ⟨x, hx, hbody⟩ := permuteBody_eq datain shape ord flipdim hperm hlen hpos hflip hin
    p hp s hidx hdst hout
  refine ⟨_, x, hbody, hx, ?_, ?_, rfl, rfl, rfl⟩
  · simp [length_scatter, hlen]
  · simp only [List.length_map]
    rw [length_flipAt, length_digits, length_dstShape, hlen]

/-- Running the iterations of the main loop in the order of any schedule of destination
indices: the positions in the schedule receive their elements, the others are untouched. -/
theorem schedule_run {α : Type} (datain : List α) (shape ord : List Nat) (flipdim : Int)
    (hperm : ord.Perm (List.range ord.length)) (hlen : ord.length = shape.length)
    (hpos : ∀ e ∈ shape, 0 < e) (hflip : flipdim < (shape.length : Int))
    (hin : shape.prod ≤ datain.length) (l : List Nat) (hl : ∀ p ∈ l, p < shape.prod)
    (s : PermuteState α) (hidx : s.idx.length = shape.length)
    (hdst : s.dstidx.length = shape.length) (hout : shape.prod ≤ s.dataout.length) :
    ∃ s', forSchedule (permuteBody datain ((dstShape shape ord).map Int.ofNat)
        ((strides shape).map Int.ofNat) ((strides (dstShape shape ord)).map Int.ofNat)
        (ord.map Int.ofNat) shape.length flipdim) l s = some s' ∧
      s'.dataout.length = s.dataout.length ∧
      (∀ p, p ∈ l → s'.dataout[p]? = datain[srcIndex shape ord flipdim p]?) ∧
      (∀ p, p ∉ l → s'.dataout[p]? = s.dataout[p]?) ∧
      s'.writes = s.writes ++ l := by
  induction l generalizing s with
  | nil => exact ⟨s, rfl, rfl, fun p hp => absurd hp (List.not_mem_nil _), fun p _ => rfl, by simp⟩
  | cons q l ih =>
    have hq : q < shape.prod := hl q (List.mem_cons_self _ _)
    obtain ⟨s1, x, hbody, hx, i1, i2, i3, -, i5⟩ := permuteBody_some datain shape ord flipdim
      hperm hlen hpos hflip hin q hq s hidx hdst (by omega)
    obtain ⟨s', hs', h1, h2, h3, h4⟩ := ih (fun p hp => hl p (List.mem_cons_of_mem _ hp)) s1
      i1 i2 (by rw [i3]; simpa using hout)
    refine ⟨s', ?_, by rw [h1, i3]; simp, ?_, ?_, by rw [h4, i5]; simp⟩
    · rw [forSchedule, hbody, Option.some_bind, hs']
    · intro p hp
      by_cases hpl : p ∈ l
      · exact h2 p hpl
      · have hpq : p = q := by
          rcases List.mem_cons.mp hp with h | h
          · exact h
          · exact absurd h hpl
        subst hpq
        rw [h3 p hpl, i3, List.getElem?_set, if_pos rfl, if_pos (by omega), hx]
    · intro p hp
      have hpq : q ≠ p := fun h => hp (h ▸ List.mem_cons_self _ _)
      have hpl : p ∉ l := fun h => hp (List.mem_cons_of_mem _ h)
      rw [h3 p hpl, i3, List.getElem?_set_ne hpq]

/-- C15: iterations of permute are independent. With a shape of positive extents whose element
count fits in `int`, `order` a permutation of the axes and `flipdim` negative or an axis: the
sequential loop, which carries `idx` and `dstidx` from one iteration to the next, completes,
also when every `int` operation is checked for overflow, and produces in
`dataout[0 .. total-1]` the map of a pure function of `p` alone (`permutePure`); an iteration
started from any contents of the scratch vectors reads the same source index `srcIndex p` and
stores the same element; and running the iterations in the order of any schedule that is a
permutation of `[0, total)`, from any scratch contents, produces the same `dataout`. -/
theorem permute_iterations_independent {α : Type} (datain dataout : List α)
    (shape ord : List Nat) (flipdim : Int)
    (hn : 1 ≤ shape.length) (hpos : ∀ e ∈ shape, 0 < e)
    (hperm : ord.Perm (List.range shape.length)) (hflip : flipdim < (shape.length : Int))
    (hin : datain.length = shape.prod) (hout : shape.prod ≤ dataout.length)
    (hfit : shape.prod ≤ INT_MAX) :
    ∃ st, caffe_cpu_permute datain dataout (shape.map Int.ofNat) (ord.map Int.ofNat)
        (shape.length : Int) flipdim = some st ∧
      caffe_cpu_permute_checked datain dataout (shape.map Int.ofNat) (ord.map Int.ofNat)
        (shape.length : Int) flipdim = some st ∧
      (st.dataout.take shape.prod).map some = permutePure datain shape ord flipdim ∧
      (∀ p, p < shape.prod → ∀ s : PermuteState α, s.idx.length = shape.length →
        s.dstidx.length = shape.length → p < s.dataout.length →
        ∃ s' x, permuteBody datain ((dstShape shape ord).map Int.ofNat)
            ((strides shape).map Int.ofNat) ((strides (dstShape shape ord)).map Int.ofNat)
            (ord.map Int.ofNat) shape.length flipdim p s = some s' ∧
          datain[srcIndex shape ord flipdim p]? = some x ∧
          s'.reads = s.reads ++ [(srcIndex shape ord flipdim p : Int)] ∧
          s'.dataout = s.dataout.set p x) ∧
      (∀ (schedule : List Nat) (idx0 dstidx0 : List Int),
        schedule.Perm (List.range shape.prod) → idx0.length = shape.length →
        dstidx0.length = shape.length →
        ∃ st', forSchedule (permuteBody datain ((dstShape shape ord).map Int.ofNat)
            ((strides shape).map Int.ofNat) ((strides (dstShape shape ord)).map Int.ofNat)
            (ord.map Int.ofNat) shape.length flipdim) schedule
            { idx := idx0, dstidx := dstidx0, dataout := dataout, reads := [], writes := [] }
            = some st' ∧
          st'.writes = schedule ∧
          st'.dataout = st.dataout) := by
  have hlen : ord.length = shape.length := by simpa using hperm.length_eq
  have hperm' : ord.Perm (List.range ord.length) := by rw [hlen]; exact hperm
  obtain ⟨st, hst, hl, hval, hrest, -, -⟩ := permute_run datain dataout shape ord flipdim hn
    hperm' hlen hpos hflip (le_of_eq hin.symm) hout
  have hc := permute_checked_of_perm datain dataout shape ord flipdim hn hperm' hlen hpos hflip
    (le_of_eq hin.symm) hout hfit
  refine ⟨st, hst, hc.trans hst, take_map_some_eq _ _ _ (by rw [hl]; exact hout) hval, ?_, ?_⟩
  · intro p hp s hidx hdst hps
    obtain ⟨s', x, hbody, hx, -, -, i3, i4, -⟩ := permuteBody_some datain shape ord flipdim
      hperm' hlen hpos hflip (le_of_eq hin.symm) p hp s hidx hdst hps
    exact ⟨s', x, hbody, hx, i4, i3⟩
  · intro schedule idx0 dstidx0 hsched hi0 hd0
    obtain ⟨st', hst', h1, h2, h3, h4⟩ := schedule_run datain shape ord flipdim hperm' hlen hpos
      hflip (le_of_eq hin.symm) schedule
      (fun p hp => List.mem_range.mp (hsched.subset hp))
      { idx := idx0, dstidx := dstidx0, dataout := dataout, reads := [], writes := [] }
      hi0 hd0 hout
    refine ⟨st', hst', by simpa using h4, ?_⟩
    refine List.ext_getElem? (fun p => ?_)
    by_cases hp : p < shape.prod
    · rw [h2 p (hsched.symm.subset (List.mem_range.mpr hp)), hval p hp]
    · have hnot : p ∉ schedule := fun h => hp (List.mem_range.mp (hsched.subset h))
      rw [h3 p hnot, hrest p (by omega)]

theorem permute_iterations_independent_witness :
    ∃ st, caffe_cpu_permute [10, 11, 12, 13, 14, 15] [0, 0, 0, 0, 0, 0]
        (([2, 3] : List Nat).map Int.ofNat) (([1, 0] : List Nat).map Int.ofNat)
        (([2, 3] : List Nat).length : Int) 0 = some st ∧
      caffe_cpu_permute_checked [10, 11, 12, 13, 14, 15] [0, 0, 0, 0, 0, 0]
        (([2, 3] : List Nat).map Int.ofNat) (([1, 0] : List Nat).map Int.ofNat)
        (([2, 3] : List Nat).length : Int) 0 = some st ∧
      (st.dataout.take ([2, 3] : List Nat).prod).map some
        = permutePure ([10, 11, 12, 13, 14, 15] : List Nat) [2, 3] [1, 0] 0 ∧
      ∃ st', forSchedule (permuteBody ([10, 11, 12, 13, 14, 15] : List Nat)
            ((dstShape [2, 3] [1, 0]).map Int.ofNat)
            ((strides [2, 3]).map Int.ofNat) ((strides (dstShape [2, 3] [1, 0])).map Int.ofNat)
            (([1, 0] : List Nat).map Int.ofNat) ([2, 3] : List Nat).length 0)
            [5, 0, 3, 1, 4, 2]
            { idx := [7, 7], dstidx := [9, 9], dataout := [0, 0, 0, 0, 0, 0], reads := [],
              writes := [] } = some st' ∧
          st'.writes = [5, 0, 3, 1, 4, 2] ∧ st'.dataout = st.dataout := by
  obtain ⟨st, h1, hc, h2, -, h4⟩ := permute_iterations_independent [10, 11, 12, 13, 14, 15]
    [0, 0, 0, 0, 0, 0] [2, 3] [1, 0] 0 (by decide) (by decide) (by decide) (by decide)
    (by decide) (by decide) (by decide)
  exact ⟨st, h1, hc, h2, h4 [5, 0, 3, 1, 4, 2] [7, 7] [9, 9] (by decide) (by decide) (by decide)⟩

/-! ## How often pairs are evaluated and locations stored to -/

theorem cast_pair_eq_iff (N i j r c : Nat) (hj : j < N) (hc : c < N) :
    (((r * N + c : Nat) : Int) = ((i * N + j : Nat) : Int)) ↔ (r = i ∧ c = j) := by
  constructor
  · intro h
    have h' : r * N + c = i * N + j := by exact_mod_cast h
    exact pair_index_inj N r c i j hc hj h'
  · rintro ⟨rfl, rfl⟩
    rfl

theorem distInner_trace_step {α : Type} [Zero α]
    (sub : Int → List α → List α → List α → List α) (dot : Int → List α → List α → α)
    (X : List α) (N D len r c : Nat) (s : DistState α) (hr : r < N) (hc : c < N)
    (hlen : N * N ≤ len) (hinv : TraceInv N len r c s) :
    ∃ s', distInner sub dot X (N : Int) (D : Int) r c s = some s' ∧
      TraceInv N len r (c + 1) s' := by
  obtain ⟨hl, hel, hev, hoff, hdiag⟩ := hinv
  by_cases hrc : r = c
  · subst hrc
    have hcast : (r : Int) * (N : Int) + (r : Int) = ((r * N + r : Nat) : Int) := by
      push_cast; ring
    refine ⟨_, distInner_diag sub dot X N D r s hr (by omega), ?_, ?_, ?_, ?_, ?_⟩
    · simpa using hl
    · show s.evals.length = _
      rw [hel]
      simp
    · intro i j hi hj
      show s.evals.count (i, j) = _
      rw [hev i j hi hj]
      split_ifs <;> first | rfl | omega
    · intro i j hi hj hij
      show (s.stores ++ [(r : Int) * (N : Int) + (r : Int)]).count _ = _
      have e1 := cast_pair_eq_iff N i j r r hj hr
      rw [hcast, List.count_append, hoff i j hi hj hij]
      simp only [List.count_cons, List.count_nil, beq_iff_eq, e1]
      split_ifs <;> omega
    · intro i hi
      show (s.stores ++ [(r : Int) * (N : Int) + (r : Int)]).count _ = _
      have e1 := cast_pair_eq_iff N i i r r hi hr
      rw [hcast, List.count_append, hdiag i hi]
      simp only [List.count_cons, List.count_nil, beq_iff_eq, e1]
      split_ifs <;> omega
  · have hc1 : (r : Int) * (N : Int) + (c : Int) = ((r * N + c : Nat) : Int) := by
      push_cast; ring
    have hc2 : (c : Int) * (N : Int) + (r : Int) = ((c * N + r : Nat) : Int) := by
      push_cast; ring
    refine ⟨_, distInner_offdiag sub dot X N D r c s hr hc hrc (by omega), ?_, ?_, ?_, ?_, ?_⟩
    · simpa using hl
    · show (s.evals ++ [(r, c)]).length = _
      rw [List.length_append, hel]
      simp only [List.length_singleton]
      split_ifs <;> omega
    · intro i j hi hj
      show (s.evals ++ [(r, c)]).count (i, j) = _
      rw [List.count_append, hev i j hi hj]
      simp only [List.count_cons, List.count_nil, beq_iff_eq, Prod.mk.injEq]
      split_ifs <;> omega
    · intro i j hi hj hij
      show (s.stores ++ [(r : Int) * (N : Int) + (c : Int),
        (c : Int) * (N : Int) + (r : Int)]).count _ = _
      have e1 := cast_pair_eq_iff N i j r c hj hc
      have e2 := cast_pair_eq_iff N i j c r hj hr
      rw [hc1, hc2, List.count_append, hoff i j hi hj hij]
      simp only [List.count_cons, List.count_nil, beq_iff_eq, e1, e2]
      split_ifs <;> omega
    · intro i hi
      show (s.stores ++ [(r : Int) * (N : Int) + (c : Int),
        (c : Int) * (N : Int) + (r : Int)]).count _ = _
      have e1 := cast_pair_eq_iff N i i r c hi hc
      have e2 := cast_pair_eq_iff N i i c r hi hr
      rw [hc1, hc2, List.count_append, hdiag i hi]
      simp only [List.count_cons, List.count_nil, beq_iff_eq, e1, e2]
      split_ifs <;> omega

/-- The ghost traces of a complete run of `Get_dist_matrix_cpu`. -/
theorem dist_trace_run {α : Type} [Zero α]
    (sub : Int → List α → List α → List α → List α) (dot : Int → List α → List α → α)
    (X dm : List α) (N D : Nat) (hlen : N * N ≤ dm.length) :
    ∃ st, Get_dist_matrix_cpu sub dot X (N : Int) (D : Int) dm = some st ∧
      TraceInv N dm.length N 0 st := by
  unfold Get_dist_matrix_cpu
  rw [if_neg (by omega)]
  simp only [Int.toNat_ofNat]
  exact forUp_invariant
    (fun r => forUp (distInner sub dot X (N : Int) (D : Int) r) N 0)
    (fun r s => TraceInv N dm.length r 0 s) N
    { t := List.replicate D 0, dist := 0, distmatrix := dm, evals := [], stores := [] }
    ⟨rfl, by simp, fun i j _ _ => by simp, fun i j _ _ _ => by simp, fun i _ => by simp⟩
    (by
      intro r s hr hinv
      obtain ⟨s', hs', hl, hel, hev, hoff, hdiag⟩ := forUp_invariant
        (distInner sub dot X (N : Int) (D : Int) r) (fun c s => TraceInv N dm.length r c s) N s
        hinv (fun c s hc hi => distInner_trace_step sub dot X N D dm.length r c s hr hc hlen hi)
      refine ⟨s', hs', hl, ?_, ?_, ?_, ?_⟩
      · rw [hel, if_neg (by omega), if_pos (Nat.zero_le _)]
        generalize N - 1 = M
        ring
      · intro i j hi hj
        rw [hev i j hi hj]
        split_ifs <;> first | rfl | omega
      · intro i j hi hj hij
        rw [hoff i j hi hj hij]
        split_ifs <;> omega
      · intro i hi
        rw [hdiag i hi]
        split_ifs <;> first | rfl | omega)

/-- C14 fails on the code: for `feaNum = 2`, `feaDim = 2` and rows `[0, 0]`, `[3, 4]` the
subtract and dot primitives are evaluated for both `(0, 1)` and `(1, 0)`, two evaluations instead
of `feaNum*(feaNum-1)/2 = 1`, and the locations `1` and `2` of `distmatrix` are each stored to by
both iterations; the final matrix is `[0, 25, 25, 0]` all the same. -/
theorem dist_matrix_pair_evaluated_twice :
    (Get_dist_matrix_cpu subExact dotExact ([0, 0, 3, 4] : List Int) 2 2 [9, 9, 9, 9]).map
        (fun st => (st.evals, st.stores, st.distmatrix))
      = some ([(0, 1), (1, 0)], [0, 1, 2, 2, 1, 3], [0, 25, 25, 0]) ∧
    ([(0, 1), (1, 0)] : List (Nat × Nat)).length ≠ 2 * (2 - 1) / 2 ∧
    ([0, 1, 2, 2, 1, 3] : List Int).count 1 = 2 ∧
    ([0, 1, 2, 2, 1, 3] : List Int).count 2 = 2 := by
  decide

/-- The loops of `Get_dist_matrix_cpu` visit ordered pairs: whatever the primitives, with
`feaNum * feaNum` and `feaNum * feaDim` fitting in `int`, every ordered pair `(r, c)` with
`r != c` is processed by exactly one loop iteration (one subtract and one dot evaluation,
`feaNum*(feaNum-1)` evaluations in total, none for `r = c`), so every unordered pair is processed
twice; the iteration for `(r, c)` stores to the two locations `[r][c]` and `[c][r]`; every
off-diagonal location of `distmatrix` is stored to exactly twice and every diagonal location
exactly once. -/
theorem dist_ordered_pairs_each_evaluated {α : Type} [Zero α]
    (sub : Int → List α → List α → List α → List α) (dot : Int → List α → List α → α)
    (X dm : List α) (feaNum feaDim : Nat) (hdm : feaNum * feaNum ≤ dm.length)
    (hfit : feaNum * feaNum ≤ INT_MAX) (hfitX : feaNum * feaDim ≤ INT_MAX) :
    (∃ st, Get_dist_matrix_cpu sub dot X (feaNum : Int) (feaDim : Int) dm = some st ∧
      Get_dist_matrix_cpu_checked sub dot X (feaNum : Int) (feaDim : Int) dm = some st ∧
      st.evals.length = feaNum * (feaNum - 1) ∧
      (∀ r c, r < feaNum → c < feaNum → r ≠ c → st.evals.count (r, c) = 1) ∧
      (∀ r, r < feaNum → st.evals.count (r, r) = 0) ∧
      (∀ r c, r < feaNum → c < feaNum → r ≠ c →
        st.stores.count ((r * feaNum + c : Nat) : Int) = 2) ∧
      (∀ r, r < feaNum → st.stores.count ((r * feaNum + r : Nat) : Int) = 1)) ∧
    (∀ r c (s : DistState α), r < feaNum → c < feaNum → r ≠ c →
      feaNum * feaNum ≤ s.distmatrix.length →
      ∃ s', distInner sub dot X (feaNum : Int) (feaDim : Int) r c s = some s' ∧
        s'.evals = s.evals ++ [(r, c)] ∧
        s'.stores = s.stores ++ [((r * feaNum + c : Nat) : Int),
                                 ((c * feaNum + r : Nat) : Int)]) := by
  constructor
  · obtain ⟨st, hst, -, hel, hev, hoff, hdiag⟩ := dist_trace_run sub dot X dm feaNum feaDim hdm
    refine ⟨st, hst, (dist_checked_eq sub dot X dm feaNum feaDim hfit hfitX).trans hst,
      ?_, ?_, ?_, ?_, ?_⟩
    · rw [hel]
      simp
    · intro r c hr hc hrc
      rw [hev r c hr hc, if_pos ⟨hrc, Or.inl hr⟩]
    · intro r hr
      rw [hev r r hr hr, if_neg (fun h => h.1 rfl)]
    · intro r c hr hc hrc
      rw [hoff r c hr hc hrc, if_pos (Or.inl hr), if_pos (Or.inl hc)]
    · intro r hr
      rw [hdiag r hr, if_pos (Or.inl hr)]
  · intro r c s hr hc hrc hl
    refine ⟨_, distInner_offdiag sub dot X feaNum feaDim r c s hr hc hrc hl, rfl, ?_⟩
    show s.stores ++ _ = _
    congr 2

theorem dist_ordered_pairs_each_evaluated_example :
    ∃ st, Get_dist_matrix_cpu subExact dotExact ([0, 0, 3, 4, 1, 1] : List Int)
        ((3 : Nat) : Int) ((2 : Nat) : Int) [9, 9, 9, 9, 9, 9, 9, 9, 9] = some st ∧
      Get_dist_matrix_cpu_checked subExact dotExact ([0, 0, 3, 4, 1, 1] : List Int)
        ((3 : Nat) : Int) ((2 : Nat) : Int) [9, 9, 9, 9, 9, 9, 9, 9, 9] = some st ∧
      st.evals.length = 3 * (3 - 1) ∧
      (∀ r c, r < 3 → c < 3 → r ≠ c → st.evals.count (r, c) = 1) ∧
      (∀ r, r < 3 → st.evals.count (r, r) = 0) ∧
      (∀ r c, r < 3 → c < 3 → r ≠ c → st.stores.count ((r * 3 + c : Nat) : Int) = 2) ∧
      (∀ r, r < 3 → st.stores.count ((r * 3 + r : Nat) : Int) = 1) :=
  (dist_ordered_pairs_each_evaluated subExact dotExact ([0, 0, 3, 4, 1, 1] : List Int)
    [9, 9, 9, 9, 9, 9, 9, 9, 9] 3 2 (by decide) (by decide) (by decide)).1

/-! ## `caffe_set` -/

theorem caffe_set_fill_eq (N : Nat) (alpha : Int) (Y : List Int) (hN : N ≤ Y.length) :
    caffe_set_fill (N : Int) alpha Y = some (List.replicate N alpha ++ Y.drop N) := by
  unfold caffe_set_fill
  rw [Int.toNat_ofNat, forUp_fill _ (fun _ => alpha) Y N hN
    (fun j w hj hw => setAt_eq_some _ _ _ (by omega))]
  congr 2
  exact List.ext_getElem (by simp) (fun i h1 h2 => by simp)

theorem memsetZero_eq (N : Nat) (Y : List Int) (hN : N ≤ Y.length) :
    memsetZero Y (N : Int) = some (List.replicate N 0 ++ Y.drop N) := by
  unfold memsetZero
  rw [Int.toNat_ofNat, if_pos ⟨Int.ofNat_nonneg _, hN⟩]

/-- C19: for `N >= 0` and a buffer of at least `N` elements, after `caffe_set(N, alpha, Y)`
every `Y[i]` with `i < N` equals `alpha` and no other element is changed; and when
`alpha == 0` the `memset` branch yields exactly the result of the fill loop with `alpha = 0`. -/
theorem caffe_set_zero_path_agrees_with_fill (N : Nat) (alpha : Int) (Y : List Int)
    (hN : N ≤ Y.length) :
    (∃ Y', caffe_set (N : Int) alpha Y = some Y' ∧ Y'.length = Y.length ∧
      (∀ i, i < N → Y'[i]? = some alpha) ∧ (∀ i, N ≤ i → Y'[i]? = Y[i]?)) ∧
    caffe_set (N : Int) 0 Y = memsetZero Y (N : Int) ∧
    memsetZero Y (N : Int) = caffe_set_fill (N : Int) 0 Y := by
  have hres : caffe_set (N : Int) alpha Y = some (List.replicate N alpha ++ Y.drop N) := by
    unfold caffe_set
    by_cases h : alpha = 0
    · rw [if_pos h, memsetZero_eq N Y hN, h]
    · rw [if_neg h, caffe_set_fill_eq N alpha Y hN]
  refine ⟨⟨_, hres, by simp; omega, fun i hi => ?_, fun i hi => ?_⟩, by simp [caffe_set], ?_⟩
  · rw [List.getElem?_append_left (by simpa using hi)]
    simp [hi]
  · rw [List.getElem?_append_right (by simpa using hi)]
    simp only [List.length_replicate, List.getElem?_drop]
    congr 1
    omega
  · rw [memsetZero_eq N Y hN, caffe_set_fill_eq N 0 Y hN]

theorem caffe_set_zero_path_agrees_with_fill_witness :
    (∃ Y', caffe_set ((3 : Nat) : Int) 0 [5, 6, 7, 8] = some Y' ∧
      Y'.length = ([5, 6, 7, 8] : List Int).length ∧
      (∀ i, i < 3 → Y'[i]? = some 0) ∧
      (∀ i, 3 ≤ i → Y'[i]? = ([5, 6, 7, 8] : List Int)[i]?)) ∧
    caffe_set ((3 : Nat) : Int) 0 [5, 6, 7, 8] = memsetZero [5, 6, 7, 8] ((3 : Nat) : Int) ∧
    memsetZero [5, 6, 7, 8] ((3 : Nat) : Int) = caffe_set_fill ((3 : Nat) : Int) 0 [5, 6, 7, 8] :=
  caffe_set_zero_path_agrees_with_fill 3 0 [5, 6, 7, 8] (by decide)

/-! ## The random samplers -/

theorem CHECK_false {β G : Type} (r : Option (List β)) (gen : G) (k : RngResult β G) :
    CHECK false r gen k = RngResult.aborted r gen [] 0 := rfl

theorem CHECK_true {β G : Type} (r : Option (List β)) (gen : G) (k : RngResult β G) :
    CHECK true r gen k = k := rfl

theorem rngLoop_returns {β G : Type} (draw : G → β × G) (n : Nat) (buf : List β) (gen : G)
    (hn : n ≤ buf.length) :
    ∃ s, rngLoop draw (n : Int) (some buf) gen = RngResult.returned s ∧
      s.writes = List.range n ∧ s.draws = n ∧ s.r.length = buf.length ∧
      (∀ i, n ≤ i → s.r[i]? = buf[i]?) ∧
      (∀ i, i < n → s.r[i]? = some (draw (genAfter draw i gen)).1) ∧
      s.gen = genAfter draw n gen := by
  obtain ⟨s, hs, h1, h2, h3, h4, h5, h6⟩ := forUp_invariant (rngLoopBody draw)
    (fun k s => s.writes = List.range k ∧ s.draws = k ∧ s.r.length = buf.length ∧
      (∀ i, k ≤ i → s.r[i]? = buf[i]?) ∧
      (∀ i, i < k → s.r[i]? = some (draw (genAfter draw i gen)).1) ∧
      s.gen = genAfter draw k gen)
    n { r := buf, gen := gen, writes := [], draws := 0 }
    ⟨by simp, rfl, rfl, fun i _ => rfl, fun i hi => absurd hi (Nat.not_lt_zero _), rfl⟩
    (by
      intro k s hk ⟨i1, i2, i3, i4, i5, i6⟩
      refine ⟨{ r := s.r.set k (draw s.gen).1, gen := (draw s.gen).2,
                writes := s.writes ++ [k], draws := s.draws + 1 }, ?_, ?_, ?_, ?_, ?_, ?_, ?_⟩
      · unfold rngLoopBody
        rw [setAt_eq_some _ _ _ (by omega), Option.some_bind]
      · simp [i1, List.range_succ]
      · simp [i2]
      · simpa using i3
      · intro i hi
        show (s.r.set k _)[i]? = _
        rw [List.getElem?_set_ne (by omega)]
        exact i4 i (by omega)
      · intro i hi
        show (s.r.set k _)[i]? = _
        rcases Nat.lt_succ_iff_lt_or_eq.mp hi with hik | rfl
        · rw [List.getElem?_set_ne (by omega)]
          exact i5 i hik
        · rw [List.getElem?_set, if_pos rfl, if_pos (by omega), i6]
      · show (draw s.gen).2 = genAfter draw (k + 1) gen
        rw [i6]
        rfl)
  refine ⟨s, ?_, h1, h2, h3, h4, h5, h6⟩
  unfold rngLoop
  simp only [Int.toNat_ofNat, hs]

/-- The generator after `k` draws depends only on how a draw advances the generator. -/
theorem genAfter_congr {β γ G : Type} (d1 : G → β × G) (d2 : G → γ × G)
    (h : ∀ g, (d1 g).2 = (d2 g).2) (k : Nat) (g : G) : genAfter d1 k g = genAfter d2 k g := by
  induction k with
  | zero => rfl
  | succ k ih =>
    show (d1 (genAfter d1 k g)).2 = (d2 (genAfter d2 k g)).2
    rw [ih, h]

/-- C13: sampler validation is atomic. `caffe_rng_uniform`, `caffe_rng_gaussian` and
`caffe_rng_bernoulli` (with `int` and with `unsigned int` output) are aborted by a failed check
before any element of `r` is stored and before any draw from the generator, whenever `n < 0` or
`r` is null, and also when `a > b` (uniform), `sigma <= 0` (gaussian) or `p < 0` or `p > 1`
(bernoulli); when all checks pass and `r` holds at least `n` elements they return having stored
to exactly the positions `0, ..., n-1` of `r`, in this order and with one draw each: `r[i]` is
the value of draw number `i` (for bernoulli `1` or `0` as the drawn `bool` is true or false),
the elements of `r` from position `n` on are unchanged, and the generator is left in its state
after `n` draws. -/
theorem samplers_validate_before_sampling {α G : Type} [LinearOrder α] [Zero α] [One α]
    (nextafter : α → α) (uniform_real normal_distribution : α → α → G → α × G)
    (bernoulli_distribution : α → G → Bool × G) :
    (∀ (n : Int) (a b : α) (r : Option (List α)) (gen : G), n < 0 ∨ r = none ∨ b < a →
      caffe_rng_uniform nextafter uniform_real n a b r gen = RngResult.aborted r gen [] 0) ∧
    (∀ (n : Nat) (a b : α) (buf : List α) (gen : G), a ≤ b → n ≤ buf.length → n ≤ INT_MAX →
      ∃ s, caffe_rng_uniform nextafter uniform_real (n : Int) a b (some buf) gen
          = RngResult.returned s ∧
        s.writes = List.range n ∧ s.draws = n ∧ s.r.length = buf.length ∧
        (∀ i, n ≤ i → s.r[i]? = buf[i]?) ∧
        (∀ i, i < n → s.r[i]? = some
          (uniform_real a (nextafter b) (genAfter (uniform_real a (nextafter b)) i gen)).1) ∧
        s.gen = genAfter (uniform_real a (nextafter b)) n gen) ∧
    (∀ (n : Int) (a sigma : α) (r : Option (List α)) (gen : G),
      n < 0 ∨ r = none ∨ sigma ≤ 0 →
      caffe_rng_gaussian normal_distribution n a sigma r gen = RngResult.aborted r gen [] 0) ∧
    (∀ (n : Nat) (a sigma : α) (buf : List α) (gen : G), 0 < sigma → n ≤ buf.length →
      n ≤ INT_MAX →
      ∃ s, caffe_rng_gaussian normal_distribution (n : Int) a sigma (some buf) gen
          = RngResult.returned s ∧
        s.writes = List.range n ∧ s.draws = n ∧ s.r.length = buf.length ∧
        (∀ i, n ≤ i → s.r[i]? = buf[i]?) ∧
        (∀ i, i < n → s.r[i]? = some
          (normal_distribution a sigma (genAfter (normal_distribution a sigma) i gen)).1) ∧
        s.gen = genAfter (normal_distribution a sigma) n gen) ∧
    (∀ (n : Int) (p : α) (r : Option (List Int)) (gen : G),
      n < 0 ∨ r = none ∨ p < 0 ∨ 1 < p →
      caffe_rng_bernoulli bernoulli_distribution n p r gen = RngResult.aborted r gen [] 0) ∧
    (∀ (n : Nat) (p : α) (buf : List Int) (gen : G), 0 ≤ p → p ≤ 1 → n ≤ buf.length →
      n ≤ INT_MAX →
      ∃ s, caffe_rng_bernoulli bernoulli_distribution (n : Int) p (some buf) gen
          = RngResult.returned s ∧
        s.writes = List.range n ∧ s.draws = n ∧ s.r.length = buf.length ∧
        (∀ i, n ≤ i → s.r[i]? = buf[i]?) ∧
        (∀ i, i < n → s.r[i]? = some
          (if (bernoulli_distribution p (genAfter (bernoulli_distribution p) i gen)).1
            then 1 else 0)) ∧
        s.gen = genAfter (bernoulli_distribution p) n gen) ∧
    (∀ (n : Int) (p : α) (r : Option (List Nat)) (gen : G),
      n < 0 ∨ r = none ∨ p < 0 ∨ 1 < p →
      caffe_rng_bernoulli_unsigned bernoulli_distribution n p r gen
        = RngResult.aborted r gen [] 0) ∧
    (∀ (n : Nat) (p : α) (buf : List Nat) (gen : G), 0 ≤ p → p ≤ 1 → n ≤ buf.length →
      n ≤ INT_MAX →
      ∃ s, caffe_rng_bernoulli_unsigned bernoulli_distribution (n : Int) p (some buf) gen
          = RngResult.returned s ∧
        s.writes = List.range n ∧ s.draws = n ∧ s.r.length = buf.length ∧
        (∀ i, n ≤ i → s.r[i]? = buf[i]?) ∧
        (∀ i, i < n → s.r[i]? = some
          (if (bernoulli_distribution p (genAfter (bernoulli_distribution p) i gen)).1
            then 1 else 0)) ∧
        s.gen = genAfter (bernoulli_distribution p) n gen) := by
  refine ⟨?_, ?_, ?_, ?_, ?_, ?_, ?_, ?_⟩
  · intro n a b r gen h
    unfold caffe_rng_uniform
    by_cases h1 : 0 ≤ n
    · rw [decide_eq_true h1, CHECK_true]
      cases r with
      | none => rfl
      | some buf =>
        have h3 : ¬ a ≤ b := by
          rcases h with h | h | h
          · omega
          · exact absurd h (by simp)
          · exact not_le.mpr h
        simp only [Option.isSome_some, CHECK_true, decide_eq_false h3, CHECK_false]
    · rw [decide_eq_false h1, CHECK_false]
  · intro n a b buf gen hab hn _
    unfold caffe_rng_uniform
    simp only [decide_eq_true (Int.ofNat_nonneg n), Option.isSome_some, decide_eq_true hab,
      CHECK_true]
    exact rngLoop_returns _ n buf gen hn
  · intro n a sigma r gen h
    unfold caffe_rng_gaussian
    by_cases h1 : 0 ≤ n
    · rw [decide_eq_true h1, CHECK_true]
      cases r with
      | none => rfl
      | some buf =>
        have h3 : ¬ 0 < sigma := by
          rcases h with h | h | h
          · omega
          · exact absurd h (by simp)
          · exact not_lt.mpr h
        simp only [Option.isSome_some, CHECK_true, decide_eq_false h3, CHECK_false]
    · rw [decide_eq_false h1, CHECK_false]
  · intro n a sigma buf gen hs hn _
    unfold caffe_rng_gaussian
    simp only [decide_eq_true (Int.ofNat_nonneg n), Option.isSome_some, decide_eq_true hs,
      CHECK_true]
    exact rngLoop_returns _ n buf gen hn
  · intro n p r gen h
    unfold caffe_rng_bernoulli
    by_cases h1 : 0 ≤ n
    · rw [decide_eq_true h1, CHECK_true]
      cases r with
      | none => rfl
      | some buf =>
        simp only [Option.isSome_some, CHECK_true]
        by_cases h2 : 0 ≤ p
        · have h3 : ¬ p ≤ 1 := by
            rcases h with h | h | h | h
            · omega
            · exact absurd h (by simp)
            · exact absurd h2 (not_le.mpr h)
            · exact not_le.mpr h
          rw [decide_eq_true h2, CHECK_true, decide_eq_false h3, CHECK_false]
        · rw [decide_eq_false h2, CHECK_false]
    · rw [decide_eq_false h1, CHECK_false]
  · intro n p buf gen h0 h1 hn _
    unfold caffe_rng_bernoulli
    simp only [decide_eq_true (Int.ofNat_nonneg n), Option.isSome_some, decide_eq_true h0,
      decide_eq_true h1, CHECK_true]
    obtain ⟨s, hs, e1, e2, e3, e4, e5, e6⟩ := rngLoop_returns
      (fun g => (if (bernoulli_distribution p g).1 then (1 : Int) else 0,
        (bernoulli_distribution p g).2)) n buf gen hn
    have hg := genAfter_congr
      (fun g => (if (bernoulli_distribution p g).1 then (1 : Int) else 0,
        (bernoulli_distribution p g).2)) (bernoulli_distribution p) (fun _ => rfl)
    refine ⟨s, hs, e1, e2, e3, e4, fun i hi => ?_, by rw [e6, hg]⟩
    rw [e5 i hi, hg]
  · intro n p r gen h
    unfold caffe_rng_bernoulli_unsigned
    by_cases h1 : 0 ≤ n
    · rw [decide_eq_true h1, CHECK_true]
      cases r with
      | none => rfl
      | some buf =>
        simp only [Option.isSome_some, CHECK_true]
        by_cases h2 : 0 ≤ p
        · have h3 : ¬ p ≤ 1 := by
            rcases h with h | h | h | h
            · omega
            · exact absurd h (by simp)
            · exact absurd h2 (not_le.mpr h)
            · exact not_le.mpr h
          rw [decide_eq_true h2, CHECK_true, decide_eq_false h3, CHECK_false]
        · rw [decide_eq_false h2, CHECK_false]
    · rw [decide_eq_false h1, CHECK_false]
  · intro n p buf gen h0 h1 hn _
    unfold caffe_rng_bernoulli_unsigned
    simp only [decide_eq_true (Int.ofNat_nonneg n), Option.isSome_some, decide_eq_true h0,
      decide_eq_true h1, CHECK_true]
    obtain ⟨s, hs, e1, e2, e3, e4, e5, e6⟩ := rngLoop_returns
      (fun g => (if (bernoulli_distribution p g).1 then (1 : Nat) else 0,
        (bernoulli_distribution p g).2)) n buf gen hn
    have hg := genAfter_congr
      (fun g => (if (bernoulli_distribution p g).1 then (1 : Nat) else 0,
        (bernoulli_distribution p g).2)) (bernoulli_distribution p) (fun _ => rfl)
    refine ⟨s, hs, e1, e2, e3, e4, fun i hi => ?_, by rw [e6, hg]⟩
    rw [e5 i hi, hg]

theorem samplers_validate_before_sampling_witness :
    caffe_rng_uniform (fun x : Int => x + 1) (fun lo hi (g : Int) => (lo + g % (hi - lo), g + 7))
        3 12 10 (some [0, 0, 0, 0]) 5 = RngResult.aborted (some [0, 0, 0, 0]) 5 [] 0 ∧
    (∃ s, caffe_rng_uniform (fun x : Int => x + 1)
          (fun lo hi (g : Int) => (lo + g % (hi - lo), g + 7))
          ((3 : Nat) : Int) 2 10 (some [0, 0, 0, 0]) 5 = RngResult.returned s ∧
      s.writes = List.range 3 ∧ s.draws = 3 ∧ s.r.length = ([0, 0, 0, 0] : List Int).length ∧
      (∀ i, 3 ≤ i → s.r[i]? = ([0, 0, 0, 0] : List Int)[i]?) ∧
      (∀ i, i < 3 → s.r[i]? = some
        ((fun lo hi (g : Int) => (lo + g % (hi - lo), g + 7)) 2 ((fun x : Int => x + 1) 10)
          (genAfter ((fun lo hi (g : Int) => (lo + g % (hi - lo), g + 7)) 2
            ((fun x : Int => x + 1) 10)) i 5)).1) ∧
      s.gen = genAfter ((fun lo hi (g : Int) => (lo + g % (hi - lo), g + 7)) 2
        ((fun x : Int => x + 1) 10)) 3 5) ∧
    caffe_rng_uniform (fun x : Int => x + 1) (fun lo hi (g : Int) => (lo + g % (hi - lo), g + 7))
        3 2 10 (some [0, 0, 0, 0]) 5
      = (RngResult.returned { r := [7, 5, 3, 0], gen := 26, writes := [0, 1, 2], draws := 3 } :
          RngResult Int Int) ∧
    caffe_rng_bernoulli (fun (p : Int) (g : Int) => (decide (g % 2 < p), g + 1))
        3 1 (some [9, 9, 9, 9]) 4
      = (RngResult.returned { r := [1, 0, 1, 9], gen := 7, writes := [0, 1, 2], draws := 3 } :
          RngResult Int Int) :=
  ⟨(samplers_validate_before_sampling (fun x : Int => x + 1)
      (fun lo hi (g : Int) => (lo + g % (hi - lo), g + 7))
      (fun lo hi (g : Int) => (lo + g % (hi - lo), g + 7))
      (fun p (g : Int) => (decide (g % 2 < p), g + 1))).1 3 12 10 (some [0, 0, 0, 0]) 5
      (Or.inr (Or.inr (by decide))),
    (samplers_validate_before_sampling (fun x : Int => x + 1)
      (fun lo hi (g : Int) => (lo + g % (hi - lo), g + 7))
      (fun lo hi (g : Int) => (lo + g % (hi - lo), g + 7))
      (fun p (g : Int) => (decide (g % 2 < p), g + 1))).2.1 3 2 10 [0, 0, 0, 0] 5
      (by decide) (by decide) (by decide),
    rfl, rfl⟩

end Caffe
